import Mathlib

/-!
# Chatterbox: a double-ratchet messaging session (`chatter.go`)

A shallow embedding of `chatter.go` and theorems about its handshake and its
send / receive pipelines.

Modelling conventions.

* Go pointers that may be nil (`*KeyPair`, `*PublicKey`, `*SymmetricKey`) are
  `Option` values; `none` is the nil pointer.
* Every operation returns an outer `Option`: `none` is a run-time panic (a nil
  pointer dereference), `some r` is a normal return with the Go results `r`.
  The cryptographic primitives read the key material of their receiver and of
  their arguments, so handing them a nil pointer is a nil dereference.
  What a panicking call has written by the time it panics is given separately
  (`sendPanicState`, `receivePanicState`, `panicState`); runs of calls go on
  from there.
* The Go `error` result is `GoError`: `none` is `nil`, `some msg` an error.
* The primitives live outside `chatter.go`; they are the fields of `Crypto`,
  and every definition and theorem is parametric in them.
* Randomness (`GenerateKeyPair()`, `NewIV()`) is an explicit argument.
* Go `int` counters are mathematical integers (a counter would have to pass
  `2^63 - 1` to wrap); the `uint32` conversions of the codec are explicit.
* Go maps are association lists with unique keys (`mapGet`, `mapSet`).
-/

namespace Chatterbox

/-- A Go byte slice. -/
abbrev Bytes := List Nat

/-- A Go `error` value: `none` is `nil`. -/
abbrev GoError := Option String

/-- The external primitive layer: key types, fingerprints, Diffie-Hellman,
key combination and derivation, AEAD and secure wipe. -/
structure Crypto where
  PrivateKey : Type
  PublicKey : Type
  SymmetricKey : Type
  decPub : DecidableEq PublicKey
  FINGERPRINT_LENGTH : Nat
  Fingerprint : PublicKey → Bytes
  pubOf : PrivateKey → PublicKey
  DHCombine : PublicKey → PrivateKey → SymmetricKey
  CombineKeys : List SymmetricKey → SymmetricKey
  DeriveKey : SymmetricKey → Nat → SymmetricKey
  AuthenticatedEncrypt : SymmetricKey → String → Bytes → Bytes → Bytes
  AuthenticatedDecrypt : SymmetricKey → Bytes → Bytes → Bytes → String × GoError
  Zeroize : SymmetricKey → SymmetricKey

instance (P : Crypto) : DecidableEq P.PublicKey := P.decPub

/-- Label for generating a check key from the initial root. -/
def HANDSHAKE_CHECK_LABEL : Nat := 0x11

/-- Label for ratcheting the root key. -/
def ROOT_LABEL : Nat := 0x22

/-- Label for ratcheting the main chain of keys. -/
def CHAIN_LABEL : Nat := 0x33

/-- Label for deriving message keys from chain keys. -/
def KEY_LABEL : Nat := 0x44

/-- A key pair as returned by `GenerateKeyPair()`. -/
structure KeyPair (P : Crypto) where
  PrivateKey : P.PrivateKey
  PublicKey : P.PublicKey

/-- The public half is the public key of the private half, as for every pair
that `GenerateKeyPair()` returns. -/
def KeyPair.WellFormed {P : Crypto} (k : KeyPair P) : Prop :=
  k.PublicKey = P.pubOf k.PrivateKey

/-- Lookup in a Go map; `none` when the key is absent. -/
def mapGet {κ ν : Type} [DecidableEq κ] : List (κ × ν) → κ → Option ν
  | [], _ => none
  | (k', v) :: r, k => if k' = k then some v else mapGet r k

/-- Assignment `m[k] = v` in a Go map. -/
def mapSet {κ ν : Type} [DecidableEq κ] : List (κ × ν) → κ → ν → List (κ × ν)
  | [], k, v => [(k, v)]
  | (k', v') :: r, k, v => if k' = k then (k, v) :: r else (k', v') :: mapSet r k v

/-- Removal `delete(m, k)` from a Go map. -/
def mapDelete {κ ν : Type} [DecidableEq κ] : List (κ × ν) → κ → List (κ × ν)
  | [], _ => []
  | (k', v') :: r, k => if k' = k then mapDelete r k else (k', v') :: mapDelete r k

/-- Session state of one chatter for one partner (`type Session struct`). -/
structure Session (P : Crypto) where
  MyDHRatchet : Option (KeyPair P)
  PartnerDHRatchet : Option P.PublicKey
  RootChain : Option P.SymmetricKey
  SendChain : Option P.SymmetricKey
  ReceiveChain : Option P.SymmetricKey
  CachedReceiveKeys : List (Int × P.SymmetricKey)
  SendCounter : Int
  LastUpdate : Int
  ReceiveCounter : Int
  Change : Bool

/-- A message on the wire (`type Message struct`). -/
structure Message (P : Crypto) where
  Sender : Option P.PublicKey
  Receiver : Option P.PublicKey
  NextDHRatchet : Option P.PublicKey
  Counter : Int
  LastUpdate : Int
  Ciphertext : Bytes
  IV : Bytes
  Change : Bool

/-- A chat participant (`type Chatter struct`). -/
structure Chatter (P : Crypto) where
  Identity : Option (KeyPair P)
  Sessions : List (P.PublicKey × Session P)

/-- The chatter after `c.Sessions[k] = s`, and equally after a write through
the session pointer stored at `c.Sessions[k]`. -/
def Chatter.setSession {P : Crypto} (c : Chatter P) (k : P.PublicKey) (s : Session P) :
    Chatter P :=
  { c with Sessions := mapSet c.Sessions k s }

/-- The four bytes written by `binary.LittleEndian.PutUint32(buf, uint32(v))`. -/
def putUint32 (v : Int) : Bytes :=
  let n := (v % 2 ^ 32).toNat
  [n % 256, n / 256 % 256, n / 65536 % 256, n / 16777216 % 256]

/-- Go's `copy(dst, src)`: overwrites the first `min (len dst) (len src)` bytes. -/
def goCopy (dst src : Bytes) : Bytes :=
  src.take dst.length ++ dst.drop src.length

/-- The buffer after `copy(buf[off:], src)`. -/
def copyAt (buf : Bytes) (off : Nat) (src : Bytes) : Bytes :=
  buf.take off ++ goCopy (buf.drop off) src

/-- The method `(m *Message) EncodeAdditionalData()`. -/
def EncodeAdditionalData (P : Crypto) (m : Message P) : Bytes :=
  let buf : Bytes := List.replicate (8 + 3 * P.FINGERPRINT_LENGTH) 0
  let buf := copyAt buf 0 (putUint32 m.Counter)
  let buf := copyAt buf 4 (putUint32 m.LastUpdate)
  let buf := match m.Sender with
    | some k => copyAt buf 8 (P.Fingerprint k)
    | none => buf
  let buf := match m.Receiver with
    | some k => copyAt buf (8 + P.FINGERPRINT_LENGTH) (P.Fingerprint k)
    | none => buf
  match m.NextDHRatchet with
  | some k => copyAt buf (8 + 2 * P.FINGERPRINT_LENGTH) (P.Fingerprint k)
  | none => buf

/-- The function `NewChatter()`, with the generated identity as argument. -/
def NewChatter (P : Crypto) (identity : KeyPair P) : Chatter P :=
  { Identity := some identity, Sessions := [] }

/-- The method `InitiateHandshake`; `pair` is the result of `GenerateKeyPair()`.
Results: the chatter afterwards, the returned key pointer, the error. -/
def InitiateHandshake (P : Crypto) (c : Chatter P) (partnerIdentity : Option P.PublicKey)
    (pair : KeyPair P) : Option (Chatter P × Option P.PublicKey × GoError) :=
  match partnerIdentity with
  | none => none
  | some pid =>
    match mapGet c.Sessions pid with
    | some _ => some (c, none, some "Already have session open")
    | none =>
      let session : Session P :=
        { MyDHRatchet := some pair
          PartnerDHRatchet := none
          RootChain := none
          SendChain := none
          ReceiveChain := none
          CachedReceiveKeys := []
          SendCounter := 0
          LastUpdate := 0
          ReceiveCounter := 0
          Change := false }
      some (c.setSession pid session, some pair.PublicKey, none)

/-- The method `ReturnHandshake`; `pair` is the result of `GenerateKeyPair()`.
Results: the chatter afterwards, the ephemeral key, the check key, the error. -/
def ReturnHandshake (P : Crypto) (c : Chatter P)
    (partnerIdentity partnerEphemeral : Option P.PublicKey) (pair : KeyPair P) :
    Option (Chatter P × Option P.PublicKey × Option P.SymmetricKey × GoError) :=
  match partnerIdentity with
  | none => none
  | some pid =>
    match mapGet c.Sessions pid with
    | some _ => some (c, none, none, some "Already have session open")
    | none =>
      match partnerEphemeral, c.Identity with
      | some peph, some ident =>
        let root := P.CombineKeys
          [P.DHCombine pid pair.PrivateKey,
           P.DHCombine peph ident.PrivateKey,
           P.DHCombine peph pair.PrivateKey]
        let session : Session P :=
          { MyDHRatchet := some pair
            PartnerDHRatchet := partnerEphemeral
            RootChain := some root
            SendChain := some (P.DeriveKey root CHAIN_LABEL)
            ReceiveChain := some (P.DeriveKey root CHAIN_LABEL)
            CachedReceiveKeys := []
            SendCounter := 0
            LastUpdate := 0
            ReceiveCounter := 0
            Change := true }
        some (c.setSession pid session,
              some pair.PublicKey, some (P.DeriveKey root HANDSHAKE_CHECK_LABEL), none)
      | _, _ => none

/-- The method `FinalizeHandshake`.
Results: the chatter afterwards, the check key, the error. -/
def FinalizeHandshake (P : Crypto) (c : Chatter P)
    (partnerIdentity partnerEphemeral : Option P.PublicKey) :
    Option (Chatter P × Option P.SymmetricKey × GoError) :=
  match partnerIdentity with
  | none => none
  | some pid =>
    match mapGet c.Sessions pid with
    | none => some (c, none, some "Can't finalize session, not yet open")
    | some session =>
      match partnerEphemeral, c.Identity, session.MyDHRatchet with
      | some peph, some ident, some my =>
        let root := P.CombineKeys
          [P.DHCombine peph ident.PrivateKey,
           P.DHCombine pid my.PrivateKey,
           P.DHCombine peph my.PrivateKey]
        let session : Session P :=
          { session with
            RootChain := some root
            SendChain := some (P.DeriveKey root CHAIN_LABEL)
            ReceiveChain := some (P.DeriveKey root CHAIN_LABEL)
            PartnerDHRatchet := partnerEphemeral }
        some (c.setSession pid session,
              some (P.DeriveKey root HANDSHAKE_CHECK_LABEL), none)
      | _, _, _ => none

/-- The body of `SendMessage` once the session has been found (lines 180-217);
`newKeys` is the result of `GenerateKeyPair()` (only drawn when the turn flag
is set), `IV` the result of `NewIV()`. Results: the session afterwards and the
message. -/
def sendOnSession (P : Crypto) (identity : Option (KeyPair P))
    (partnerIdentity : Option P.PublicKey) (s : Session P) (plaintext : String)
    (newKeys : KeyPair P) (IV : Bytes) : Option (Session P × Message P) :=
  let s : Session P := { s with SendCounter := s.SendCounter + 1 }
  let ratcheted : Option (Session P × Bool) :=
    if s.Change then
      let s : Session P := { s with MyDHRatchet := some newKeys }
      match s.RootChain, s.PartnerDHRatchet with
      | some rootChain, some partner =>
        let root := P.DeriveKey rootChain ROOT_LABEL
        let newRoot := P.CombineKeys [root, P.DHCombine partner newKeys.PrivateKey]
        some ({ s with
                RootChain := some newRoot
                SendChain := some (P.DeriveKey newRoot CHAIN_LABEL)
                LastUpdate := s.SendCounter
                Change := false }, true)
      | _, _ => none
    else some (s, false)
  match ratcheted with
  | none => none
  | some (s, d) =>
    match s.SendChain, identity, s.MyDHRatchet with
    | some chain, some ident, some my =>
      let key := P.DeriveKey chain KEY_LABEL
      let s : Session P := { s with SendChain := some (P.DeriveKey chain CHAIN_LABEL) }
      let message : Message P :=
        { Sender := some ident.PublicKey
          Receiver := partnerIdentity
          Counter := s.SendCounter
          NextDHRatchet := some my.PublicKey
          LastUpdate := s.LastUpdate
          Change := d
          Ciphertext := []
          IV := [] }
      let data := EncodeAdditionalData P message
      some (s, { message with
                 Ciphertext := P.AuthenticatedEncrypt key plaintext data IV
                 IV := IV })
    | _, _, _ => none

/-- The method `SendMessage`. Results: the chatter afterwards, the message
pointer (nil on error), the error. -/
def SendMessage (P : Crypto) (c : Chatter P) (partnerIdentity : Option P.PublicKey)
    (plaintext : String) (newKeys : KeyPair P) (IV : Bytes) :
    Option (Chatter P × Option (Message P) × GoError) :=
  match partnerIdentity with
  | none => none
  | some pid =>
    match mapGet c.Sessions pid with
    | none => some (c, none, some "Can't send message to partner with no open session")
    | some s =>
      match sendOnSession P c.Identity partnerIdentity s plaintext newKeys IV with
      | none => none
      | some (s', message) =>
        some (c.setSession pid s', some message, none)

/-- The receive-side DH-ratchet step, written out three times in
`ReceiveMessage` (lines 240-244, 264-268, 275-279). -/
def dhRatchet (P : Crypto) (m : Message P) (s : Session P) : Option (Session P) :=
  match s.RootChain, m.NextDHRatchet, s.MyDHRatchet with
  | some rootChain, some next, some my =>
    let root := P.DeriveKey rootChain ROOT_LABEL
    let newRoot := P.CombineKeys [root, P.DHCombine next my.PrivateKey]
    some { s with
           PartnerDHRatchet := m.NextDHRatchet
           RootChain := some newRoot
           ReceiveChain := some (P.DeriveKey newRoot CHAIN_LABEL)
           Change := true }
  | _, _, _ => none

/-- The counter bump of lines 235-237, done before the message is classified. -/
def bumpCounter {P : Crypto} (s : Session P) (m : Message P) : Session P :=
  if m.Counter ≥ s.ReceiveCounter then { s with ReceiveCounter := s.ReceiveCounter + 1 } else s

/-- The conditional ratchet step of lines 239-245. -/
def currentRatchet (P : Crypto) (m : Message P) (s : Session P) : Option (Session P) :=
  if m.Counter = s.ReceiveCounter ∧ m.Change = true ∧ s.Change = false then dhRatchet P m s
  else some s

/-- One iteration of the loop over skipped indices (lines 263-271). -/
def skipBody (P : Crypto) (m : Message P) (i : Int) (s : Session P) : Option (Session P) :=
  match (if m.LastUpdate = i then dhRatchet P m s else some s) with
  | none => none
  | some s =>
    match s.ReceiveChain with
    | none => none
    | some chain =>
      some { s with
             CachedReceiveKeys := mapSet s.CachedReceiveKeys i (P.DeriveKey chain KEY_LABEL)
             ReceiveChain := some (P.DeriveKey chain CHAIN_LABEL) }

/-- The loop `for i := ReceiveCounter; i < message.Counter; i++` of line 262,
with `n` the number of iterations left and `i` the loop variable. -/
def skipLoop (P : Crypto) (m : Message P) : Nat → Int → Session P → Option (Session P)
  | 0, _, s => some s
  | n + 1, i, s =>
    match skipBody P m i s with
    | none => none
    | some s => skipLoop P m n (i + 1) s

/-- The walk of the early-messages branch up to the key derivation: the loop
of line 262 and the ratchet step of lines 274-280. -/
def futureWalk (P : Crypto) (m : Message P) (s : Session P) : Option (Session P) :=
  match skipLoop P m (m.Counter - s.ReceiveCounter).toNat s.ReceiveCounter s with
  | none => none
  | some s => if m.LastUpdate = m.Counter then dhRatchet P m s else some s

/-- The rollback written out at lines 251-255 and 288-292. -/
def rollback {P : Crypto} (s : Session P) (rootFail : Option P.SymmetricKey)
    (partnerFail : Option P.PublicKey) (receiveFail : Option P.SymmetricKey)
    (counterFail : Int) : Session P :=
  { s with
    RootChain := rootFail
    PartnerDHRatchet := partnerFail
    ReceiveChain := receiveFail
    Change := false
    ReceiveCounter := counterFail }

/-- The body of `ReceiveMessage` once the session has been found (lines
229-306). Results: the session afterwards, the plaintext, the error.
The call `key.Zeroize()` of line 303 wipes the key object that the cache entry
points to, so afterwards the entry holds the zeroized key; a nil `key` (no
entry for the counter) is dereferenced by `AuthenticatedDecrypt` at line 301. -/
def receiveOnSession (P : Crypto) (s0 : Session P) (m : Message P) :
    Option (Session P × String × GoError) :=
  let counterFail := s0.ReceiveCounter
  let rootFail := s0.RootChain
  let partnerFail := s0.PartnerDHRatchet
  let receiveFail := s0.ReceiveChain
  match currentRatchet P m (bumpCounter s0 m) with
  | none => none
  | some s =>
    match s.ReceiveChain with
    | none => none
    | some chain =>
      let r := P.AuthenticatedDecrypt (P.DeriveKey chain KEY_LABEL) m.Ciphertext
        (EncodeAdditionalData P m) m.IV
      if m.Counter = s.ReceiveCounter then
        if r.2 ≠ none then
          some (rollback s rootFail partnerFail receiveFail counterFail, "", r.2)
        else
          some ({ s with ReceiveChain := some (P.DeriveKey chain CHAIN_LABEL) }, r.1, r.2)
      else if m.Counter > s.ReceiveCounter then
        match futureWalk P m s with
        | none => none
        | some s =>
          match s.ReceiveChain with
          | none => none
          | some chain =>
            let key := P.DeriveKey chain KEY_LABEL
            let r := P.AuthenticatedDecrypt key m.Ciphertext (EncodeAdditionalData P m) m.IV
            let s : Session P :=
              { s with
                ReceiveCounter := m.Counter
                ReceiveChain := some (P.DeriveKey chain CHAIN_LABEL) }
            if r.2 ≠ none then
              some (rollback s rootFail partnerFail receiveFail counterFail, r.1, r.2)
            else some (s, r.1, r.2)
      else
        match mapGet s.CachedReceiveKeys m.Counter with
        | none => none
        | some key =>
          let r := P.AuthenticatedDecrypt key m.Ciphertext (EncodeAdditionalData P m) m.IV
          if r.2 = none then
            some ({ s with
                    CachedReceiveKeys := mapSet s.CachedReceiveKeys m.Counter (P.Zeroize key) },
                  r.1, r.2)
          else some (s, r.1, r.2)

/-- The method `ReceiveMessage`. Results: the chatter afterwards, the plaintext,
the error. -/
def ReceiveMessage (P : Crypto) (c : Chatter P) (message : Option (Message P)) :
    Option (Chatter P × String × GoError) :=
  match message with
  | none => none
  | some m =>
    match m.Sender with
    | none => none
    | some sender =>
      match mapGet c.Sessions sender with
      | none => some (c, "", some "Can't receive message from partner with no open session")
      | some s =>
        match receiveOnSession P s m with
        | none => none
        | some (s', val, err) => some (c.setSession sender s', val, err)

/-- The method `EndSession`. Results: the chatter afterwards, the error. -/
def EndSession (P : Crypto) (c : Chatter P) (partnerIdentity : Option P.PublicKey) :
    Option (Chatter P × GoError) :=
  match partnerIdentity with
  | none => none
  | some pid =>
    match mapGet c.Sessions pid with
    | none => some (c, some "Don't have that session open to tear down")
    | some _ => some ({ c with Sessions := mapDelete c.Sessions pid }, none)

/-! ## A concrete primitive layer

A small executable instance of `Crypto`, used to evaluate the operations on
concrete inputs: exponentiation of the generator 2 for Diffie-Hellman, and an
AEAD whose ciphertext carries the key, the associated data and the IV in front
of the payload, so that decryption fails unless all three match. -/

/-- The AEAD opening of `toyCrypto`. -/
def toyDecrypt (k : Nat) (ct ad iv : Bytes) : String × GoError :=
  match ct with
  | [] => ("", some "authentication failed")
  | t :: rest =>
    if t = k ∧ rest.take (ad.length + iv.length) = ad ++ iv then
      (String.mk ((rest.drop (ad.length + iv.length)).map Char.ofNat), none)
    else ("", some "authentication failed")

/-- A concrete, executable primitive layer. -/
@[reducible] def toyCrypto : Crypto where
  PrivateKey := Nat
  PublicKey := Nat
  SymmetricKey := Nat
  decPub := fun a b => Nat.decEq a b
  FINGERPRINT_LENGTH := 2
  Fingerprint := fun k => [k % 256, k / 256 % 256]
  pubOf := fun a => 2 ^ a
  DHCombine := fun p b => p ^ b
  CombineKeys := fun ks => ks.foldl (fun acc k => 31 * acc + k) 7
  DeriveKey := fun k l => 256 * k + l
  AuthenticatedEncrypt := fun k pt ad iv => k :: (ad ++ iv ++ pt.toList.map Char.toNat)
  AuthenticatedDecrypt := toyDecrypt
  Zeroize := fun _ => 0

/-- The key pair of `toyCrypto` with private key `a`. -/
def toyPair (a : Nat) : KeyPair toyCrypto := { PrivateKey := a, PublicKey := 2 ^ a }

/-! ## Scenario drivers -/

/-- A complete handshake: `a` initiates towards identity `idB`, `b` returns
towards identity `idA`, `a` finalizes; each call is fed the key returned by the
previous one. Results: both chatters and the two check keys (finalize, return). -/
def completeHandshake (P : Crypto) (a b : Chatter P) (idA idB : P.PublicKey)
    (ephA ephB : KeyPair P) :
    Option (Chatter P × Chatter P × Option P.SymmetricKey × Option P.SymmetricKey) :=
  match InitiateHandshake P a (some idB) ephA with
  | some (a1, keyA, none) =>
    match ReturnHandshake P b (some idA) keyA ephB with
    | some (b1, keyB, checkB, none) =>
      match FinalizeHandshake P a1 (some idB) keyB with
      | some (a2, checkA, none) => some (a2, b1, checkA, checkB)
      | _ => none
    | _ => none
  | _ => none

/-- The root key both sides compute in a handshake (as `ReturnHandshake`
writes it). -/
def handshakeRoot (P : Crypto) (idA idB ephA ephB : KeyPair P) : P.SymmetricKey :=
  P.CombineKeys
    [P.DHCombine idA.PublicKey ephB.PrivateKey,
     P.DHCombine ephA.PublicKey idB.PrivateKey,
     P.DHCombine ephA.PublicKey ephB.PrivateKey]

/-- The session a completed handshake leaves on one side. -/
def freshSession (P : Crypto) (my : KeyPair P) (partner : P.PublicKey) (root : P.SymmetricKey)
    (change : Bool) : Session P :=
  { MyDHRatchet := some my
    PartnerDHRatchet := some partner
    RootChain := some root
    SendChain := some (P.DeriveKey root CHAIN_LABEL)
    ReceiveChain := some (P.DeriveKey root CHAIN_LABEL)
    CachedReceiveKeys := []
    SendCounter := 0
    LastUpdate := 0
    ReceiveCounter := 0
    Change := change }

/-- Diffie-Hellman is commutative: both owners of a pair of private keys
compute the same shared secret from the other's public key. -/
def DHCommutative (P : Crypto) : Prop :=
  ∀ x y : P.PrivateKey, P.DHCombine (P.pubOf x) y = P.DHCombine (P.pubOf y) x

/-- Decryption under the key, associated data and IV of the encryption
returns the plaintext and no error. -/
def AEADCorrect (P : Crypto) : Prop :=
  ∀ (k : P.SymmetricKey) (pt : String) (ad iv : Bytes),
    P.AuthenticatedDecrypt k (P.AuthenticatedEncrypt k pt ad iv) ad iv = (pt, none)

/-- The session `InitiateHandshake` creates: only the ephemeral pair is set. -/
def pendingSession (P : Crypto) (pair : KeyPair P) : Session P :=
  { MyDHRatchet := some pair
    PartnerDHRatchet := none
    RootChain := none
    SendChain := none
    ReceiveChain := none
    CachedReceiveKeys := []
    SendCounter := 0
    LastUpdate := 0
    ReceiveCounter := 0
    Change := false }

/-! ## Classification of an incoming message -/

/-- The message is handled by the current-counter branch (line 249). -/
def currentPath {P : Crypto} (s : Session P) (m : Message P) : Prop :=
  m.Counter = (bumpCounter s m).ReceiveCounter

/-- The message is handled by the early-messages branch (line 260). -/
def futurePath {P : Crypto} (s : Session P) (m : Message P) : Prop :=
  m.Counter > (bumpCounter s m).ReceiveCounter

/-- The message is handled by the late-messages branch (line 297). -/
def pastPath {P : Crypto} (s : Session P) (m : Message P) : Prop :=
  ¬ m.Counter = (bumpCounter s m).ReceiveCounter ∧ ¬ m.Counter > (bumpCounter s m).ReceiveCounter

instance {P : Crypto} (s : Session P) (m : Message P) : Decidable (currentPath s m) := by
  unfold currentPath; infer_instance

instance {P : Crypto} (s : Session P) (m : Message P) : Decidable (futurePath s m) := by
  unfold futurePath; infer_instance

instance {P : Crypto} (s : Session P) (m : Message P) : Decidable (pastPath s m) := by
  unfold pastPath; infer_instance

/-! ## More scenario drivers -/

/-- One chatter sends a list of plaintexts to `partner`, nothing being
delivered; each send comes with its randomness. Results: the chatter
afterwards and the messages, in sending order. -/
def sendAll (P : Crypto) (c : Chatter P) (partner : P.PublicKey) :
    List (String × KeyPair P × Bytes) → Option (Chatter P × List (Message P))
  | [] => some (c, [])
  | (plaintext, newKeys, iv) :: rest =>
    match SendMessage P c (some partner) plaintext newKeys iv with
    | some (c', some message, none) =>
      match sendAll P c' partner rest with
      | some (c'', messages) => some (c'', message :: messages)
      | none => none
    | _ => none

/-- One chatter receives a list of messages in the given order. Results: the
chatter afterwards and what each `ReceiveMessage` returned. -/
def receiveAll (P : Crypto) (c : Chatter P) :
    List (Message P) → Option (Chatter P × List (String × GoError))
  | [] => some (c, [])
  | message :: rest =>
    match ReceiveMessage P c (some message) with
    | some (c', val, err) =>
      match receiveAll P c' rest with
      | some (c'', results) => some (c'', (val, err) :: results)
      | none => none
    | none => none

/-- One exchange: the direction (`true`: `a` sends to `b`), the plaintext,
and the sender's randomness. -/
structure Exchange (P : Crypto) where
  fromA : Bool
  plaintext : String
  newKeys : KeyPair P
  iv : Bytes

/-- A run in which every `SendMessage` is immediately followed by the
addressee's `ReceiveMessage` of the message pointer just returned. Results:
both chatters afterwards and what each `ReceiveMessage` returned. -/
def exchangeAll (P : Crypto) (idA idB : P.PublicKey) :
    Chatter P → Chatter P → List (Exchange P) →
      Option (Chatter P × Chatter P × List (String × GoError))
  | a, b, [] => some (a, b, [])
  | a, b, x :: rest =>
    if x.fromA then
      match SendMessage P a (some idB) x.plaintext x.newKeys x.iv with
      | some (a', message, _) =>
        match ReceiveMessage P b message with
        | some (b', val, err) =>
          match exchangeAll P idA idB a' b' rest with
          | some (a'', b'', results) => some (a'', b'', (val, err) :: results)
          | none => none
        | none => none
      | none => none
    else
      match SendMessage P b (some idA) x.plaintext x.newKeys x.iv with
      | some (b', message, _) =>
        match ReceiveMessage P a message with
        | some (a', val, err) =>
          match exchangeAll P idA idB a' b' rest with
          | some (a'', b'', results) => some (a'', b'', (val, err) :: results)
          | none => none
        | none => none
      | none => none

/-- A ciphertext that opens under one key is rejected, with an empty
plaintext, under every other key. -/
def AEADKeyBinding (P : Crypto) : Prop :=
  ∀ (k k' : P.SymmetricKey) (ct ad iv : Bytes),
    (P.AuthenticatedDecrypt k ct ad iv).2 = none → k' ≠ k →
      ∃ e, P.AuthenticatedDecrypt k' ct ad iv = ("", some e)

/-! ## Concrete runs -/

/-- The Go zero value `Session{}`. -/
def zeroSession (P : Crypto) : Session P :=
  { MyDHRatchet := none
    PartnerDHRatchet := none
    RootChain := none
    SendChain := none
    ReceiveChain := none
    CachedReceiveKeys := []
    SendCounter := 0
    LastUpdate := 0
    ReceiveCounter := 0
    Change := false }

/-- The session a chatter holds for a partner (the zero session if none). -/
def Chatter.sessionOf {P : Crypto} (c : Chatter P) (partner : P.PublicKey) : Session P :=
  (mapGet c.Sessions partner).getD (zeroSession P)

/-- Alice: identity private key 3, public key 8. -/
def toyAlice : Chatter toyCrypto := NewChatter toyCrypto (toyPair 3)

/-- Bob: identity private key 5, public key 32. -/
def toyBob : Chatter toyCrypto := NewChatter toyCrypto (toyPair 5)

/-- Alice (initiator) and Bob (responder) after a complete handshake with
ephemeral private keys 7 and 4. -/
def toyEstablished : Chatter toyCrypto × Chatter toyCrypto :=
  match completeHandshake toyCrypto toyAlice toyBob 8 32 (toyPair 7) (toyPair 4) with
  | some (a, b, _, _) => (a, b)
  | none => (toyAlice, toyBob)

/-- The messages with counters 1, 2, 3 that Alice sends to Bob after the
handshake, nothing being delivered. -/
def toyMessages : List (Message toyCrypto) :=
  match sendAll toyCrypto toyEstablished.1 32
      [("one", toyPair 9, [1]), ("two", toyPair 10, [2]), ("three", toyPair 11, [3])] with
  | some (_, messages) => messages
  | none => []

/-- Alice's message with counter `n + 1`. -/
def toyMessage (n : Nat) : Message toyCrypto :=
  toyMessages.getD n
    { Sender := none, Receiver := none, NextDHRatchet := none, Counter := 0, LastUpdate := 0,
      Ciphertext := [], IV := [], Change := false }

/-- Bob after receiving the given messages in order, starting from the
completed handshake. -/
def toyBobAfter (messages : List (Message toyCrypto)) : Chatter toyCrypto :=
  match receiveAll toyCrypto toyEstablished.2 messages with
  | some (b, _) => b
  | none => toyBob

/-- A message with its ciphertext replaced by a single zero byte. -/
def tamper {P : Crypto} (m : Message P) : Message P :=
  { m with Ciphertext := [0] }

/-- A forged message from Alice's identity to Bob for counter 1: the plaintext
"evil" sealed under the all-zero key, the value that `Zeroize` leaves and that
anyone can compute. -/
def toyForged : Message toyCrypto :=
  let m : Message toyCrypto :=
    { Sender := some 8, Receiver := some 32, NextDHRatchet := some 128, Counter := 1,
      LastUpdate := 0, Ciphertext := [], IV := [9], Change := false }
  { m with
    Ciphertext := toyCrypto.AuthenticatedEncrypt (toyCrypto.Zeroize 0) "evil"
      (EncodeAdditionalData toyCrypto m) [9] }

/-! ## Relations used to state the round-trip theorems -/

/-- The message `SendMessage` builds at lines 204-215 from the session's
fields and the message key. -/
def buildMessage (P : Crypto) (sender : P.PublicKey) (receiver : Option P.PublicKey)
    (next : P.PublicKey) (counter lastUpdate : Int) (change : Bool) (key : P.SymmetricKey)
    (plaintext : String) (iv : Bytes) : Message P :=
  { Sender := some sender
    Receiver := receiver
    NextDHRatchet := some next
    Counter := counter
    LastUpdate := lastUpdate
    Change := change
    Ciphertext := P.AuthenticatedEncrypt key plaintext
      (EncodeAdditionalData P
        { Sender := some sender
          Receiver := receiver
          Counter := counter
          NextDHRatchet := some next
          LastUpdate := lastUpdate
          Change := change
          Ciphertext := []
          IV := [] }) iv
    IV := iv }

/-- The root after a DH-ratchet step with the partner's public key and the
own private key (lines 186-187, 240-242). -/
def ratchetRoot (P : Crypto) (root : P.SymmetricKey) (partner : P.PublicKey)
    (priv : P.PrivateKey) : P.SymmetricKey :=
  P.CombineKeys [P.DeriveKey root ROOT_LABEL, P.DHCombine partner priv]

/-- The chain key after `k` derivation steps under `CHAIN_LABEL`. -/
def chainAt (P : Crypto) (chain : P.SymmetricKey) (k : Nat) : P.SymmetricKey :=
  (fun c => P.DeriveKey c CHAIN_LABEL)^[k] chain

/-- What `s` sends, `t` is ready to receive in order: the send chain of `s`
is the receive chain of `t`, and the send counter of `s` is the receive
counter of `t`. -/
def Feeds {P : Crypto} (s t : Session P) : Prop :=
  ∃ chain, s.SendChain = some chain ∧ t.ReceiveChain = some chain ∧
    s.SendCounter = t.ReceiveCounter

/-- The session `s` owes the next DH-ratchet step towards `t`: its turn flag
is set, that of `t` is not, and the partner key `s` knows is the public half of
the current ratchet pair of `t`. -/
def OwesStep {P : Crypto} (s t : Session P) : Prop :=
  s.Change = true ∧ t.Change = false ∧
    ∃ kt, t.MyDHRatchet = some kt ∧ s.PartnerDHRatchet = some kt.PublicKey

/-- The two sessions of a conversation are in step: same root, each one's
send chain and counter are the other's receive chain and counter, both hold a
well-formed ratchet pair, and exactly one of them owes the next ratchet step. -/
def Linked {P : Crypto} (s t : Session P) : Prop :=
  Feeds s t ∧ Feeds t s ∧
  (∃ root, s.RootChain = some root ∧ t.RootChain = some root) ∧
  (∃ ks kt, s.MyDHRatchet = some ks ∧ t.MyDHRatchet = some kt ∧
    ks.WellFormed ∧ kt.WellFormed) ∧
  (OwesStep s t ∨ OwesStep t s)

/-- The messages `ms` are what a sender with identity key `sender`, ratchet
key `next`, last-update index `lastUpdate`, send counter `counter` and send
chain `chain` produces for the plaintexts `ps`: consecutive counters, message
keys along the chain, the flag `Change` set exactly on the message whose
counter is the last-update index, and each ciphertext opening to its plaintext
under its message key. -/
def GoodStream (P : Crypto) (sender next : P.PublicKey) (lastUpdate : Int) :
    Int → P.SymmetricKey → List (Message P) → List String → Prop
  | _, _, [], [] => True
  | counter, chain, m :: ms, p :: ps =>
    m.Sender = some sender ∧ m.NextDHRatchet = some next ∧ m.LastUpdate = lastUpdate ∧
    m.Counter = counter + 1 ∧ (m.Change = true ↔ m.Counter = lastUpdate) ∧
    P.AuthenticatedDecrypt (P.DeriveKey chain KEY_LABEL) m.Ciphertext
      (EncodeAdditionalData P m) m.IV = (p, none) ∧
    GoodStream P sender next lastUpdate (counter + 1) (P.DeriveKey chain CHAIN_LABEL) ms ps
  | _, _, _, _ => False

/-- The session `t` can take up a stream from a sender with ratchet key
`next` and last-update index `lastUpdate` whose first message key lies on the
chain `chain`: either the sender has not ratcheted since the last message `t`
received and `chain` is the receive chain of `t`, or the sender's first
undelivered message carries a fresh ratchet key, `t` has yet to apply it, and
`chain` is the chain that the ratchet step of `t` with that key yields. -/
def ReadyFor (P : Crypto) (t : Session P) (next : P.PublicKey) (lastUpdate : Int)
    (chain : P.SymmetricKey) : Prop :=
  (lastUpdate ≤ t.ReceiveCounter ∧ t.ReceiveChain = some chain) ∨
  (lastUpdate = t.ReceiveCounter + 1 ∧ t.Change = false ∧
    ∃ root my old, t.RootChain = some root ∧ t.MyDHRatchet = some my ∧
      t.ReceiveChain = some old ∧
      chain = P.DeriveKey (ratchetRoot P root next my.PrivateKey) CHAIN_LABEL)

/-- The scenario of reverse-order delivery: `sender` sends all the plaintexts
to `receiverId` while nothing is delivered, then `receiver` receives the
messages last first. Result: what each `ReceiveMessage` returned, in the order
of the calls. -/
def reverseDelivery (P : Crypto) (sender receiver : Chatter P) (receiverId : P.PublicKey)
    (sends : List (String × KeyPair P × Bytes)) : Option (List (String × GoError)) :=
  match sendAll P sender receiverId sends with
  | some (_, messages) =>
    match receiveAll P receiver messages.reverse with
    | some (_, results) => some results
    | none => none
  | none => none

/-! ## The associated data as the specification words it -/

/-- The little-endian encoding on four bytes of `v` modulo `2^32`. -/
def littleEndian32 (v : Int) : Bytes :=
  (List.range 4).map (fun i => (v % 2 ^ 32).toNat / 256 ^ i % 256)

/-- The number that a little-endian byte string encodes. -/
def littleEndianValue : Bytes → Nat
  | [] => 0
  | b :: rest => b + 256 * littleEndianValue rest

/-- A fingerprint slot: the fingerprint of the key, all zero when the key is
nil. -/
def fingerprintSlot (P : Crypto) (key : Option P.PublicKey) : Bytes :=
  match key with
  | some k => P.Fingerprint k
  | none => List.replicate P.FINGERPRINT_LENGTH 0

/-- The associated data of a message as the specification describes it: the
counter, the last-update index, then the three fingerprint slots. -/
def specAdditionalData (P : Crypto) (m : Message P) : Bytes :=
  littleEndian32 m.Counter ++ littleEndian32 m.LastUpdate ++ fingerprintSlot P m.Sender ++
    fingerprintSlot P m.Receiver ++ fingerprintSlot P m.NextDHRatchet

/-- A copy of a message with the flag `Change` replaced. -/
def withChange {P : Crypto} (m : Message P) (change : Bool) : Message P :=
  { m with Change := change }

/-- The session object that `EndSession` unlinks from the map, with its fields
as they stand when `EndSession` returns: line 351 is a comment, so the body
writes to no field of the session and calls `Zeroize` on none of its keys. -/
def EndSessionUnlinked (P : Crypto) (c : Chatter P) (partnerIdentity : Option P.PublicKey) :
    Option (Session P) :=
  match partnerIdentity with
  | none => none
  | some pid => mapGet c.Sessions pid

/-! ## Arbitrary runs of one chatter -/

/-- One call of a method of a chatter, with its arguments and its randomness. -/
inductive Call (P : Crypto) where
  | initiate (partnerIdentity : Option P.PublicKey) (pair : KeyPair P)
  | respond (partnerIdentity partnerEphemeral : Option P.PublicKey) (pair : KeyPair P)
  | finalize (partnerIdentity partnerEphemeral : Option P.PublicKey)
  | send (partnerIdentity : Option P.PublicKey) (plaintext : String) (newKeys : KeyPair P)
      (iv : Bytes)
  | receive (message : Option (Message P))

/-- Running one call. Results: the chatter afterwards and the message pointer
returned when the call is a `SendMessage` (nil otherwise). -/
def runCall (P : Crypto) (c : Chatter P) : Call P → Option (Chatter P × Option (Message P))
  | .initiate partnerIdentity pair =>
    match InitiateHandshake P c partnerIdentity pair with
    | some (c', _, _) => some (c', none)
    | none => none
  | .respond partnerIdentity partnerEphemeral pair =>
    match ReturnHandshake P c partnerIdentity partnerEphemeral pair with
    | some (c', _, _, _) => some (c', none)
    | none => none
  | .finalize partnerIdentity partnerEphemeral =>
    match FinalizeHandshake P c partnerIdentity partnerEphemeral with
    | some (c', _, _) => some (c', none)
    | none => none
  | .send partnerIdentity plaintext newKeys iv =>
    match SendMessage P c partnerIdentity plaintext newKeys iv with
    | some (c', message, _) => some (c', message)
    | none => none
  | .receive message =>
    match ReceiveMessage P c message with
    | some (c', _, _) => some (c', none)
    | none => none

/-- The session as a receive-side DH-ratchet step leaves it when it panics:
line 240 dereferences a nil `RootChain` before any write; otherwise line 241
has stored the partner key when line 242 dereferences a nil `NextDHRatchet` or
a nil `MyDHRatchet`. -/
def dhRatchetPanicState {P : Crypto} (m : Message P) (s : Session P) : Session P :=
  match s.RootChain with
  | none => s
  | some _ => { s with PartnerDHRatchet := m.NextDHRatchet }

/-- The session as the loop of line 262 leaves it when one of its iterations
panics: the iterations before it have run; the panicking one stops in its
ratchet step, or at line 270 on a nil `ReceiveChain`. -/
def skipLoopPanicState (P : Crypto) (m : Message P) : Nat → Int → Session P → Session P
  | 0, _, s => s
  | n + 1, i, s =>
    match skipBody P m i s with
    | some s' => skipLoopPanicState P m n (i + 1) s'
    | none =>
      match (if m.LastUpdate = i then dhRatchet P m s else some s) with
      | none => dhRatchetPanicState m s
      | some s' => s'

/-- The session as `ReceiveMessage` leaves it when the call panics (that is,
when `receiveOnSession` is `none`): the counter bump of lines 235-237 has run;
then the call stops in the ratchet step of lines 240-244, at line 247 on a nil
`ReceiveChain`, in the loop of line 262, in the ratchet step of lines 275-279,
at line 282, or at line 301 on a nil cached key. -/
def receivePanicState (P : Crypto) (s0 : Session P) (m : Message P) : Session P :=
  match currentRatchet P m (bumpCounter s0 m) with
  | none => dhRatchetPanicState m (bumpCounter s0 m)
  | some s =>
    match s.ReceiveChain with
    | none => s
    | some _ =>
      if m.Counter > s.ReceiveCounter then
        match skipLoop P m (m.Counter - s.ReceiveCounter).toNat s.ReceiveCounter s with
        | none => skipLoopPanicState P m (m.Counter - s.ReceiveCounter).toNat s.ReceiveCounter s
        | some s2 =>
          if m.LastUpdate = m.Counter then
            match dhRatchet P m s2 with
            | none => dhRatchetPanicState m s2
            | some s3 => s3
          else s2
      else s

/-- The session as `SendMessage` leaves it when the call panics (that is, when
`sendOnSession` is `none`): line 180 has advanced the send counter. With the
turn flag set, line 185 has stored the new pair, and the call stops at line 186
(nil `RootChain`) or 187 (nil `PartnerDHRatchet`), or else completes the ratchet
step and line 201 and stops at line 205 (nil `Identity`). With the flag clear it
stops at line 197 (nil `SendChain`), or after line 201 at line 205 or 208 (nil
`Identity`, nil `MyDHRatchet`). -/
def sendPanicState (P : Crypto) (s : Session P) (newKeys : KeyPair P) : Session P :=
  let s : Session P := { s with SendCounter := s.SendCounter + 1 }
  if s.Change then
    let s : Session P := { s with MyDHRatchet := some newKeys }
    match s.RootChain, s.PartnerDHRatchet with
    | some rootChain, some partner =>
      let root := P.DeriveKey rootChain ROOT_LABEL
      let newRoot := P.CombineKeys [root, P.DHCombine partner newKeys.PrivateKey]
      { s with
        RootChain := some newRoot
        SendChain := some (P.DeriveKey (P.DeriveKey newRoot CHAIN_LABEL) CHAIN_LABEL)
        LastUpdate := s.SendCounter
        Change := false }
    | _, _ => s
  else
    match s.SendChain with
    | some chain => { s with SendChain := some (P.DeriveKey chain CHAIN_LABEL) }
    | none => s

/-- The chatter as a call leaves it when it panics (that is, when `runCall` is
`none`). The handshake methods panic before their first write (lines 103, 126,
131, 155, 161), and so do `SendMessage` and `ReceiveMessage` on a nil argument
(lines 176, 225); otherwise these two have written to the session they found. -/
def panicState (P : Crypto) (c : Chatter P) : Call P → Chatter P
  | .send (some pid) _ newKeys _ =>
    match mapGet c.Sessions pid with
    | some s => c.setSession pid (sendPanicState P s newKeys)
    | none => c
  | .receive (some m) =>
    match m.Sender with
    | some sender =>
      match mapGet c.Sessions sender with
      | some s => c.setSession sender (receivePanicState P s m)
      | none => c
    | none => c
  | _ => c

/-- Running a sequence of calls. A call that panics leaves the chatter as it
stands at the panicking line and returns nothing; the run goes on from there
(the caller has recovered). Results: the chatter after the last call, and the
messages that the `SendMessage` calls returned, in order. -/
def runCalls (P : Crypto) : Chatter P → List (Call P) → Chatter P × List (Message P)
  | c, [] => (c, [])
  | c, call :: rest =>
    match runCall P c call with
    | none => runCalls P (panicState P c call) rest
    | some (c', sent) =>
      ((runCalls P c' rest).1, sent.toList ++ (runCalls P c' rest).2)

/-- The call is a `SendMessage` to `partner` that finds a session and so runs
line 180. -/
def reachesSend {P : Crypto} (c : Chatter P) (partner : P.PublicKey) : Call P → Bool
  | .send (some pid) _ _ _ => decide (pid = partner) && (mapGet c.Sessions pid).isSome
  | _ => false

/-- The `SendMessage` calls of a run made on the session for `partner`, in
order: for each, the message it returned, or `none` when it panicked. -/
def sendAttempts (P : Crypto) (partner : P.PublicKey) :
    Chatter P → List (Call P) → List (Option (Message P))
  | _, [] => []
  | c, call :: rest =>
    match runCall P c call with
    | none =>
      (if reachesSend c partner call then [none] else []) ++
        sendAttempts P partner (panicState P c call) rest
    | some (c', sent) =>
      (if reachesSend c partner call then [sent] else []) ++ sendAttempts P partner c' rest

/-- The send counter of the session a chatter holds for a partner; 0 when
there is none (a session starts at 0). -/
def sendCounterOf {P : Crypto} (c : Chatter P) (partner : P.PublicKey) : Int :=
  match mapGet c.Sessions partner with
  | some s => s.SendCounter
  | none => 0

/-- The counters `k + 1, ..., k + n`. -/
def countersFrom (k : Int) (n : Nat) : List Int :=
  (List.range n).map (fun (i : Nat) => k + 1 + (i : Int))

/-- The fields of the send side of `s` are those of `s'`. -/
def SendSide {P : Crypto} (s s' : Session P) : Prop :=
  s'.SendCounter = s.SendCounter ∧ s'.LastUpdate = s.LastUpdate ∧
    s'.SendChain = s.SendChain ∧ s'.MyDHRatchet = s.MyDHRatchet

/-- What one call does to the session held for the partner `k`, `old` before
and `new` after the call, `sent` being the message returned: nothing (and no
message for `k`); creation with both indices at 0; an update that keeps send
counter and last-update index; or a send to `k` that advances the send counter
by one, stamps the message with it, and keeps the last-update index at most the
send counter, the message having `Change` set exactly when its last-update
index is its counter. -/
def SessionStep {P : Crypto} (old new : Option (Session P)) (sent : Option (Message P))
    (k : P.PublicKey) : Prop :=
  (new = old ∧ ∀ m, sent = some m → m.Receiver ≠ some k) ∨
  (old = none ∧ sent = none ∧
    ∃ s', new = some s' ∧ s'.SendCounter = 0 ∧ s'.LastUpdate = 0) ∨
  (sent = none ∧ ∃ s s', old = some s ∧ new = some s' ∧
    s'.SendCounter = s.SendCounter ∧ s'.LastUpdate = s.LastUpdate) ∨
  (∃ s s' m, old = some s ∧ new = some s' ∧ sent = some m ∧ m.Receiver = some k ∧
    s'.SendCounter = s.SendCounter + 1 ∧ m.Counter = s.SendCounter + 1 ∧
    (s.LastUpdate ≤ s.SendCounter →
      s'.LastUpdate ≤ s'.SendCounter ∧ (m.Change = true ↔ m.LastUpdate = m.Counter)))

/-- The messages of a run that are addressed to `partner`, in order. -/
def sentTo {P : Crypto} (partner : P.PublicKey) (messages : List (Message P)) :
    List (Message P) :=
  messages.filter (fun m => decide (m.Receiver = some partner))

/-- Every session of the chatter has its last-update index at most its send
counter. -/
def LastUpdateBounded {P : Crypto} (c : Chatter P) : Prop :=
  ∀ k s, mapGet c.Sessions k = some s → s.LastUpdate ≤ s.SendCounter

/-- Bob's first message to Alice after the handshake (it carries his fresh
ratchet key, private key 9). -/
def toyReply : Option (Message toyCrypto) :=
  match SendMessage toyCrypto toyEstablished.2 (some 8) "hi" (toyPair 9) [1] with
  | some (_, message, _) => message
  | none => none

/-- A run of Alice: she sends before any session exists, initiates, is refused
a second initiation, finalizes with Bob's ephemeral key, sends, receives a
tampered copy of Bob's reply, receives the reply, and sends twice. -/
def toyCalls : List (Call toyCrypto) :=
  [Call.send (some 32) "zero" (toyPair 12) [0],
   Call.initiate (some 32) (toyPair 7),
   Call.initiate (some 32) (toyPair 13),
   Call.finalize (some 32) (some 16),
   Call.send (some 32) "one" (toyPair 14) [1],
   Call.receive (toyReply.map tamper),
   Call.receive toyReply,
   Call.send (some 32) "two" (toyPair 10) [2],
   Call.send (some 32) "three" (toyPair 11) [3]]

/-- A run of Alice in which she sends too early: she initiates, sends on the
session that is not finalized yet (the call panics), finalizes, sends, receives
Bob's reply, receives it a second time (the call panics, no key being cached
for its counter), and sends again. -/
def toyEarlyCalls : List (Call toyCrypto) :=
  [Call.initiate (some 32) (toyPair 7),
   Call.send (some 32) "zero" (toyPair 12) [0],
   Call.finalize (some 32) (some 16),
   Call.send (some 32) "one" (toyPair 14) [1],
   Call.receive toyReply,
   Call.receive toyReply,
   Call.send (some 32) "two" (toyPair 10) [2]]

/-! # Theorems -/

/-! ## Go maps -/

theorem mapGet_mapSet_same {κ ν : Type} [DecidableEq κ] (m : List (κ × ν)) (k : κ) (v : ν) :
    mapGet (mapSet m k v) k = some v := by
  induction m with
  | nil => simp [mapSet, mapGet]
  | cons p r ih =>
    obtain ⟨k', v'⟩ := p
    by_cases h : k' = k
    · simp [mapSet, mapGet, h]
    · simp [mapSet, mapGet, h, ih]

theorem mapGet_mapSet_other {κ ν : Type} [DecidableEq κ] (m : List (κ × ν)) (k k' : κ) (v : ν)
    (hne : k' ≠ k) : mapGet (mapSet m k v) k' = mapGet m k' := by
  induction m with
  | nil => simp [mapSet, mapGet, Ne.symm hne]
  | cons p r ih =>
    obtain ⟨k₁, v₁⟩ := p
    by_cases h : k₁ = k
    · subst h
      simp [mapSet, mapGet, Ne.symm hne]
    · by_cases h' : k₁ = k'
      · subst h'
        simp [mapSet, mapGet, h]
      · simp [mapSet, mapGet, h, h', ih]

theorem length_mapSet_present {κ ν : Type} [DecidableEq κ] (m : List (κ × ν)) (k : κ) (v v₀ : ν)
    (hpresent : mapGet m k = some v₀) : (mapSet m k v).length = m.length := by
  induction m with
  | nil => simp [mapGet] at hpresent
  | cons p r ih =>
    obtain ⟨k₁, v₁⟩ := p
    by_cases h : k₁ = k
    · simp [mapSet, h]
    · simp only [mapGet, h, if_false] at hpresent
      simp [mapSet, h, ih hpresent]

/-! ## Handshake -/

theorem InitiateHandshake_fresh (P : Crypto) (c : Chatter P) (pid : P.PublicKey)
    (pair : KeyPair P) (hfresh : mapGet c.Sessions pid = none) :
    InitiateHandshake P c (some pid) pair =
      some (c.setSession pid (pendingSession P pair), some pair.PublicKey, none) := by
  simp only [InitiateHandshake, hfresh, pendingSession]

theorem ReturnHandshake_fresh (P : Crypto) (c : Chatter P) (pid peph : P.PublicKey)
    (pair ident : KeyPair P) (hfresh : mapGet c.Sessions pid = none)
    (hid : c.Identity = some ident) :
    ReturnHandshake P c (some pid) (some peph) pair =
      some (c.setSession pid
              (freshSession P pair peph
                (P.CombineKeys [P.DHCombine pid pair.PrivateKey,
                  P.DHCombine peph ident.PrivateKey, P.DHCombine peph pair.PrivateKey]) true),
        some pair.PublicKey,
        some (P.DeriveKey (P.CombineKeys [P.DHCombine pid pair.PrivateKey,
          P.DHCombine peph ident.PrivateKey, P.DHCombine peph pair.PrivateKey])
          HANDSHAKE_CHECK_LABEL), none) := by
  simp only [ReturnHandshake, hfresh, hid, freshSession]

theorem FinalizeHandshake_pending (P : Crypto) (c : Chatter P) (pid peph : P.PublicKey)
    (pair ident : KeyPair P) (hsession : mapGet c.Sessions pid = some (pendingSession P pair))
    (hid : c.Identity = some ident) :
    FinalizeHandshake P c (some pid) (some peph) =
      some (c.setSession pid
              (freshSession P pair peph
                (P.CombineKeys [P.DHCombine peph ident.PrivateKey,
                  P.DHCombine pid pair.PrivateKey, P.DHCombine peph pair.PrivateKey]) false),
        some (P.DeriveKey (P.CombineKeys [P.DHCombine peph ident.PrivateKey,
          P.DHCombine pid pair.PrivateKey, P.DHCombine peph pair.PrivateKey])
          HANDSHAKE_CHECK_LABEL), none) := by
  simp only [FinalizeHandshake, hsession, hid, freshSession, pendingSession]

/-- The initiator's root (as `FinalizeHandshake` writes it) is the responder's. -/
theorem finalize_root_eq (P : Crypto) (hcomm : DHCommutative P)
    (idA idB ephA ephB : KeyPair P) (wfA : idA.WellFormed) (wfB : idB.WellFormed)
    (wfEA : ephA.WellFormed) (wfEB : ephB.WellFormed) :
    P.CombineKeys [P.DHCombine ephB.PublicKey idA.PrivateKey,
      P.DHCombine idB.PublicKey ephA.PrivateKey, P.DHCombine ephB.PublicKey ephA.PrivateKey] =
    handshakeRoot P idA idB ephA ephB := by
  have h1 : P.DHCombine ephB.PublicKey idA.PrivateKey =
      P.DHCombine idA.PublicKey ephB.PrivateKey := by
    rw [wfA, wfEB]; exact hcomm _ _
  have h2 : P.DHCombine idB.PublicKey ephA.PrivateKey =
      P.DHCombine ephA.PublicKey idB.PrivateKey := by
    rw [wfB, wfEA]; exact hcomm _ _
  have h3 : P.DHCombine ephB.PublicKey ephA.PrivateKey =
      P.DHCombine ephA.PublicKey ephB.PrivateKey := by
    rw [wfEA, wfEB]; exact hcomm _ _
  rw [h1, h2, h3, handshakeRoot]

/-- The three handshake calls succeed on chatters with no session for each
other, and leave the sessions `freshSession` on both sides, with the root that
`ReturnHandshake` computes. -/
theorem completeHandshake_eq (P : Crypto) (hcomm : DHCommutative P) (a b : Chatter P)
    (idA idB ephA ephB : KeyPair P)
    (hidA : a.Identity = some idA) (hidB : b.Identity = some idB)
    (wfA : idA.WellFormed) (wfB : idB.WellFormed) (wfEA : ephA.WellFormed)
    (wfEB : ephB.WellFormed)
    (hfreshA : mapGet a.Sessions idB.PublicKey = none)
    (hfreshB : mapGet b.Sessions idA.PublicKey = none) :
    ∃ a2 b1 : Chatter P,
      completeHandshake P a b idA.PublicKey idB.PublicKey ephA ephB =
        some (a2, b1,
          some (P.DeriveKey (handshakeRoot P idA idB ephA ephB) HANDSHAKE_CHECK_LABEL),
          some (P.DeriveKey (handshakeRoot P idA idB ephA ephB) HANDSHAKE_CHECK_LABEL)) ∧
      a2.Identity = some idA ∧ b1.Identity = some idB ∧
      mapGet a2.Sessions idB.PublicKey =
        some (freshSession P ephA ephB.PublicKey (handshakeRoot P idA idB ephA ephB) false) ∧
      mapGet b1.Sessions idA.PublicKey =
        some (freshSession P ephB ephA.PublicKey (handshakeRoot P idA idB ephA ephB) true) := by
  have hI := InitiateHandshake_fresh P a idB.PublicKey ephA hfreshA
  have hR := ReturnHandshake_fresh P b idA.PublicKey ephA.PublicKey ephB idB hfreshB hidB
  have hF := FinalizeHandshake_pending P (a.setSession idB.PublicKey (pendingSession P ephA))
    idB.PublicKey ephB.PublicKey ephA idA (mapGet_mapSet_same _ _ _) hidA
  rw [finalize_root_eq P hcomm idA idB ephA ephB wfA wfB wfEA wfEB] at hF
  rw [handshakeRoot.eq_1 P idA idB ephA ephB |>.symm] at hR
  refine ⟨(a.setSession idB.PublicKey (pendingSession P ephA)).setSession idB.PublicKey
      (freshSession P ephA ephB.PublicKey (handshakeRoot P idA idB ephA ephB) false),
    b.setSession idA.PublicKey
      (freshSession P ephB ephA.PublicKey (handshakeRoot P idA idB ephA ephB) true),
    ?_, hidA, hidB, mapGet_mapSet_same _ _ _, mapGet_mapSet_same _ _ _⟩
  simp only [completeHandshake, hI, hR, hF]

/-- C3: in a handshake between chatters that hold well-formed identity and
ephemeral key pairs, `ReturnHandshake` fed with the key of `InitiateHandshake`
and `FinalizeHandshake` fed with the key of that `ReturnHandshake` both
succeed, install the same root key in the two sessions, and return the same
check key. -/
theorem handshake_agreement (P : Crypto) (hcomm : DHCommutative P) (a b : Chatter P)
    (idA idB ephA ephB : KeyPair P)
    (hidA : a.Identity = some idA) (hidB : b.Identity = some idB)
    (wfA : idA.WellFormed) (wfB : idB.WellFormed) (wfEA : ephA.WellFormed)
    (wfEB : ephB.WellFormed)
    (hfreshA : mapGet a.Sessions idB.PublicKey = none)
    (hfreshB : mapGet b.Sessions idA.PublicKey = none) :
    ∃ (a1 a2 b1 : Chatter P) (sA sB : Session P) (root check : P.SymmetricKey),
      InitiateHandshake P a (some idB.PublicKey) ephA = some (a1, some ephA.PublicKey, none) ∧
      ReturnHandshake P b (some idA.PublicKey) (some ephA.PublicKey) ephB =
        some (b1, some ephB.PublicKey, some check, none) ∧
      FinalizeHandshake P a1 (some idB.PublicKey) (some ephB.PublicKey) =
        some (a2, some check, none) ∧
      mapGet a2.Sessions idB.PublicKey = some sA ∧
      mapGet b1.Sessions idA.PublicKey = some sB ∧
      sA.RootChain = some root ∧ sB.RootChain = some root := by
  have hI := InitiateHandshake_fresh P a idB.PublicKey ephA hfreshA
  have hR := ReturnHandshake_fresh P b idA.PublicKey ephA.PublicKey ephB idB hfreshB hidB
  have hF := FinalizeHandshake_pending P (a.setSession idB.PublicKey (pendingSession P ephA))
    idB.PublicKey ephB.PublicKey ephA idA (mapGet_mapSet_same _ _ _) hidA
  rw [finalize_root_eq P hcomm idA idB ephA ephB wfA wfB wfEA wfEB] at hF
  exact ⟨_, _, _, _, _, handshakeRoot P idA idB ephA ephB, _, hI, hR, hF,
    mapGet_mapSet_same _ _ _, mapGet_mapSet_same _ _ _, rfl, rfl⟩

/-! ## Receiving: classification and frame lemmas -/

theorem bumpCounter_ReceiveCounter {P : Crypto} (s : Session P) (m : Message P) :
    (bumpCounter s m).ReceiveCounter =
      if m.Counter ≥ s.ReceiveCounter then s.ReceiveCounter + 1 else s.ReceiveCounter := by
  unfold bumpCounter
  split <;> rfl

theorem currentPath_iff {P : Crypto} (s : Session P) (m : Message P) :
    currentPath s m ↔ m.Counter = s.ReceiveCounter + 1 := by
  unfold currentPath
  rw [bumpCounter_ReceiveCounter]
  split <;> omega

theorem futurePath_iff {P : Crypto} (s : Session P) (m : Message P) :
    futurePath s m ↔ m.Counter > s.ReceiveCounter + 1 := by
  unfold futurePath
  rw [bumpCounter_ReceiveCounter]
  split <;> omega

theorem pastPath_iff {P : Crypto} (s : Session P) (m : Message P) :
    pastPath s m ↔ m.Counter ≤ s.ReceiveCounter := by
  unfold pastPath
  rw [bumpCounter_ReceiveCounter]
  split <;> omega

/-- The ratchet step writes the partner key, the root, the receive chain and
the turn flag, and nothing else. -/
theorem dhRatchet_frame (P : Crypto) (m : Message P) (s s' : Session P)
    (h : dhRatchet P m s = some s') :
    s'.MyDHRatchet = s.MyDHRatchet ∧ s'.SendChain = s.SendChain ∧
    s'.CachedReceiveKeys = s.CachedReceiveKeys ∧ s'.SendCounter = s.SendCounter ∧
    s'.LastUpdate = s.LastUpdate ∧ s'.ReceiveCounter = s.ReceiveCounter := by
  unfold dhRatchet at h
  split at h
  · simp only [Option.some.injEq] at h
    subst h
    simp
  · simp at h

theorem currentRatchet_frame (P : Crypto) (m : Message P) (s s' : Session P)
    (h : currentRatchet P m s = some s') :
    s'.MyDHRatchet = s.MyDHRatchet ∧ s'.SendChain = s.SendChain ∧
    s'.CachedReceiveKeys = s.CachedReceiveKeys ∧ s'.SendCounter = s.SendCounter ∧
    s'.LastUpdate = s.LastUpdate ∧ s'.ReceiveCounter = s.ReceiveCounter := by
  unfold currentRatchet at h
  split at h
  · exact dhRatchet_frame P m s s' h
  · simp only [Option.some.injEq] at h
    subst h
    simp

theorem bumpCounter_frame {P : Crypto} (s : Session P) (m : Message P) :
    (bumpCounter s m).MyDHRatchet = s.MyDHRatchet ∧
    (bumpCounter s m).PartnerDHRatchet = s.PartnerDHRatchet ∧
    (bumpCounter s m).RootChain = s.RootChain ∧
    (bumpCounter s m).SendChain = s.SendChain ∧
    (bumpCounter s m).ReceiveChain = s.ReceiveChain ∧
    (bumpCounter s m).CachedReceiveKeys = s.CachedReceiveKeys ∧
    (bumpCounter s m).SendCounter = s.SendCounter ∧
    (bumpCounter s m).LastUpdate = s.LastUpdate ∧
    (bumpCounter s m).Change = s.Change := by
  unfold bumpCounter
  split <;> simp

/-- When the message is not the current one, lines 239-245 do nothing. -/
theorem currentRatchet_off_path (P : Crypto) (m : Message P) (s : Session P)
    (h : ¬ m.Counter = s.ReceiveCounter) : currentRatchet P m s = some s := by
  unfold currentRatchet
  simp [h]

/-- Lifting a result of the body of `ReceiveMessage` to the chatter. -/
theorem ReceiveMessage_of_session (P : Crypto) (c : Chatter P) (m : Message P)
    (sender : P.PublicKey) (s s' : Session P) (val : String) (err : GoError)
    (hsender : m.Sender = some sender) (hget : mapGet c.Sessions sender = some s)
    (hbody : receiveOnSession P s m = some (s', val, err)) :
    ReceiveMessage P c (some m) = some (c.setSession sender s', val, err) := by
  simp only [ReceiveMessage, hsender, hget, hbody]

theorem mapGet_setSession_same {P : Crypto} (c : Chatter P) (k : P.PublicKey) (s : Session P) :
    mapGet (c.setSession k s).Sessions k = some s := by
  simp only [Chatter.setSession, mapGet_mapSet_same]

/-- The current-counter branch on a failing decryption: the result is the
session of before the call with the turn flag cleared. -/
theorem receiveOnSession_current_fail (P : Crypto) (s s1 : Session P) (m : Message P)
    (chain : P.SymmetricKey) (e : String)
    (hnext : m.Counter = s.ReceiveCounter + 1)
    (hratchet : currentRatchet P m (bumpCounter s m) = some s1)
    (hchain : s1.ReceiveChain = some chain)
    (hfail : (P.AuthenticatedDecrypt (P.DeriveKey chain KEY_LABEL) m.Ciphertext
      (EncodeAdditionalData P m) m.IV).2 = some e) :
    receiveOnSession P s m = some ({ s with Change := false }, "", some e) := by
  obtain ⟨f1, f2, f3, f4, f5, f6⟩ := currentRatchet_frame P m _ s1 hratchet
  obtain ⟨b1, -, -, b4, -, b6, b7, b8, -⟩ := bumpCounter_frame s m
  have hcur : m.Counter = s1.ReceiveCounter := by
    rw [f6]; exact (currentPath_iff s m).2 hnext
  simp only [receiveOnSession, hratchet, hchain, hcur, hfail, if_true, ne_eq, reduceCtorEq,
    not_false_eq_true, rollback, Option.some.injEq, Prod.mk.injEq, and_true]
  cases s
  cases s1
  simp_all

/-- The current-counter branch on a successful decryption. -/
theorem receiveOnSession_current_ok (P : Crypto) (s s1 : Session P) (m : Message P)
    (chain : P.SymmetricKey)
    (hnext : m.Counter = s.ReceiveCounter + 1)
    (hratchet : currentRatchet P m (bumpCounter s m) = some s1)
    (hchain : s1.ReceiveChain = some chain)
    (hok : (P.AuthenticatedDecrypt (P.DeriveKey chain KEY_LABEL) m.Ciphertext
      (EncodeAdditionalData P m) m.IV).2 = none) :
    receiveOnSession P s m =
      some ({ s1 with ReceiveChain := some (P.DeriveKey chain CHAIN_LABEL) },
        (P.AuthenticatedDecrypt (P.DeriveKey chain KEY_LABEL) m.Ciphertext
          (EncodeAdditionalData P m) m.IV).1, none) := by
  obtain ⟨-, -, -, -, -, f6⟩ := currentRatchet_frame P m _ s1 hratchet
  have hcur : m.Counter = s1.ReceiveCounter := by
    rw [f6]; exact (currentPath_iff s m).2 hnext
  simp only [receiveOnSession, hratchet, hchain, hcur, hok, if_true, ne_eq, not_true_eq_false,
    if_false]

/-- The early-messages branch, given the session `s1` that the walk over the
skipped indices leaves. -/
theorem receiveOnSession_future (P : Crypto) (s s1 : Session P) (m : Message P)
    (chain0 chain : P.SymmetricKey)
    (hfuture : m.Counter > s.ReceiveCounter + 1)
    (hchain0 : s.ReceiveChain = some chain0)
    (hwalk : futureWalk P m (bumpCounter s m) = some s1)
    (hchain : s1.ReceiveChain = some chain) :
    receiveOnSession P s m =
      some (if (P.AuthenticatedDecrypt (P.DeriveKey chain KEY_LABEL) m.Ciphertext
              (EncodeAdditionalData P m) m.IV).2 ≠ none then
          rollback { s1 with ReceiveCounter := m.Counter,
                             ReceiveChain := some (P.DeriveKey chain CHAIN_LABEL) }
            s.RootChain s.PartnerDHRatchet s.ReceiveChain s.ReceiveCounter
        else { s1 with ReceiveCounter := m.Counter,
                       ReceiveChain := some (P.DeriveKey chain CHAIN_LABEL) },
        P.AuthenticatedDecrypt (P.DeriveKey chain KEY_LABEL) m.Ciphertext
          (EncodeAdditionalData P m) m.IV) := by
  have hf := (futurePath_iff s m).2 hfuture
  unfold futurePath at hf
  have hne : ¬ m.Counter = (bumpCounter s m).ReceiveCounter := by omega
  have hb := (bumpCounter_frame s m).2.2.2.2.1
  simp only [receiveOnSession, currentRatchet_off_path P m _ hne, hb, hchain0, hne, if_false,
    hf, if_true, hwalk, hchain]
  split <;> rfl

/-- The late-messages branch when the cache holds a key for the counter. -/
theorem receiveOnSession_past (P : Crypto) (s : Session P) (m : Message P)
    (chain0 key : P.SymmetricKey)
    (hpast : m.Counter ≤ s.ReceiveCounter)
    (hchain0 : s.ReceiveChain = some chain0)
    (hkey : mapGet s.CachedReceiveKeys m.Counter = some key) :
    receiveOnSession P s m =
      some (if (P.AuthenticatedDecrypt key m.Ciphertext (EncodeAdditionalData P m) m.IV).2 = none
        then { bumpCounter s m with
               CachedReceiveKeys := mapSet s.CachedReceiveKeys m.Counter (P.Zeroize key) }
        else bumpCounter s m,
        P.AuthenticatedDecrypt key m.Ciphertext (EncodeAdditionalData P m) m.IV) := by
  obtain ⟨hne, hngt⟩ := (pastPath_iff s m).2 hpast
  obtain ⟨-, -, -, -, hb, hcache, -, -, -⟩ := bumpCounter_frame s m
  simp only [receiveOnSession, currentRatchet_off_path P m _ hne, hb, hchain0, hne, if_false,
    hngt, hcache, hkey]
  split <;> rfl

/-- The late-messages branch when the cache holds no key for the counter: the
nil key is handed to `AuthenticatedDecrypt`. -/
theorem receiveOnSession_past_miss (P : Crypto) (s : Session P) (m : Message P)
    (hpast : m.Counter ≤ s.ReceiveCounter)
    (hkey : mapGet s.CachedReceiveKeys m.Counter = none) :
    receiveOnSession P s m = none := by
  obtain ⟨hne, hngt⟩ := (pastPath_iff s m).2 hpast
  obtain ⟨-, -, -, -, hb, hcache, -, -, -⟩ := bumpCounter_frame s m
  simp only [receiveOnSession, currentRatchet_off_path P m _ hne, hb, hne, if_false,
    hngt, hcache, hkey]
  split <;> rfl

/-! ## The walk over skipped indices -/

theorem skipBody_cache (P : Crypto) (m : Message P) (i : Int) (s s' : Session P)
    (h : skipBody P m i s = some s') :
    (mapGet s'.CachedReceiveKeys i).isSome ∧
    ∀ j, (mapGet s.CachedReceiveKeys j).isSome → (mapGet s'.CachedReceiveKeys j).isSome := by
  unfold skipBody at h
  split at h
  · simp at h
  · rename_i s1 h1
    have hc : s1.CachedReceiveKeys = s.CachedReceiveKeys := by
      split at h1
      · exact (dhRatchet_frame P m s s1 h1).2.2.1
      · simp only [Option.some.injEq] at h1
        rw [h1]
    split at h
    · simp at h
    · simp only [Option.some.injEq] at h
      subst h
      refine ⟨by simp [mapGet_mapSet_same], fun j hj => ?_⟩
      by_cases hji : j = i
      · subst hji
        simp [mapGet_mapSet_same]
      · simp only [mapGet_mapSet_other _ _ _ _ hji, hc]
        exact hj

theorem skipLoop_cache (P : Crypto) (m : Message P) (n : Nat) :
    ∀ (i : Int) (s s' : Session P), skipLoop P m n i s = some s' →
      (∀ j, i ≤ j → j < i + n → (mapGet s'.CachedReceiveKeys j).isSome) ∧
      ∀ j, (mapGet s.CachedReceiveKeys j).isSome → (mapGet s'.CachedReceiveKeys j).isSome := by
  induction n with
  | zero =>
    intro i s s' h
    simp only [skipLoop, Option.some.injEq] at h
    subst h
    exact ⟨fun j h1 h2 => by omega, fun j hj => hj⟩
  | succ n ih =>
    intro i s s' h
    simp only [skipLoop] at h
    split at h
    · simp at h
    · rename_i s1 h1
      obtain ⟨hi, hkeep⟩ := skipBody_cache P m i s s1 h1
      obtain ⟨hrange, hkeep'⟩ := ih (i + 1) s1 s' h
      refine ⟨fun j h1 h2 => ?_, fun j hj => hkeep' j (hkeep j hj)⟩
      by_cases hji : j = i
      · subst hji
        exact hkeep' j hi
      · exact hrange j (by omega) (by push_cast at h2; omega)

/-- After the walk of the early-messages branch the cache holds a key for
every index from the walk's start up to the message counter. -/
theorem futureWalk_cache (P : Crypto) (m : Message P) (s s' : Session P)
    (h : futureWalk P m s = some s') :
    ∀ j, s.ReceiveCounter ≤ j → j < m.Counter → (mapGet s'.CachedReceiveKeys j).isSome := by
  unfold futureWalk at h
  split at h
  · simp at h
  · rename_i s1 h1
    obtain ⟨hrange, -⟩ := skipLoop_cache P m _ _ s s1 h1
    have hc : s'.CachedReceiveKeys = s1.CachedReceiveKeys := by
      split at h
      · exact (dhRatchet_frame P m s1 s' h).2.2.1
      · simp only [Option.some.injEq] at h
        rw [h]
    intro j h1 h2
    rw [hc]
    exact hrange j h1 (by omega)

/-! ## Failing decryptions -/

/-- C4: when the message is the next in-order one (counter = receive counter
+ 1) and the decryption of line 247 returns an error, `ReceiveMessage` returns
that error with an empty plaintext, and the session's receive counter, send
counter, root chain, send chain, receive chain and partner ratchet key are what
they were before the call. -/
theorem receive_current_failure_restores (P : Crypto) (c : Chatter P) (m : Message P)
    (sender : P.PublicKey) (s s1 : Session P) (chain : P.SymmetricKey) (e : String)
    (hsender : m.Sender = some sender) (hget : mapGet c.Sessions sender = some s)
    (hnext : m.Counter = s.ReceiveCounter + 1)
    (hratchet : currentRatchet P m (bumpCounter s m) = some s1)
    (hchain : s1.ReceiveChain = some chain)
    (hfail : (P.AuthenticatedDecrypt (P.DeriveKey chain KEY_LABEL) m.Ciphertext
      (EncodeAdditionalData P m) m.IV).2 = some e) :
    ∃ (c' : Chatter P) (s' : Session P),
      ReceiveMessage P c (some m) = some (c', "", some e) ∧
      mapGet c'.Sessions sender = some s' ∧
      s'.ReceiveCounter = s.ReceiveCounter ∧ s'.SendCounter = s.SendCounter ∧
      s'.RootChain = s.RootChain ∧ s'.SendChain = s.SendChain ∧
      s'.ReceiveChain = s.ReceiveChain ∧ s'.PartnerDHRatchet = s.PartnerDHRatchet :=
  ⟨_, _, ReceiveMessage_of_session P c m sender s _ _ _ hsender hget
      (receiveOnSession_current_fail P s s1 m chain e hnext hratchet hchain hfail),
    mapGet_setSession_same _ _ _, rfl, rfl, rfl, rfl, rfl, rfl⟩

/-- C10: when the message is on the future path (counter > receive counter + 1)
and the decryption of line 284 returns an error, `ReceiveMessage` returns that
error; receive counter, root chain, receive chain and partner ratchet key are
what they were before the call; and the cache holds a key for every skipped
index between the old receive counter and the message counter. -/
theorem receive_future_failure_restores (P : Crypto) (c : Chatter P) (m : Message P)
    (sender : P.PublicKey) (s s1 : Session P) (chain0 chain : P.SymmetricKey) (e : String)
    (hsender : m.Sender = some sender) (hget : mapGet c.Sessions sender = some s)
    (hfuture : m.Counter > s.ReceiveCounter + 1)
    (hchain0 : s.ReceiveChain = some chain0)
    (hwalk : futureWalk P m (bumpCounter s m) = some s1)
    (hchain : s1.ReceiveChain = some chain)
    (hfail : (P.AuthenticatedDecrypt (P.DeriveKey chain KEY_LABEL) m.Ciphertext
      (EncodeAdditionalData P m) m.IV).2 = some e) :
    ∃ (c' : Chatter P) (s' : Session P) (val : String),
      ReceiveMessage P c (some m) = some (c', val, some e) ∧
      mapGet c'.Sessions sender = some s' ∧
      s'.ReceiveCounter = s.ReceiveCounter ∧ s'.RootChain = s.RootChain ∧
      s'.ReceiveChain = s.ReceiveChain ∧ s'.PartnerDHRatchet = s.PartnerDHRatchet ∧
      ∀ i, s.ReceiveCounter < i → i < m.Counter →
        (mapGet s'.CachedReceiveKeys i).isSome := by
  have hbody := receiveOnSession_future P s s1 m chain0 chain hfuture hchain0 hwalk hchain
  generalize P.AuthenticatedDecrypt (P.DeriveKey chain KEY_LABEL) m.Ciphertext
      (EncodeAdditionalData P m) m.IV = r at hbody hfail
  obtain ⟨val, err⟩ := r
  simp only at hfail
  subst hfail
  rw [if_pos (by simp)] at hbody
  have hlift := ReceiveMessage_of_session P c m sender s _ _ _ hsender hget hbody
  refine ⟨_, _, _, hlift, mapGet_setSession_same _ _ _, rfl, rfl, rfl, rfl, fun i h1 h2 => ?_⟩
  have hstart : (bumpCounter s m).ReceiveCounter = s.ReceiveCounter + 1 := by
    rw [bumpCounter_ReceiveCounter, if_pos (by omega)]
  exact futureWalk_cache P m _ s1 hwalk i (by omega) h2

/-! ## The concrete primitive layer meets the contracts -/

theorem toy_DHCommutative : DHCommutative toyCrypto := by
  intro x y
  show ((2 : Nat) ^ x) ^ y = (2 ^ y) ^ x
  rw [← pow_mul, ← pow_mul, mul_comm]

theorem toy_AEADCorrect : AEADCorrect toyCrypto := by
  intro k pt ad iv
  show toyDecrypt k (k :: (ad ++ iv ++ pt.toList.map Char.toNat)) ad iv = (pt, none)
  have h1 : (ad ++ iv ++ pt.toList.map Char.toNat).take (ad.length + iv.length) = ad ++ iv := by
    rw [← List.length_append]; exact List.take_left' rfl
  have h2 : (ad ++ iv ++ pt.toList.map Char.toNat).drop (ad.length + iv.length) =
      pt.toList.map Char.toNat := by
    rw [← List.length_append]; exact List.drop_left' rfl
  simp only [toyDecrypt, h1, h2, and_self, if_true, List.map_map]
  have h3 : (Char.ofNat ∘ Char.toNat) = id := by
    funext c; simp
  rw [h3, List.map_id]
  rfl

theorem toy_AEADKeyBinding : AEADKeyBinding toyCrypto := by
  intro k k' ct ad iv hok hne
  show ∃ e, toyDecrypt k' ct ad iv = ("", some e)
  change (toyDecrypt k ct ad iv).2 = none at hok
  unfold toyDecrypt at hok ⊢
  cases ct with
  | nil => simp at hok
  | cons t rest =>
    simp only at hok ⊢
    split at hok
    · rename_i h
      have : ¬ (t = k' ∧ rest.take (ad.length + iv.length) = ad ++ iv) := by
        intro h'
        exact hne (h'.1.symm.trans h.1)
      rw [if_neg this]
      exact ⟨_, rfl⟩
    · simp at hok

theorem toyPair_WellFormed (a : Nat) : (toyPair a).WellFormed := rfl

/-! ## Evaluations on the concrete runs -/

/-- C5: Bob's session after the handshake has the turn flag set; a tampered
copy of Alice's first message is on the current path, its decryption fails,
and after `ReceiveMessage` returned the error the turn flag is cleared, not
restored. -/
theorem failed_receive_clears_turn_flag :
    (toyEstablished.2.sessionOf 8).Change = true ∧
    currentPath (toyEstablished.2.sessionOf 8) (tamper (toyMessage 0)) ∧
    (ReceiveMessage toyCrypto toyEstablished.2 (some (tamper (toyMessage 0)))).map
        (fun r => (r.2, (r.1.sessionOf 8).Change)) =
      some (("", some "authentication failed"), false) := by
  decide

/-- C6: Bob has rejected a tampered copy of message 2 and accepted message 1;
his receive counter is 1. A second delivery of message 1 is handled on the
past path, returns the plaintext again, and leaves the receive counter at 2. -/
theorem past_path_moves_receive_counter :
    pastPath ((toyBobAfter [tamper (toyMessage 1), toyMessage 0]).sessionOf 8) (toyMessage 0) ∧
    ((toyBobAfter [tamper (toyMessage 1), toyMessage 0]).sessionOf 8).ReceiveCounter = 1 ∧
    (ReceiveMessage toyCrypto (toyBobAfter [tamper (toyMessage 1), toyMessage 0])
        (some (toyMessage 0))).map (fun r => (r.2, (r.1.sessionOf 8).ReceiveCounter)) =
      some (("one", none), 2) := by
  decide

/-- C8: Bob has received message 2 and holds the cached key of the skipped
message 1. After message 1 is received successfully on the past path the cache
still has its entry for counter 1, now holding the zeroized key, and as many
entries as before: the key is wiped, the entry is not removed. A forged message
for counter 1 sealed under the all-zero key is then accepted. -/
theorem consumed_key_stays_cached :
    pastPath ((toyBobAfter [toyMessage 1]).sessionOf 8) (toyMessage 0) ∧
    ((toyBobAfter [toyMessage 1]).sessionOf 8).CachedReceiveKeys = [(1, 69823658043454276)] ∧
    (ReceiveMessage toyCrypto (toyBobAfter [toyMessage 1]) (some (toyMessage 0))).map
        (fun r => (r.2, (r.1.sessionOf 8).CachedReceiveKeys)) =
      some (("one", none), [(1, toyCrypto.Zeroize 69823658043454276)]) ∧
    (receiveAll toyCrypto toyEstablished.2
        [toyMessage 1, toyMessage 0, toyForged]).map (fun r => r.2) =
      some [("two", none), ("one", none), ("evil", none)] := by
  decide

/-- C9: Bob has received message 1 in order; a second delivery of message 1
is on the past path, the cache has no key for counter 1, and `ReceiveMessage`
does not return: the nil key is dereferenced. -/
theorem cache_miss_does_not_return :
    pastPath ((toyBobAfter [toyMessage 0]).sessionOf 8) (toyMessage 0) ∧
    mapGet ((toyBobAfter [toyMessage 0]).sessionOf 8).CachedReceiveKeys (toyMessage 0).Counter =
      none ∧
    (ReceiveMessage toyCrypto (toyBobAfter [toyMessage 0]) (some (toyMessage 0))).isNone =
      true := by
  decide

/-! ## The past path and the key cache -/

/-- The late-messages branch for every session: when a message is handled on
the past path and the cache holds a key for its counter, `ReceiveMessage`
returns what the decryption under that key returns; after a successful
decryption the entry for the counter is still in the cache and holds the
zeroized key (line 303 is followed by no `delete`), the cache has as many
entries as before and its other entries are untouched; after a failed
decryption the cache is unchanged. -/
theorem receive_past_cache_effect (P : Crypto) (c : Chatter P) (m : Message P)
    (sender : P.PublicKey) (s : Session P) (chain0 key : P.SymmetricKey)
    (hsender : m.Sender = some sender) (hget : mapGet c.Sessions sender = some s)
    (hpast : pastPath s m) (hchain0 : s.ReceiveChain = some chain0)
    (hkey : mapGet s.CachedReceiveKeys m.Counter = some key) :
    ∃ (c' : Chatter P) (s' : Session P),
      ReceiveMessage P c (some m) =
        some (c', P.AuthenticatedDecrypt key m.Ciphertext (EncodeAdditionalData P m) m.IV) ∧
      mapGet c'.Sessions sender = some s' ∧
      ((P.AuthenticatedDecrypt key m.Ciphertext (EncodeAdditionalData P m) m.IV).2 = none →
        mapGet s'.CachedReceiveKeys m.Counter = some (P.Zeroize key) ∧
        s'.CachedReceiveKeys.length = s.CachedReceiveKeys.length ∧
        ∀ j, j ≠ m.Counter → mapGet s'.CachedReceiveKeys j = mapGet s.CachedReceiveKeys j) ∧
      ((P.AuthenticatedDecrypt key m.Ciphertext (EncodeAdditionalData P m) m.IV).2 ≠ none →
        s'.CachedReceiveKeys = s.CachedReceiveKeys) := by
  have hbody := receiveOnSession_past P s m chain0 key ((pastPath_iff s m).1 hpast) hchain0 hkey
  refine ⟨_, _, ReceiveMessage_of_session P c m sender s _ _ _ hsender hget hbody,
    mapGet_setSession_same _ _ _, fun hok => ?_, fun hfail => ?_⟩
  · rw [if_pos hok]
    exact ⟨mapGet_mapSet_same _ _ _, length_mapSet_present _ _ _ _ hkey,
      fun j hj => mapGet_mapSet_other _ _ _ _ hj⟩
  · rw [if_neg hfail]
    exact (bumpCounter_frame s m).2.2.2.2.2.1

/-- What stands between a consumed message and its replay is the AEAD alone:
if the AEAD rejects a ciphertext under every key but the one that opens it, and
the cached key is not already the zeroized key, then after a successful
reception on the past path the same message is rejected, by the decryption
under the zeroized key that the cache entry still holds. -/
theorem replay_of_consumed_message_fails (P : Crypto) (hbinding : AEADKeyBinding P)
    (c c1 : Chatter P) (m : Message P) (sender : P.PublicKey) (s : Session P)
    (key : P.SymmetricKey) (val : String)
    (hsender : m.Sender = some sender) (hget : mapGet c.Sessions sender = some s)
    (hpast : pastPath s m)
    (hkey : mapGet s.CachedReceiveKeys m.Counter = some key)
    (hwiped : P.Zeroize key ≠ key)
    (hfirst : ReceiveMessage P c (some m) = some (c1, val, none)) :
    ∃ (c2 : Chatter P) (e : String), ReceiveMessage P c1 (some m) = some (c2, "", some e) := by
  obtain ⟨hne, hngt⟩ := hpast
  obtain ⟨-, -, -, -, hb, -, -, -, -⟩ := bumpCounter_frame s m
  cases hrc : s.ReceiveChain with
  | none =>
    simp [ReceiveMessage, hsender, hget, receiveOnSession, currentRatchet_off_path P m _ hne,
      hb, hrc] at hfirst
  | some chain0 =>
    have hbody := receiveOnSession_past P s m chain0 key
      ((pastPath_iff s m).1 ⟨hne, hngt⟩) hrc hkey
    have hlift := ReceiveMessage_of_session P c m sender s _ _ _ hsender hget hbody
    rw [hfirst] at hlift
    simp only [Option.some.injEq, Prod.mk.injEq] at hlift
    obtain ⟨hc1, hdec⟩ := hlift
    have hok : (P.AuthenticatedDecrypt key m.Ciphertext (EncodeAdditionalData P m) m.IV).2 =
        none := hdec.2.symm
    rw [if_pos hok] at hc1
    obtain ⟨e, he⟩ := hbinding key (P.Zeroize key) m.Ciphertext (EncodeAdditionalData P m) m.IV
      hok hwiped
    have hget1 : mapGet c1.Sessions sender = some
        { bumpCounter s m with
          CachedReceiveKeys := mapSet s.CachedReceiveKeys m.Counter (P.Zeroize key) } := by
      rw [hc1]; exact mapGet_setSession_same _ _ _
    have hbody1 := receiveOnSession_past P
      { bumpCounter s m with
        CachedReceiveKeys := mapSet s.CachedReceiveKeys m.Counter (P.Zeroize key) }
      m chain0 (P.Zeroize key)
      (show m.Counter ≤ (bumpCounter s m).ReceiveCounter by omega) (hb.trans hrc)
      (mapGet_mapSet_same _ _ _)
    rw [he, if_neg (by simp)] at hbody1
    exact ⟨_, e, ReceiveMessage_of_session P c1 m sender _ _ _ _ hsender hget1 hbody1⟩

/-! ## The theorems at concrete inputs -/

/-- The handshake of Alice and Bob: all three calls succeed and agree on the
root and on the check key. -/
theorem handshake_agreement_witness :
    ∃ (a1 a2 b1 : Chatter toyCrypto) (sA sB : Session toyCrypto)
      (root check : toyCrypto.SymmetricKey),
      InitiateHandshake toyCrypto toyAlice (some (toyPair 5).PublicKey) (toyPair 7) =
        some (a1, some (toyPair 7).PublicKey, none) ∧
      ReturnHandshake toyCrypto toyBob (some (toyPair 3).PublicKey)
        (some (toyPair 7).PublicKey) (toyPair 4) =
        some (b1, some (toyPair 4).PublicKey, some check, none) ∧
      FinalizeHandshake toyCrypto a1 (some (toyPair 5).PublicKey)
        (some (toyPair 4).PublicKey) = some (a2, some check, none) ∧
      mapGet a2.Sessions (toyPair 5).PublicKey = some sA ∧
      mapGet b1.Sessions (toyPair 3).PublicKey = some sB ∧
      sA.RootChain = some root ∧ sB.RootChain = some root :=
  handshake_agreement toyCrypto toy_DHCommutative toyAlice toyBob (toyPair 3) (toyPair 5)
    (toyPair 7) (toyPair 4) rfl rfl rfl rfl rfl rfl rfl rfl

/-- Bob, just after the handshake, rejects a tampered copy of message 1 and
keeps counters and chains. -/
theorem receive_current_failure_restores_witness :
    ∃ (c' : Chatter toyCrypto) (s' : Session toyCrypto),
      ReceiveMessage toyCrypto toyEstablished.2 (some (tamper (toyMessage 0))) =
        some (c', "", some "authentication failed") ∧
      mapGet c'.Sessions 8 = some s' ∧
      s'.ReceiveCounter = (toyEstablished.2.sessionOf 8).ReceiveCounter ∧
      s'.SendCounter = (toyEstablished.2.sessionOf 8).SendCounter ∧
      s'.RootChain = (toyEstablished.2.sessionOf 8).RootChain ∧
      s'.SendChain = (toyEstablished.2.sessionOf 8).SendChain ∧
      s'.ReceiveChain = (toyEstablished.2.sessionOf 8).ReceiveChain ∧
      s'.PartnerDHRatchet = (toyEstablished.2.sessionOf 8).PartnerDHRatchet :=
  receive_current_failure_restores toyCrypto toyEstablished.2 (tamper (toyMessage 0)) 8
    (toyEstablished.2.sessionOf 8)
    (bumpCounter (toyEstablished.2.sessionOf 8) (tamper (toyMessage 0)))
    272748664232243 "authentication failed" rfl rfl (by decide) rfl rfl rfl

/-- Bob, just after the handshake, rejects a tampered copy of message 3: the
receive counter is back at 0 and the keys of the skipped messages 1 and 2 are
cached. -/
theorem receive_future_failure_restores_witness :
    ∃ (c' : Chatter toyCrypto) (s' : Session toyCrypto) (val : String),
      ReceiveMessage toyCrypto toyEstablished.2 (some (tamper (toyMessage 2))) =
        some (c', val, some "authentication failed") ∧
      mapGet c'.Sessions 8 = some s' ∧
      s'.ReceiveCounter = (toyEstablished.2.sessionOf 8).ReceiveCounter ∧
      s'.RootChain = (toyEstablished.2.sessionOf 8).RootChain ∧
      s'.ReceiveChain = (toyEstablished.2.sessionOf 8).ReceiveChain ∧
      s'.PartnerDHRatchet = (toyEstablished.2.sessionOf 8).PartnerDHRatchet ∧
      ∀ i, (toyEstablished.2.sessionOf 8).ReceiveCounter < i →
        i < (tamper (toyMessage 2)).Counter → (mapGet s'.CachedReceiveKeys i).isSome :=
  receive_future_failure_restores toyCrypto toyEstablished.2 (tamper (toyMessage 2)) 8
    (toyEstablished.2.sessionOf 8)
    ((futureWalk toyCrypto (tamper (toyMessage 2))
      (bumpCounter (toyEstablished.2.sessionOf 8) (tamper (toyMessage 2)))).getD
        (zeroSession toyCrypto))
    272748664232243 17874856459124290355 "authentication failed"
    rfl rfl (by decide) rfl rfl rfl rfl

/-- Alice sends counters 1, 2, 3; Bob receives 3, then 1 (which succeeds),
then 1 again, which the concrete AEAD rejects under the zeroized key. -/
theorem replay_of_consumed_message_fails_witness :
    ∃ (c2 : Chatter toyCrypto) (e : String),
      ReceiveMessage toyCrypto (toyBobAfter [toyMessage 2, toyMessage 0]) (some (toyMessage 0)) =
        some (c2, "", some e) :=
  replay_of_consumed_message_fails toyCrypto toy_AEADKeyBinding (toyBobAfter [toyMessage 2])
    (toyBobAfter [toyMessage 2, toyMessage 0]) (toyMessage 0) 8
    ((toyBobAfter [toyMessage 2]).sessionOf 8) 69823658043454276 "one"
    rfl rfl (by decide) rfl (by decide) rfl

/-- Bob has received message 2; receiving message 1 on the past path leaves
its cache entry in place. -/
theorem receive_past_cache_effect_witness :
    ∃ (c' : Chatter toyCrypto) (s' : Session toyCrypto),
      ReceiveMessage toyCrypto (toyBobAfter [toyMessage 1]) (some (toyMessage 0)) =
        some (c', toyCrypto.AuthenticatedDecrypt 69823658043454276 (toyMessage 0).Ciphertext
          (EncodeAdditionalData toyCrypto (toyMessage 0)) (toyMessage 0).IV) ∧
      mapGet c'.Sessions 8 = some s' ∧
      ((toyCrypto.AuthenticatedDecrypt 69823658043454276 (toyMessage 0).Ciphertext
          (EncodeAdditionalData toyCrypto (toyMessage 0)) (toyMessage 0).IV).2 = none →
        mapGet s'.CachedReceiveKeys (toyMessage 0).Counter =
          some (toyCrypto.Zeroize 69823658043454276) ∧
        s'.CachedReceiveKeys.length =
          ((toyBobAfter [toyMessage 1]).sessionOf 8).CachedReceiveKeys.length ∧
        ∀ j, j ≠ (toyMessage 0).Counter → mapGet s'.CachedReceiveKeys j =
          mapGet ((toyBobAfter [toyMessage 1]).sessionOf 8).CachedReceiveKeys j) ∧
      ((toyCrypto.AuthenticatedDecrypt 69823658043454276 (toyMessage 0).Ciphertext
          (EncodeAdditionalData toyCrypto (toyMessage 0)) (toyMessage 0).IV).2 ≠ none →
        s'.CachedReceiveKeys = ((toyBobAfter [toyMessage 1]).sessionOf 8).CachedReceiveKeys) :=
  receive_past_cache_effect toyCrypto (toyBobAfter [toyMessage 1]) (toyMessage 0) 8
    ((toyBobAfter [toyMessage 1]).sessionOf 8) 17874856459124290355 69823658043454276
    rfl rfl (by decide) rfl rfl

/-! ## Sending -/

/-- Lifting a result of the body of `SendMessage` to the chatter. -/
theorem SendMessage_of_session (P : Crypto) (c : Chatter P) (pid : P.PublicKey)
    (s s' : Session P) (m : Message P) (plaintext : String) (newKeys : KeyPair P) (iv : Bytes)
    (hget : mapGet c.Sessions pid = some s)
    (hbody : sendOnSession P c.Identity (some pid) s plaintext newKeys iv = some (s', m)) :
    SendMessage P c (some pid) plaintext newKeys iv = some (c.setSession pid s', some m, none) := by
  simp only [SendMessage, hget, hbody]

/-- Sending when the turn flag is not set: no ratchet step. -/
theorem sendOnSession_plain (P : Crypto) (ident my : KeyPair P) (receiver : Option P.PublicKey)
    (s : Session P) (chain : P.SymmetricKey) (plaintext : String) (newKeys : KeyPair P)
    (iv : Bytes) (hchange : s.Change = false) (hchain : s.SendChain = some chain)
    (hmy : s.MyDHRatchet = some my) :
    sendOnSession P (some ident) receiver s plaintext newKeys iv =
      some ({ s with SendCounter := s.SendCounter + 1
                     SendChain := some (P.DeriveKey chain CHAIN_LABEL) },
        buildMessage P ident.PublicKey receiver my.PublicKey (s.SendCounter + 1) s.LastUpdate
          false (P.DeriveKey chain KEY_LABEL) plaintext iv) := by
  simp [sendOnSession, hchange, hchain, hmy, buildMessage]

/-- Sending when the turn flag is set: the DH-ratchet step of lines 184-192,
then the send. -/
theorem sendOnSession_ratchet (P : Crypto) (ident : KeyPair P) (receiver : Option P.PublicKey)
    (s : Session P) (root : P.SymmetricKey) (partner : P.PublicKey) (plaintext : String)
    (newKeys : KeyPair P) (iv : Bytes) (hchange : s.Change = true)
    (hroot : s.RootChain = some root) (hpartner : s.PartnerDHRatchet = some partner) :
    sendOnSession P (some ident) receiver s plaintext newKeys iv =
      some ({ s with
              SendCounter := s.SendCounter + 1
              MyDHRatchet := some newKeys
              RootChain := some (ratchetRoot P root partner newKeys.PrivateKey)
              SendChain := some (P.DeriveKey (P.DeriveKey
                (ratchetRoot P root partner newKeys.PrivateKey) CHAIN_LABEL) CHAIN_LABEL)
              LastUpdate := s.SendCounter + 1
              Change := false },
        buildMessage P ident.PublicKey receiver newKeys.PublicKey (s.SendCounter + 1)
          (s.SendCounter + 1) true
          (P.DeriveKey (P.DeriveKey (ratchetRoot P root partner newKeys.PrivateKey) CHAIN_LABEL)
            KEY_LABEL) plaintext iv) := by
  simp [sendOnSession, hchange, hroot, hpartner, buildMessage, ratchetRoot]

/-- The receiver opens a built message under the key it was sealed with. -/
theorem decrypt_buildMessage (P : Crypto) (haead : AEADCorrect P) (sender : P.PublicKey)
    (receiver : Option P.PublicKey) (next : P.PublicKey) (counter lastUpdate : Int)
    (change : Bool) (key : P.SymmetricKey) (plaintext : String) (iv : Bytes) :
    P.AuthenticatedDecrypt key
      (buildMessage P sender receiver next counter lastUpdate change key plaintext iv).Ciphertext
      (EncodeAdditionalData P
        (buildMessage P sender receiver next counter lastUpdate change key plaintext iv))
      (buildMessage P sender receiver next counter lastUpdate change key plaintext iv).IV =
      (plaintext, none) :=
  haead key plaintext _ iv

/-! ## Receiving the next in-order message -/

/-- The ratchet step on a session that holds a root and a ratchet pair, for a
message that carries a ratchet key. -/
theorem dhRatchet_eq (P : Crypto) (m : Message P) (s : Session P) (root : P.SymmetricKey)
    (next : P.PublicKey) (my : KeyPair P) (hroot : s.RootChain = some root)
    (hnext : m.NextDHRatchet = some next) (hmy : s.MyDHRatchet = some my) :
    dhRatchet P m s =
      some { s with
             PartnerDHRatchet := some next
             RootChain := some (ratchetRoot P root next my.PrivateKey)
             ReceiveChain := some (P.DeriveKey (ratchetRoot P root next my.PrivateKey) CHAIN_LABEL)
             Change := true } := by
  simp [dhRatchet, hroot, hnext, hmy, ratchetRoot]

/-- The next in-order message, no ratchet step, decryption succeeds. -/
theorem receiveOnSession_next_plain (P : Crypto) (t : Session P) (m : Message P)
    (chain : P.SymmetricKey) (plaintext : String)
    (hnext : m.Counter = t.ReceiveCounter + 1)
    (hplain : m.Change = false ∨ t.Change = true)
    (hchain : t.ReceiveChain = some chain)
    (hopen : P.AuthenticatedDecrypt (P.DeriveKey chain KEY_LABEL) m.Ciphertext
      (EncodeAdditionalData P m) m.IV = (plaintext, none)) :
    receiveOnSession P t m =
      some ({ t with ReceiveCounter := t.ReceiveCounter + 1
                     ReceiveChain := some (P.DeriveKey chain CHAIN_LABEL) },
        plaintext, none) := by
  have hb : bumpCounter t m = { t with ReceiveCounter := t.ReceiveCounter + 1 } := by
    unfold bumpCounter
    rw [if_pos (by omega)]
  have hr : currentRatchet P m (bumpCounter t m) = some (bumpCounter t m) := by
    unfold currentRatchet
    rw [if_neg]
    rw [hb]
    rcases hplain with h | h <;> simp [h]
  have h := receiveOnSession_current_ok P t _ m chain hnext hr
    (by rw [hb]; exact hchain) (by rw [hopen])
  rw [h, hopen, hb]

/-- The next in-order message, carrying a fresh ratchet key that the session
has not applied yet, decryption succeeds. -/
theorem receiveOnSession_next_ratchet (P : Crypto) (t : Session P) (m : Message P)
    (root : P.SymmetricKey) (next : P.PublicKey) (my : KeyPair P) (plaintext : String)
    (hnext : m.Counter = t.ReceiveCounter + 1)
    (hmchange : m.Change = true) (htchange : t.Change = false)
    (hroot : t.RootChain = some root) (hkey : m.NextDHRatchet = some next)
    (hmy : t.MyDHRatchet = some my)
    (hopen : P.AuthenticatedDecrypt
      (P.DeriveKey (P.DeriveKey (ratchetRoot P root next my.PrivateKey) CHAIN_LABEL) KEY_LABEL)
      m.Ciphertext (EncodeAdditionalData P m) m.IV = (plaintext, none)) :
    receiveOnSession P t m =
      some ({ t with
              ReceiveCounter := t.ReceiveCounter + 1
              PartnerDHRatchet := some next
              RootChain := some (ratchetRoot P root next my.PrivateKey)
              ReceiveChain := some (P.DeriveKey
                (P.DeriveKey (ratchetRoot P root next my.PrivateKey) CHAIN_LABEL) CHAIN_LABEL)
              Change := true },
        plaintext, none) := by
  have hb : bumpCounter t m = { t with ReceiveCounter := t.ReceiveCounter + 1 } := by
    unfold bumpCounter
    rw [if_pos (by omega)]
  have hr : currentRatchet P m (bumpCounter t m) =
      some { bumpCounter t m with
             PartnerDHRatchet := some next
             RootChain := some (ratchetRoot P root next my.PrivateKey)
             ReceiveChain := some
               (P.DeriveKey (ratchetRoot P root next my.PrivateKey) CHAIN_LABEL)
             Change := true } := by
    unfold currentRatchet
    rw [if_pos (by rw [hb]; exact ⟨hnext, hmchange, htchange⟩)]
    exact dhRatchet_eq P m _ root next my (by rw [hb]; exact hroot) hkey (by rw [hb]; exact hmy)
  have h := receiveOnSession_current_ok P t _ m _ hnext hr rfl (by rw [hopen])
  rw [h, hopen, hb]

/-! ## In-order round trip -/

theorem Linked.symm {P : Crypto} {s t : Session P} (h : Linked s t) : Linked t s := by
  obtain ⟨h1, h2, ⟨root, hrs, hrt⟩, ⟨ks, kt, hks, hkt, wks, wkt⟩, hturn⟩ := h
  exact ⟨h2, h1, ⟨root, hrt, hrs⟩, ⟨kt, ks, hkt, hks, wkt, wks⟩, hturn.symm⟩

/-- The sessions a completed handshake leaves are in step, the responder
owing the first ratchet step. -/
theorem freshSession_linked (P : Crypto) (ephA ephB : KeyPair P) (root : P.SymmetricKey)
    (wfEA : ephA.WellFormed) (wfEB : ephB.WellFormed) :
    Linked (freshSession P ephA ephB.PublicKey root false)
      (freshSession P ephB ephA.PublicKey root true) :=
  ⟨⟨_, rfl, rfl, rfl⟩, ⟨_, rfl, rfl, rfl⟩, ⟨root, rfl, rfl⟩, ⟨ephA, ephB, rfl, rfl, wfEA, wfEB⟩,
    Or.inr ⟨rfl, rfl, ephA, rfl, rfl⟩⟩

/-- One send by the session `s` followed by the receive of that message by the
session `t` in step with `s`: the plaintext comes back with no error and the
sessions are in step again. -/
theorem exchange_step_session (P : Crypto) (hcomm : DHCommutative P) (haead : AEADCorrect P)
    (ident : KeyPair P) (receiver : Option P.PublicKey) (s t : Session P)
    (hlink : Linked s t) (plaintext : String) (newKeys : KeyPair P) (iv : Bytes)
    (hwf : newKeys.WellFormed) :
    ∃ (s' : Session P) (m : Message P) (t' : Session P),
      sendOnSession P (some ident) receiver s plaintext newKeys iv = some (s', m) ∧
      m.Sender = some ident.PublicKey ∧
      receiveOnSession P t m = some (t', plaintext, none) ∧ Linked s' t' := by
  obtain ⟨⟨ch, hs1, ht1, hc1⟩, ⟨ch2, ht2, hs2, hc2⟩, ⟨root, hrs, hrt⟩,
    ⟨ks, kt, hks, hkt, wks, wkt⟩, hturn⟩ := hlink
  rcases hturn with ⟨hsc, htc, kt', hkt', hsp⟩ | ⟨htc, hsc, ks', hks', htp⟩
  · -- the sender owes the ratchet step
    have hkk : kt' = kt := by
      rw [hkt] at hkt'
      exact (Option.some.inj hkt').symm
    subst hkk
    have hsend := sendOnSession_ratchet P ident receiver s root kt'.PublicKey plaintext newKeys iv
      hsc hrs hsp
    have hroots : ratchetRoot P root newKeys.PublicKey kt'.PrivateKey =
        ratchetRoot P root kt'.PublicKey newKeys.PrivateKey := by
      unfold ratchetRoot
      rw [hwf, wkt, hcomm]
    have hrecv := receiveOnSession_next_ratchet P t
      (buildMessage P ident.PublicKey receiver newKeys.PublicKey (s.SendCounter + 1)
        (s.SendCounter + 1) true
        (P.DeriveKey (P.DeriveKey (ratchetRoot P root kt'.PublicKey newKeys.PrivateKey)
          CHAIN_LABEL) KEY_LABEL) plaintext iv)
      root newKeys.PublicKey kt' plaintext
      (by show s.SendCounter + 1 = t.ReceiveCounter + 1; rw [hc1])
      rfl htc hrt rfl hkt
      (by rw [hroots]; exact decrypt_buildMessage P haead _ _ _ _ _ _ _ _ _)
    refine ⟨_, _, _, hsend, rfl, hrecv, ?_⟩
    refine ⟨⟨_, rfl, ?_, ?_⟩, ⟨ch2, ht2, hs2, ?_⟩, ⟨_, rfl, ?_⟩,
      ⟨newKeys, kt', rfl, hkt, hwf, wkt⟩, Or.inr ⟨rfl, rfl, newKeys, rfl, rfl⟩⟩
    · show some _ = some _
      rw [hroots]
    · show s.SendCounter + 1 = t.ReceiveCounter + 1
      rw [hc1]
    · exact hc2
    · show some _ = some _
      rw [hroots]
  · -- the receiver owes the ratchet step: the sender does not ratchet
    have hsend := sendOnSession_plain P ident ks receiver s ch plaintext newKeys iv hsc hs1 hks
    have hrecv := receiveOnSession_next_plain P t
      (buildMessage P ident.PublicKey receiver ks.PublicKey (s.SendCounter + 1) s.LastUpdate
        false (P.DeriveKey ch KEY_LABEL) plaintext iv)
      ch plaintext
      (by show s.SendCounter + 1 = t.ReceiveCounter + 1; rw [hc1])
      (Or.inl rfl) ht1 (decrypt_buildMessage P haead _ _ _ _ _ _ _ _ _)
    refine ⟨_, _, _, hsend, rfl, hrecv, ?_⟩
    refine ⟨⟨_, rfl, rfl, ?_⟩, ⟨ch2, ht2, hs2, hc2⟩, ⟨root, hrs, hrt⟩,
      ⟨ks, kt, hks, hkt, wks, wkt⟩, Or.inr ⟨htc, hsc, ks', hks', htp⟩⟩
    show s.SendCounter + 1 = t.ReceiveCounter + 1
    rw [hc1]

/-- Any run of immediately delivered exchanges between two chatters whose
sessions are in step returns every plaintext with no error. -/
theorem exchangeAll_linked (P : Crypto) (hcomm : DHCommutative P) (haead : AEADCorrect P)
    (idA idB : KeyPair P) :
    ∀ (xs : List (Exchange P)) (a b : Chatter P) (sA sB : Session P),
      (∀ x ∈ xs, x.newKeys.WellFormed) →
      a.Identity = some idA → b.Identity = some idB →
      mapGet a.Sessions idB.PublicKey = some sA → mapGet b.Sessions idA.PublicKey = some sB →
      Linked sA sB →
      ∃ a' b' : Chatter P, exchangeAll P idA.PublicKey idB.PublicKey a b xs =
        some (a', b', xs.map (fun x => (x.plaintext, none))) := by
  intro xs
  induction xs with
  | nil =>
    intro a b sA sB _ _ _ _ _ _
    exact ⟨a, b, rfl⟩
  | cons x rest ih =>
    intro a b sA sB hwf hidA hidB hgetA hgetB hlink
    have hwfx := hwf x (List.mem_cons_self _ _)
    have hwfrest : ∀ y ∈ rest, y.newKeys.WellFormed :=
      fun y hy => hwf y (List.mem_cons_of_mem _ hy)
    cases hdir : x.fromA with
    | true =>
      obtain ⟨s', m, t', hsend, hsender, hrecv, hlink'⟩ :=
        exchange_step_session P hcomm haead idA (some idB.PublicKey) sA sB hlink
          x.plaintext x.newKeys x.iv hwfx
      have hsend' := SendMessage_of_session P a idB.PublicKey sA s' m x.plaintext x.newKeys
        x.iv hgetA (by rw [hidA]; exact hsend)
      have hrecv' := ReceiveMessage_of_session P b m idA.PublicKey sB t' x.plaintext none
        hsender hgetB hrecv
      obtain ⟨a', b', hrest⟩ := ih (a.setSession idB.PublicKey s')
        (b.setSession idA.PublicKey t') s' t' hwfrest hidA hidB
        (mapGet_setSession_same _ _ _) (mapGet_setSession_same _ _ _) hlink'
      refine ⟨a', b', ?_⟩
      simp only [exchangeAll, hdir, if_true, hsend', hrecv', hrest, List.map_cons]
    | false =>
      obtain ⟨s', m, t', hsend, hsender, hrecv, hlink'⟩ :=
        exchange_step_session P hcomm haead idB (some idA.PublicKey) sB sA hlink.symm
          x.plaintext x.newKeys x.iv hwfx
      have hsend' := SendMessage_of_session P b idA.PublicKey sB s' m x.plaintext x.newKeys
        x.iv hgetB (by rw [hidB]; exact hsend)
      have hrecv' := ReceiveMessage_of_session P a m idB.PublicKey sA t' x.plaintext none
        hsender hgetA hrecv
      obtain ⟨a', b', hrest⟩ := ih (a.setSession idB.PublicKey t')
        (b.setSession idA.PublicKey s') t' s' hwfrest hidA hidB
        (mapGet_setSession_same _ _ _) (mapGet_setSession_same _ _ _) hlink'.symm
      refine ⟨a', b', ?_⟩
      simp only [exchangeAll, hdir, Bool.false_eq_true, if_false, hsend', hrecv', hrest,
        List.map_cons]

/-- C1: with a commutative Diffie-Hellman and an AEAD that opens what it
sealed, two chatters that complete a handshake with each other and then run any
finite sequence of exchanges, each `SendMessage` (by either side, any
plaintext) immediately followed by the addressee's `ReceiveMessage`, get from
every `ReceiveMessage` exactly the sent plaintext and a nil error. -/
theorem in_order_round_trip (P : Crypto) (hcomm : DHCommutative P) (haead : AEADCorrect P)
    (a b : Chatter P) (idA idB ephA ephB : KeyPair P)
    (hidA : a.Identity = some idA) (hidB : b.Identity = some idB)
    (wfA : idA.WellFormed) (wfB : idB.WellFormed) (wfEA : ephA.WellFormed)
    (wfEB : ephB.WellFormed)
    (hfreshA : mapGet a.Sessions idB.PublicKey = none)
    (hfreshB : mapGet b.Sessions idA.PublicKey = none)
    (xs : List (Exchange P)) (hwf : ∀ x ∈ xs, x.newKeys.WellFormed) :
    ∃ (a2 b2 a3 b3 : Chatter P) (checkA checkB : Option P.SymmetricKey),
      completeHandshake P a b idA.PublicKey idB.PublicKey ephA ephB =
        some (a2, b2, checkA, checkB) ∧
      exchangeAll P idA.PublicKey idB.PublicKey a2 b2 xs =
        some (a3, b3, xs.map (fun x => (x.plaintext, none))) := by
  obtain ⟨a2, b2, hrun, ha2, hb2, hsA, hsB⟩ := completeHandshake_eq P hcomm a b idA idB ephA ephB
    hidA hidB wfA wfB wfEA wfEB hfreshA hfreshB
  obtain ⟨a3, b3, hex⟩ := exchangeAll_linked P hcomm haead idA idB xs a2 b2 _ _ hwf ha2 hb2
    hsA hsB (freshSession_linked P ephA ephB _ wfEA wfEB)
  exact ⟨a2, b2, a3, b3, _, _, hrun, hex⟩

/-- Alice and Bob after their handshake: Alice sends twice, Bob answers, Alice
answers back; every plaintext arrives. -/
theorem in_order_round_trip_witness :
    ∃ (a2 b2 a3 b3 : Chatter toyCrypto) (checkA checkB : Option toyCrypto.SymmetricKey),
      completeHandshake toyCrypto toyAlice toyBob (toyPair 3).PublicKey (toyPair 5).PublicKey
        (toyPair 7) (toyPair 4) = some (a2, b2, checkA, checkB) ∧
      exchangeAll toyCrypto (toyPair 3).PublicKey (toyPair 5).PublicKey a2 b2
        [⟨true, "one", toyPair 9, [1]⟩, ⟨true, "two", toyPair 10, [2]⟩,
         ⟨false, "three", toyPair 11, [3]⟩, ⟨true, "four", toyPair 12, [4]⟩] =
        some (a3, b3,
          ([⟨true, "one", toyPair 9, [1]⟩, ⟨true, "two", toyPair 10, [2]⟩,
            ⟨false, "three", toyPair 11, [3]⟩, ⟨true, "four", toyPair 12, [4]⟩] :
            List (Exchange toyCrypto)).map (fun x => (x.plaintext, none))) :=
  in_order_round_trip toyCrypto toy_DHCommutative toy_AEADCorrect toyAlice toyBob (toyPair 3)
    (toyPair 5) (toyPair 7) (toyPair 4) rfl rfl rfl rfl rfl rfl rfl rfl _
    (by
      intro x hx
      simp only [List.mem_cons, List.mem_singleton, List.not_mem_nil, or_false] at hx
      rcases hx with h | h | h | h <;> subst h <;> rfl)

/-! ## Reverse-order delivery -/

theorem chainAt_zero (P : Crypto) (c : P.SymmetricKey) : chainAt P c 0 = c := rfl

theorem chainAt_succ (P : Crypto) (c : P.SymmetricKey) (k : Nat) :
    chainAt P c (k + 1) = chainAt P (P.DeriveKey c CHAIN_LABEL) k := rfl

/-- One iteration of the walk at an index that is not the message's
last-update index: the message key is cached and the chain advances. -/
theorem skipBody_plain (P : Crypto) (m : Message P) (i : Int) (s : Session P)
    (c : P.SymmetricKey) (hchain : s.ReceiveChain = some c) (hlu : m.LastUpdate ≠ i) :
    skipBody P m i s =
      some { s with
             CachedReceiveKeys := mapSet s.CachedReceiveKeys i (P.DeriveKey c KEY_LABEL)
             ReceiveChain := some (P.DeriveKey c CHAIN_LABEL) } := by
  simp only [skipBody, if_neg hlu, hchain]

/-- A walk over `n` indices none of which is the last-update index: the key
of index `i + k` is the message key at step `k` of the chain, entries below `i`
are untouched, the chain has advanced `n` steps, nothing else has changed. -/
theorem skipLoop_plain (P : Crypto) (m : Message P) (n : Nat) :
    ∀ (i : Int) (s : Session P) (c : P.SymmetricKey),
      s.ReceiveChain = some c → (∀ k : Nat, k < n → m.LastUpdate ≠ i + k) →
      ∃ s' : Session P, skipLoop P m n i s = some s' ∧
        s'.ReceiveChain = some (chainAt P c n) ∧
        (∀ k : Nat, k < n →
          mapGet s'.CachedReceiveKeys (i + k) = some (P.DeriveKey (chainAt P c k) KEY_LABEL)) ∧
        (∀ j : Int, j < i → mapGet s'.CachedReceiveKeys j = mapGet s.CachedReceiveKeys j) ∧
        s'.ReceiveCounter = s.ReceiveCounter ∧ s'.RootChain = s.RootChain ∧
        s'.PartnerDHRatchet = s.PartnerDHRatchet ∧ s'.MyDHRatchet = s.MyDHRatchet ∧
        s'.SendChain = s.SendChain ∧ s'.SendCounter = s.SendCounter ∧
        s'.LastUpdate = s.LastUpdate ∧ s'.Change = s.Change := by
  induction n with
  | zero =>
    intro i s c hchain _
    exact ⟨s, rfl, hchain, fun k hk => absurd hk (Nat.not_lt_zero k), fun j _ => rfl,
      rfl, rfl, rfl, rfl, rfl, rfl, rfl, rfl⟩
  | succ n ih =>
    intro i s c hchain hlu
    have hbody := skipBody_plain P m i s c hchain (by simpa using hlu 0 (Nat.succ_pos n))
    obtain ⟨s', hloop, hch, hkeys, hlow, f1, f2, f3, f4, f5, f6, f7, f8⟩ :=
      ih (i + 1)
        { s with
          CachedReceiveKeys := mapSet s.CachedReceiveKeys i (P.DeriveKey c KEY_LABEL)
          ReceiveChain := some (P.DeriveKey c CHAIN_LABEL) }
        (P.DeriveKey c CHAIN_LABEL) rfl
        (fun k hk => by
          have := hlu (k + 1) (Nat.succ_lt_succ hk)
          push_cast at this
          omega)
    refine ⟨s', ?_, ?_, ?_, ?_, f1, f2, f3, f4, f5, f6, f7, f8⟩
    · simp only [skipLoop, hbody, hloop]
    · rw [hch, chainAt_succ]
    · intro k hk
      cases k with
      | zero =>
        have := hlow i (by omega)
        simp only [Nat.cast_zero, add_zero, chainAt_zero]
        rw [this]
        exact mapGet_mapSet_same _ _ _
      | succ k =>
        have := hkeys k (Nat.lt_of_succ_lt_succ hk)
        rw [chainAt_succ, ← this]
        congr 1
        push_cast
        omega
    · intro j hj
      rw [hlow j (by omega)]
      exact mapGet_mapSet_other _ _ _ _ (by omega)

/-- A walk over `n + 1` indices whose first iteration starts with the entry
step `entry` (the ratchet step when the first index is the last-update index,
nothing otherwise), no later index being the last-update index. -/
theorem skipLoop_entry (P : Crypto) (m : Message P) (n : Nat) (i : Int) (s s0 : Session P)
    (c : P.SymmetricKey)
    (hentry : (if m.LastUpdate = i then dhRatchet P m s else some s) = some s0)
    (hchain : s0.ReceiveChain = some c)
    (hlu : ∀ k : Nat, 0 < k → k < n + 1 → m.LastUpdate ≠ i + k) :
    ∃ s' : Session P, skipLoop P m (n + 1) i s = some s' ∧
      s'.ReceiveChain = some (chainAt P c (n + 1)) ∧
      (∀ k : Nat, k < n + 1 →
        mapGet s'.CachedReceiveKeys (i + k) = some (P.DeriveKey (chainAt P c k) KEY_LABEL)) ∧
      s'.ReceiveCounter = s0.ReceiveCounter ∧ s'.RootChain = s0.RootChain ∧
      s'.PartnerDHRatchet = s0.PartnerDHRatchet ∧ s'.MyDHRatchet = s0.MyDHRatchet ∧
      s'.Change = s0.Change := by
  have hbody : skipBody P m i s =
      some { s0 with
             CachedReceiveKeys := mapSet s0.CachedReceiveKeys i (P.DeriveKey c KEY_LABEL)
             ReceiveChain := some (P.DeriveKey c CHAIN_LABEL) } := by
    simp only [skipBody, hentry, hchain]
  obtain ⟨s', hloop, hch, hkeys, hlow, f1, f2, f3, f4, -, -, -, f8⟩ :=
    skipLoop_plain P m n (i + 1)
      { s0 with
        CachedReceiveKeys := mapSet s0.CachedReceiveKeys i (P.DeriveKey c KEY_LABEL)
        ReceiveChain := some (P.DeriveKey c CHAIN_LABEL) }
      (P.DeriveKey c CHAIN_LABEL) rfl
      (fun k hk => by
        have := hlu (k + 1) (Nat.succ_pos k) (Nat.succ_lt_succ hk)
        push_cast at this
        omega)
  refine ⟨s', ?_, ?_, ?_, f1, f2, f3, f4, f8⟩
  · simp only [skipLoop, hbody, hloop]
  · rw [hch, chainAt_succ]
  · intro k hk
    cases k with
    | zero =>
      have := hlow i (by omega)
      simp only [Nat.cast_zero, add_zero, chainAt_zero]
      rw [this]
      exact mapGet_mapSet_same _ _ _
    | succ k =>
      have := hkeys k (Nat.lt_of_succ_lt_succ hk)
      rw [chainAt_succ, ← this]
      congr 1
      push_cast
      omega

/-- Receiving a message that is `n` counters ahead of the next in-order one,
from a sender whose last ratchet step is not later than the next in-order
counter: the keys of the `n` skipped messages are cached along the chain that
the entry step leaves, and the message opens under the key at step `n`. -/
theorem receiveOnSession_ahead (P : Crypto) (t t0 : Session P) (m : Message P) (n : Nat)
    (c0 cOld : P.SymmetricKey) (p : String)
    (hcounter : m.Counter = t.ReceiveCounter + 1 + n)
    (hentry : (if m.LastUpdate = t.ReceiveCounter + 1 then dhRatchet P m (bumpCounter t m)
      else some (bumpCounter t m)) = some t0)
    (hc0 : t0.ReceiveChain = some c0)
    (hold : t.ReceiveChain = some cOld)
    (hlu : m.LastUpdate ≤ t.ReceiveCounter + 1)
    (hflag : m.Change = true ↔ m.Counter = m.LastUpdate)
    (htc : m.LastUpdate = t.ReceiveCounter + 1 → t.Change = false)
    (hopen : P.AuthenticatedDecrypt (P.DeriveKey (chainAt P c0 n) KEY_LABEL) m.Ciphertext
      (EncodeAdditionalData P m) m.IV = (p, none)) :
    ∃ (t1 : Session P) (c1 : P.SymmetricKey),
      receiveOnSession P t m = some (t1, p, none) ∧
      t1.ReceiveCounter = m.Counter ∧ t1.ReceiveChain = some c1 ∧
      ∀ k : Nat, k < n → mapGet t1.CachedReceiveKeys (t.ReceiveCounter + 1 + k) =
        some (P.DeriveKey (chainAt P c0 k) KEY_LABEL) := by
  have hbr : (bumpCounter t m).ReceiveCounter = t.ReceiveCounter + 1 := by
    rw [bumpCounter_ReceiveCounter, if_pos (by omega)]
  have hbc : (bumpCounter t m).Change = t.Change := (bumpCounter_frame t m).2.2.2.2.2.2.2.2
  have ht0 : t0.ReceiveCounter = t.ReceiveCounter + 1 := by
    split at hentry
    · rw [(dhRatchet_frame P m _ t0 hentry).2.2.2.2.2, hbr]
    · rw [← Option.some.inj hentry, hbr]
  cases n with
  | zero =>
    have hnext : m.Counter = t.ReceiveCounter + 1 := by simpa using hcounter
    have hratchet : currentRatchet P m (bumpCounter t m) = some t0 := by
      unfold currentRatchet
      by_cases h : m.LastUpdate = t.ReceiveCounter + 1
      · rw [if_pos h] at hentry
        rw [if_pos ⟨by rw [hbr]; exact hnext, hflag.2 (by rw [h]; exact hnext),
          by rw [hbc]; exact htc h⟩]
        exact hentry
      · rw [if_neg h] at hentry
        have hmc : ¬ m.Change = true := fun hc => h (by rw [← hflag.1 hc]; exact hnext)
        rw [if_neg (fun hcond => hmc hcond.2.1)]
        exact hentry
    have h := receiveOnSession_current_ok P t t0 m c0 hnext hratchet hc0
      (by rw [chainAt_zero] at hopen; rw [hopen])
    rw [chainAt_zero] at hopen
    rw [hopen] at h
    exact ⟨_, _, h, by show t0.ReceiveCounter = m.Counter; rw [ht0, hnext], rfl,
      fun k hk => absurd hk (Nat.not_lt_zero k)⟩
  | succ n =>
    have hfuture : m.Counter > t.ReceiveCounter + 1 := by
      rw [hcounter]; push_cast; omega
    obtain ⟨s', hloop, hch, hkeys, -, -, -, -, -⟩ :=
      skipLoop_entry P m n (t.ReceiveCounter + 1) (bumpCounter t m) t0 c0 hentry hc0
        (fun k hk _ => by omega)
    have hcount : (m.Counter - (bumpCounter t m).ReceiveCounter).toNat = n + 1 := by
      rw [hbr, hcounter]; push_cast; omega
    have hwalk : futureWalk P m (bumpCounter t m) = some s' := by
      unfold futureWalk
      rw [hcount, hbr, hloop]
      simp only
      rw [if_neg (by omega)]
    have h := receiveOnSession_future P t s' m cOld _ hfuture hold hwalk hch
    rw [hopen, if_neg (by simp)] at h
    exact ⟨_, _, h, rfl, rfl, hkeys⟩

theorem GoodStream_length (P : Crypto) (sender next : P.PublicKey) (lastUpdate : Int) :
    ∀ (ms : List (Message P)) (ps : List String) (counter : Int) (chain : P.SymmetricKey),
      GoodStream P sender next lastUpdate counter chain ms ps → ms.length = ps.length := by
  intro ms
  induction ms with
  | nil =>
    intro ps counter chain h
    cases ps with
    | nil => rfl
    | cons p ps => simp [GoodStream] at h
  | cons m ms ih =>
    intro ps counter chain h
    cases ps with
    | nil => simp [GoodStream] at h
    | cons p ps =>
      simp only [GoodStream] at h
      simp only [List.length_cons, ih ps _ _ h.2.2.2.2.2.2]

/-- The last message of a stream: its counter, its flags, and the step of the
chain that gives its key. -/
theorem GoodStream_concat (P : Crypto) (sender next : P.PublicKey) (lastUpdate : Int) :
    ∀ (ms : List (Message P)) (ps : List String) (counter : Int) (chain : P.SymmetricKey)
      (m : Message P) (p : String),
      GoodStream P sender next lastUpdate counter chain (ms ++ [m]) (ps ++ [p]) →
      ms.length = ps.length →
      GoodStream P sender next lastUpdate counter chain ms ps ∧
      m.Sender = some sender ∧ m.NextDHRatchet = some next ∧ m.LastUpdate = lastUpdate ∧
      m.Counter = counter + 1 + ms.length ∧ (m.Change = true ↔ m.Counter = lastUpdate) ∧
      P.AuthenticatedDecrypt (P.DeriveKey (chainAt P chain ms.length) KEY_LABEL) m.Ciphertext
        (EncodeAdditionalData P m) m.IV = (p, none) := by
  intro ms
  induction ms with
  | nil =>
    intro ps counter chain m p h hlen
    cases ps with
    | cons p' ps => simp at hlen
    | nil =>
      simp only [List.nil_append, GoodStream] at h
      obtain ⟨h1, h2, h3, h4, h5, h6, -⟩ := h
      exact ⟨trivial, h1, h2, h3, by simpa using h4, h5, h6⟩
  | cons m0 ms ih =>
    intro ps counter chain m p h hlen
    cases ps with
    | nil => simp at hlen
    | cons p0 ps =>
      simp only [List.cons_append, GoodStream] at h
      obtain ⟨h1, h2, h3, h4, h5, h6, hrest⟩ := h
      obtain ⟨hms, g1, g2, g3, g4, g5, g6⟩ := ih ps _ _ m p hrest (by simpa using hlen)
      refine ⟨?_, g1, g2, g3, ?_, g5, ?_⟩
      · simp only [GoodStream]
        exact ⟨h1, h2, h3, h4, h5, h6, hms⟩
      · rw [g4]; simp only [List.length_cons]; push_cast; omega
      · simpa only [List.length_cons, chainAt_succ] using g6

theorem receiveAll_append (P : Crypto) :
    ∀ (l₁ l₂ : List (Message P)) (c c' c'' : Chatter P) (r₁ r₂ : List (String × GoError)),
      receiveAll P c l₁ = some (c', r₁) → receiveAll P c' l₂ = some (c'', r₂) →
      receiveAll P c (l₁ ++ l₂) = some (c'', r₁ ++ r₂) := by
  intro l₁
  induction l₁ with
  | nil =>
    intro l₂ c c' c'' r₁ r₂ h1 h2
    simp only [receiveAll, Option.some.injEq, Prod.mk.injEq] at h1
    obtain ⟨hc, hr⟩ := h1
    subst hc hr
    simpa using h2
  | cons m l₁ ih =>
    intro l₂ c c' c'' r₁ r₂ h1 h2
    simp only [receiveAll] at h1
    split at h1
    · rename_i c1 val err hrecv
      split at h1
      · rename_i c2 rs hrest
        simp only [Option.some.injEq, Prod.mk.injEq] at h1
        obtain ⟨hc, hr⟩ := h1
        subst hc hr
        have hih := ih l₂ c1 c2 c'' rs r₂ hrest h2
        show receiveAll P c (m :: (l₁ ++ l₂)) = some (c'', (val, err) :: (rs ++ r₂))
        simp only [receiveAll, hrecv, hih]
      · simp at h1
    · simp at h1

/-- When the counter of the message is below the receive counter, the bump of
line 235 does nothing. -/
theorem bumpCounter_below {P : Crypto} (s : Session P) (m : Message P)
    (h : m.Counter < s.ReceiveCounter) : bumpCounter s m = s := by
  unfold bumpCounter
  rw [if_neg (by omega)]

/-- Delivering, last first, a stream of messages whose keys are all in the
cache and whose counters are all below the receive counter: every plaintext is
returned with no error; receive counter, receive chain and the cache entries
below the stream are untouched. -/
theorem receiveAll_cached (P : Crypto) (sender next : P.PublicKey) (lastUpdate : Int) :
    ∀ (ms : List (Message P)) (ps : List String) (counter : Int) (chain : P.SymmetricKey)
      (c : Chatter P) (t : Session P) (rc : P.SymmetricKey),
      GoodStream P sender next lastUpdate counter chain ms ps →
      mapGet c.Sessions sender = some t → t.ReceiveChain = some rc →
      counter + ms.length < t.ReceiveCounter →
      (∀ k : Nat, k < ms.length → mapGet t.CachedReceiveKeys (counter + 1 + k) =
        some (P.DeriveKey (chainAt P chain k) KEY_LABEL)) →
      ∃ (c' : Chatter P) (t' : Session P),
        receiveAll P c ms.reverse = some (c', ps.reverse.map (fun p => (p, none))) ∧
        mapGet c'.Sessions sender = some t' ∧ t'.ReceiveChain = some rc ∧
        t'.ReceiveCounter = t.ReceiveCounter ∧
        ∀ j : Int, j ≤ counter → mapGet t'.CachedReceiveKeys j = mapGet t.CachedReceiveKeys j := by
  intro ms
  induction ms with
  | nil =>
    intro ps counter chain c t rc hstream hget hrc _ _
    cases ps with
    | cons p ps => simp [GoodStream] at hstream
    | nil => exact ⟨c, t, rfl, hget, hrc, rfl, fun j _ => rfl⟩
  | cons m ms ih =>
    intro ps counter chain c t rc hstream hget hrc hbelow hkeys
    cases ps with
    | nil => simp [GoodStream] at hstream
    | cons p ps =>
      simp only [GoodStream] at hstream
      obtain ⟨h1, -, -, h4, -, h6, hrest⟩ := hstream
      simp only [List.length_cons] at hbelow hkeys
      push_cast at hbelow
      obtain ⟨c1, t1, hrun, hget1, hrc1, hctr1, hlow1⟩ :=
        ih ps (counter + 1) (P.DeriveKey chain CHAIN_LABEL) c t rc hrest hget hrc (by omega)
          (fun k hk => by
            have := hkeys (k + 1) (Nat.succ_lt_succ hk)
            rw [chainAt_succ] at this
            rw [← this]
            congr 1
            push_cast
            omega)
      have hkey : mapGet t1.CachedReceiveKeys m.Counter =
          some (P.DeriveKey chain KEY_LABEL) := by
        rw [h4, hlow1 (counter + 1) (le_refl _)]
        simpa using hkeys 0 (Nat.succ_pos _)
      have hlt : m.Counter < t1.ReceiveCounter := by rw [hctr1, h4]; omega
      have hbody := receiveOnSession_past P t1 m rc _ (le_of_lt hlt) hrc1 hkey
      rw [h6, if_pos rfl, bumpCounter_below t1 m hlt] at hbody
      have hrecv := ReceiveMessage_of_session P c1 m sender t1 _ _ _ h1 hget1 hbody
      have hlast : receiveAll P c1 [m] =
          some (c1.setSession sender
            { t1 with CachedReceiveKeys := mapSet t1.CachedReceiveKeys m.Counter
                        (P.Zeroize (P.DeriveKey chain KEY_LABEL)) }, [(p, none)]) := by
        simp only [receiveAll, hrecv]
      have hall := receiveAll_append P _ _ c c1 _ _ _ hrun hlast
      have e1 : ms.reverse ++ [m] = (m :: ms).reverse := by simp
      have e2 : List.map (fun p => ((p, none) : String × GoError)) ps.reverse ++ [(p, none)] =
          List.map (fun p => (p, none)) (p :: ps).reverse := by simp
      rw [e1, e2] at hall
      refine ⟨_, _, hall, mapGet_setSession_same _ _ _, hrc1, hctr1, fun j hj => ?_⟩
      show mapGet (mapSet t1.CachedReceiveKeys m.Counter _) j = _
      rw [mapGet_mapSet_other _ _ _ _ (by omega), hlow1 j (by omega)]

/-- Delivering a whole stream last first to a session that is ready for it:
every plaintext is returned with no error. -/
theorem receiveAll_reversed (P : Crypto) (sender next : P.PublicKey) (lastUpdate : Int)
    (ms : List (Message P)) (ps : List String) (chain : P.SymmetricKey) (c : Chatter P)
    (t : Session P)
    (hstream : GoodStream P sender next lastUpdate t.ReceiveCounter chain ms ps)
    (hget : mapGet c.Sessions sender = some t)
    (hready : ReadyFor P t next lastUpdate chain) :
    ∃ c' : Chatter P, receiveAll P c ms.reverse = some (c', ps.reverse.map (fun p => (p, none))) := by
  have hlen := GoodStream_length P sender next lastUpdate ms ps _ _ hstream
  rcases List.eq_nil_or_concat ms with hnil | ⟨init, last, hms⟩
  · subst hnil
    cases ps with
    | nil => exact ⟨c, rfl⟩
    | cons p ps => simp at hlen
  · rcases List.eq_nil_or_concat ps with hnil | ⟨pinit, plast, hps⟩
    · subst hnil hms
      simp at hlen
    · rw [List.concat_eq_append] at hms hps
      subst hms hps
      have hlen' : init.length = pinit.length := by simpa using hlen
      obtain ⟨hinit, g1, g2, g3, g4, g5, g6⟩ := GoodStream_concat P sender next lastUpdate
        init pinit _ _ last plast hstream hlen'
      have hahead : ∃ (t1 : Session P) (c1 : P.SymmetricKey),
          receiveOnSession P t last = some (t1, plast, none) ∧
          t1.ReceiveCounter = last.Counter ∧ t1.ReceiveChain = some c1 ∧
          ∀ k : Nat, k < init.length → mapGet t1.CachedReceiveKeys (t.ReceiveCounter + 1 + k) =
            some (P.DeriveKey (chainAt P chain k) KEY_LABEL) := by
        rcases hready with ⟨hlu, hrc⟩ | ⟨hlu, htc, root, my, old, hroot, hmy, hold, hchain⟩
        · exact receiveOnSession_ahead P t (bumpCounter t last) last init.length chain chain plast
            g4 (by rw [if_neg (by omega)])
            (by rw [(bumpCounter_frame t last).2.2.2.2.1]; exact hrc) hrc (by omega)
            (by rw [g3]; exact g5) (fun h => absurd h (by omega)) g6
        · have hb := bumpCounter_frame t last
          have hentry := dhRatchet_eq P last (bumpCounter t last) root next my
            (by rw [hb.2.2.1]; exact hroot) g2 (by rw [hb.1]; exact hmy)
          exact receiveOnSession_ahead P t _ last init.length chain old plast
            g4 (by rw [if_pos (by omega)]; exact hentry) (by rw [hchain]) hold (by omega)
            (by rw [g3]; exact g5) (fun _ => htc) g6
      obtain ⟨t1, c1, hbody, hctr, hrc1, hkeys⟩ := hahead
      have hrecv := ReceiveMessage_of_session P c last sender t t1 plast none g1 hget hbody
      obtain ⟨c', -, hrun, -⟩ := receiveAll_cached P sender next lastUpdate init pinit
        t.ReceiveCounter chain (c.setSession sender t1) t1 c1 hinit
        (mapGet_setSession_same _ _ _) hrc1 (by rw [hctr, g4]; omega) hkeys
      refine ⟨c', ?_⟩
      have e1 : (init ++ [last]).reverse = last :: init.reverse := by simp
      have e2 : (pinit ++ [plast]).reverse = plast :: pinit.reverse := by simp
      rw [e1, e2]
      simp only [receiveAll, hrecv, hrun, List.map_cons]

/-- What a session that does not owe a ratchet step sends, nothing being
delivered, is a good stream along its send chain. -/
theorem sendAll_plain (P : Crypto) (haead : AEADCorrect P) (ident my : KeyPair P)
    (partner : P.PublicKey) :
    ∀ (sends : List (String × KeyPair P × Bytes)) (c : Chatter P) (s : Session P)
      (chain : P.SymmetricKey),
      c.Identity = some ident → mapGet c.Sessions partner = some s →
      s.Change = false → s.SendChain = some chain → s.MyDHRatchet = some my →
      s.LastUpdate ≤ s.SendCounter →
      ∃ (c' : Chatter P) (ms : List (Message P)),
        sendAll P c partner sends = some (c', ms) ∧
        GoodStream P ident.PublicKey my.PublicKey s.LastUpdate s.SendCounter chain ms
          (sends.map (fun x => x.1)) := by
  intro sends
  induction sends with
  | nil =>
    intro c s chain _ _ _ _ _ _
    exact ⟨c, [], rfl, trivial⟩
  | cons x rest ih =>
    intro c s chain hid hget hchange hchain hmy hlu
    obtain ⟨plaintext, newKeys, iv⟩ := x
    have hbody := sendOnSession_plain P ident my (some partner) s chain plaintext newKeys iv
      hchange hchain hmy
    have hsend := SendMessage_of_session P c partner s _ _ plaintext newKeys iv hget
      (by rw [hid]; exact hbody)
    obtain ⟨c', ms, hrest, hstream⟩ := ih (c.setSession partner
        { s with SendCounter := s.SendCounter + 1
                 SendChain := some (P.DeriveKey chain CHAIN_LABEL) })
      { s with SendCounter := s.SendCounter + 1
               SendChain := some (P.DeriveKey chain CHAIN_LABEL) }
      (P.DeriveKey chain CHAIN_LABEL) hid (mapGet_setSession_same _ _ _) hchange rfl hmy
      (by show s.LastUpdate ≤ s.SendCounter + 1; omega)
    have hall : sendAll P c partner ((plaintext, newKeys, iv) :: rest) =
        some (c', buildMessage P ident.PublicKey (some partner) my.PublicKey (s.SendCounter + 1)
          s.LastUpdate false (P.DeriveKey chain KEY_LABEL) plaintext iv :: ms) := by
      simp only [sendAll, hsend, hrest]
    refine ⟨c', _, hall, ?_⟩
    simp only [List.map_cons, GoodStream]
    refine ⟨rfl, rfl, rfl, rfl, ?_, decrypt_buildMessage P haead _ _ _ _ _ _ _ _ _, hstream⟩
    show (false = true ↔ s.SendCounter + 1 = s.LastUpdate)
    constructor
    · intro h; cases h
    · intro h; omega

/-- What a session that owes a ratchet step sends, nothing being delivered:
the first send ratchets with its fresh key pair, and the messages are a good
stream along the send chain of the new root. -/
theorem sendAll_ratchet (P : Crypto) (haead : AEADCorrect P) (ident : KeyPair P)
    (partner : P.PublicKey) (plaintext : String) (newKeys : KeyPair P) (iv : Bytes)
    (rest : List (String × KeyPair P × Bytes)) (c : Chatter P) (s : Session P)
    (root : P.SymmetricKey) (partnerKey : P.PublicKey)
    (hid : c.Identity = some ident) (hget : mapGet c.Sessions partner = some s)
    (hchange : s.Change = true) (hroot : s.RootChain = some root)
    (hpartner : s.PartnerDHRatchet = some partnerKey) :
    ∃ (c' : Chatter P) (ms : List (Message P)),
      sendAll P c partner ((plaintext, newKeys, iv) :: rest) = some (c', ms) ∧
      GoodStream P ident.PublicKey newKeys.PublicKey (s.SendCounter + 1) s.SendCounter
        (P.DeriveKey (ratchetRoot P root partnerKey newKeys.PrivateKey) CHAIN_LABEL) ms
        (plaintext :: rest.map (fun x => x.1)) := by
  have hbody := sendOnSession_ratchet P ident (some partner) s root partnerKey plaintext
    newKeys iv hchange hroot hpartner
  have hsend := SendMessage_of_session P c partner s _ _ plaintext newKeys iv hget
    (by rw [hid]; exact hbody)
  obtain ⟨c', ms, hrest, hstream⟩ := sendAll_plain P haead ident newKeys partner rest
    (c.setSession partner
      { s with
        SendCounter := s.SendCounter + 1
        MyDHRatchet := some newKeys
        RootChain := some (ratchetRoot P root partnerKey newKeys.PrivateKey)
        SendChain := some (P.DeriveKey (P.DeriveKey
          (ratchetRoot P root partnerKey newKeys.PrivateKey) CHAIN_LABEL) CHAIN_LABEL)
        LastUpdate := s.SendCounter + 1
        Change := false })
    { s with
      SendCounter := s.SendCounter + 1
      MyDHRatchet := some newKeys
      RootChain := some (ratchetRoot P root partnerKey newKeys.PrivateKey)
      SendChain := some (P.DeriveKey (P.DeriveKey
        (ratchetRoot P root partnerKey newKeys.PrivateKey) CHAIN_LABEL) CHAIN_LABEL)
      LastUpdate := s.SendCounter + 1
      Change := false }
    _ hid (mapGet_setSession_same _ _ _) rfl rfl rfl (le_refl _)
  have hall : sendAll P c partner ((plaintext, newKeys, iv) :: rest) =
      some (c', buildMessage P ident.PublicKey (some partner) newKeys.PublicKey
        (s.SendCounter + 1) (s.SendCounter + 1) true
        (P.DeriveKey (P.DeriveKey (ratchetRoot P root partnerKey newKeys.PrivateKey)
          CHAIN_LABEL) KEY_LABEL) plaintext iv :: ms) := by
    simp only [sendAll, hsend, hrest]
  refine ⟨c', _, hall, ?_⟩
  simp only [GoodStream]
  exact ⟨rfl, rfl, rfl, rfl, ⟨fun _ => rfl, fun _ => rfl⟩,
    decrypt_buildMessage P haead _ _ _ _ _ _ _ _ _, hstream⟩

/-- C2: after a completed handshake, for either role of the sender, sending
any list of plaintexts while nothing is delivered and then receiving the
messages last first returns every plaintext with a nil error (Diffie-Hellman
commutative, the AEAD opening what it sealed). -/
theorem reverse_order_delivery (P : Crypto) (hcomm : DHCommutative P) (haead : AEADCorrect P)
    (a b : Chatter P) (idA idB ephA ephB : KeyPair P)
    (hidA : a.Identity = some idA) (hidB : b.Identity = some idB)
    (wfA : idA.WellFormed) (wfB : idB.WellFormed) (wfEA : ephA.WellFormed)
    (wfEB : ephB.WellFormed)
    (hfreshA : mapGet a.Sessions idB.PublicKey = none)
    (hfreshB : mapGet b.Sessions idA.PublicKey = none)
    (sends : List (String × KeyPair P × Bytes)) (hwf : ∀ x ∈ sends, x.2.1.WellFormed) :
    ∃ (a2 b2 : Chatter P) (checkA checkB : Option P.SymmetricKey),
      completeHandshake P a b idA.PublicKey idB.PublicKey ephA ephB =
        some (a2, b2, checkA, checkB) ∧
      reverseDelivery P a2 b2 idB.PublicKey sends =
        some (sends.reverse.map (fun x => (x.1, none))) ∧
      reverseDelivery P b2 a2 idA.PublicKey sends =
        some (sends.reverse.map (fun x => (x.1, none))) := by
  obtain ⟨a2, b2, hrun, ha2, hb2, hsA, hsB⟩ := completeHandshake_eq P hcomm a b idA idB ephA ephB
    hidA hidB wfA wfB wfEA wfEB hfreshA hfreshB
  have hmap : (sends.map (fun x => x.1)).reverse.map (fun p => ((p, none) : String × GoError)) =
      sends.reverse.map (fun x => (x.1, none)) := by
    rw [← List.map_reverse, List.map_map]
    rfl
  refine ⟨a2, b2, _, _, hrun, ?_, ?_⟩
  · -- the initiator sends: no ratchet step on either side
    obtain ⟨a3, ms, hsend, hstream⟩ := sendAll_plain P haead idA ephA idB.PublicKey sends a2
      (freshSession P ephA ephB.PublicKey (handshakeRoot P idA idB ephA ephB) false)
      (P.DeriveKey (handshakeRoot P idA idB ephA ephB) CHAIN_LABEL) ha2 hsA rfl rfl rfl
      (le_refl _)
    obtain ⟨b3, hrecv⟩ := receiveAll_reversed P idA.PublicKey ephA.PublicKey 0 ms _
      (P.DeriveKey (handshakeRoot P idA idB ephA ephB) CHAIN_LABEL) b2
      (freshSession P ephB ephA.PublicKey (handshakeRoot P idA idB ephA ephB) true)
      hstream hsB (Or.inl ⟨le_refl _, rfl⟩)
    simp only [reverseDelivery, hsend, hrecv, hmap]
  · -- the responder sends: its first message carries a fresh ratchet key
    cases sends with
    | nil => simp only [reverseDelivery, sendAll, List.reverse_nil, receiveAll, List.map_nil]
    | cons x rest =>
      obtain ⟨plaintext, newKeys, iv⟩ := x
      have hwfk : newKeys.WellFormed := hwf (plaintext, newKeys, iv) (List.mem_cons_self _ _)
      obtain ⟨b3, ms, hsend, hstream⟩ := sendAll_ratchet P haead idB idA.PublicKey plaintext
        newKeys iv rest b2
        (freshSession P ephB ephA.PublicKey (handshakeRoot P idA idB ephA ephB) true)
        (handshakeRoot P idA idB ephA ephB) ephA.PublicKey hb2 hsB rfl rfl rfl
      have hroots : ratchetRoot P (handshakeRoot P idA idB ephA ephB) ephA.PublicKey
            newKeys.PrivateKey =
          ratchetRoot P (handshakeRoot P idA idB ephA ephB) newKeys.PublicKey
            ephA.PrivateKey := by
        unfold ratchetRoot
        rw [hwfk, wfEA, hcomm]
      obtain ⟨a3, hrecv⟩ := receiveAll_reversed P idB.PublicKey newKeys.PublicKey (0 + 1) ms _
        (P.DeriveKey (ratchetRoot P (handshakeRoot P idA idB ephA ephB) ephA.PublicKey
          newKeys.PrivateKey) CHAIN_LABEL) a2
        (freshSession P ephA ephB.PublicKey (handshakeRoot P idA idB ephA ephB) false)
        hstream hsA
        (Or.inr ⟨rfl, rfl, handshakeRoot P idA idB ephA ephB, ephA,
          P.DeriveKey (handshakeRoot P idA idB ephA ephB) CHAIN_LABEL, rfl, rfl, rfl,
          by rw [hroots]⟩)
      have hmap' := hmap
      simp only [List.map_cons] at hmap'
      simp only [reverseDelivery, hsend, hrecv, hmap']

/-- The scenario of the specification, for both roles: three messages sent
while nothing is delivered arrive in the order 3, 2, 1. -/
theorem reverse_order_delivery_witness :
    ∃ (a2 b2 : Chatter toyCrypto) (checkA checkB : Option toyCrypto.SymmetricKey),
      completeHandshake toyCrypto toyAlice toyBob (toyPair 3).PublicKey (toyPair 5).PublicKey
        (toyPair 7) (toyPair 4) = some (a2, b2, checkA, checkB) ∧
      reverseDelivery toyCrypto a2 b2 (toyPair 5).PublicKey
          [("one", toyPair 9, [1]), ("two", toyPair 10, [2]), ("three", toyPair 11, [3])] =
        some (([("one", toyPair 9, [1]), ("two", toyPair 10, [2]), ("three", toyPair 11, [3])] :
          List (String × KeyPair toyCrypto × Bytes)).reverse.map (fun x => (x.1, none))) ∧
      reverseDelivery toyCrypto b2 a2 (toyPair 3).PublicKey
          [("one", toyPair 9, [1]), ("two", toyPair 10, [2]), ("three", toyPair 11, [3])] =
        some (([("one", toyPair 9, [1]), ("two", toyPair 10, [2]), ("three", toyPair 11, [3])] :
          List (String × KeyPair toyCrypto × Bytes)).reverse.map (fun x => (x.1, none))) :=
  reverse_order_delivery toyCrypto toy_DHCommutative toy_AEADCorrect toyAlice toyBob (toyPair 3)
    (toyPair 5) (toyPair 7) (toyPair 4) rfl rfl rfl rfl rfl rfl rfl rfl _
    (by
      intro x hx
      simp only [List.mem_cons, List.mem_singleton, List.not_mem_nil, or_false] at hx
      rcases hx with h | h | h <;> subst h <;> rfl)

/-! ## Handshake calls on an open session -/

/-- C11: when the chatter holds a session for the partner, `InitiateHandshake`
and `ReturnHandshake` for that partner return nil keys and the error
"Already have session open", and the chatter (its session map and the session
in it) is unchanged. -/
theorem handshake_refused_when_session_open (P : Crypto) (c : Chatter P) (pid : P.PublicKey)
    (s : Session P) (partnerEphemeral : Option P.PublicKey) (pairI pairR : KeyPair P)
    (hget : mapGet c.Sessions pid = some s) :
    InitiateHandshake P c (some pid) pairI = some (c, none, some "Already have session open") ∧
    ReturnHandshake P c (some pid) partnerEphemeral pairR =
      some (c, none, none, some "Already have session open") := by
  constructor
  · simp only [InitiateHandshake, hget]
  · simp only [ReturnHandshake, hget]

/-- Alice, who holds her session with Bob, is refused a second handshake with
him in either role. -/
theorem handshake_refused_when_session_open_witness :
    InitiateHandshake toyCrypto toyEstablished.1 (some 32) (toyPair 13) =
      some (toyEstablished.1, none, some "Already have session open") ∧
    ReturnHandshake toyCrypto toyEstablished.1 (some 32) (some 64) (toyPair 14) =
      some (toyEstablished.1, none, none, some "Already have session open") :=
  handshake_refused_when_session_open toyCrypto toyEstablished.1 32
    (toyEstablished.1.sessionOf 32) (some 64) (toyPair 13) (toyPair 14) rfl

/-- C12 (as stated, refuted): Alice's session with Bob is established (root
installed by her `FinalizeHandshake`); a second `FinalizeHandshake` with
another ephemeral key returns a nil error and installs another root and
partner key. -/
theorem finalize_accepts_established_session :
    (toyEstablished.1.sessionOf 32).RootChain = some 1065424469657 ∧
    (toyEstablished.1.sessionOf 32).PartnerDHRatchet = some 16 ∧
    (FinalizeHandshake toyCrypto toyEstablished.1 (some 32) (some 64)).map
        (fun r => (r.2.2, (r.1.sessionOf 32).RootChain, (r.1.sessionOf 32).PartnerDHRatchet)) =
      some (none, some 5463450529433, some 64) := by
  decide

/-- C12 (amended): `FinalizeHandshake` fails exactly when the partner has no
session, returning a nil key and an error and leaving the chatter unchanged;
when the partner has a session, pending or established, it returns a nil
error with the check key of the root computed from the given ephemeral key, the
identity and the session's ratchet pair, and installs that root, the two chains
derived from it and the partner key, leaving the other fields of the session
as they were. -/
theorem finalize_requires_only_a_session (P : Crypto) (c : Chatter P) (pid peph : P.PublicKey)
    (anyEphemeral : Option P.PublicKey) :
    (mapGet c.Sessions pid = none →
      FinalizeHandshake P c (some pid) anyEphemeral =
        some (c, none, some "Can't finalize session, not yet open")) ∧
    (∀ (s : Session P) (ident my : KeyPair P), mapGet c.Sessions pid = some s →
      c.Identity = some ident → s.MyDHRatchet = some my →
      FinalizeHandshake P c (some pid) (some peph) =
        some (c.setSession pid
          { s with
            RootChain := some (P.CombineKeys [P.DHCombine peph ident.PrivateKey,
              P.DHCombine pid my.PrivateKey, P.DHCombine peph my.PrivateKey])
            SendChain := some (P.DeriveKey (P.CombineKeys [P.DHCombine peph ident.PrivateKey,
              P.DHCombine pid my.PrivateKey, P.DHCombine peph my.PrivateKey]) CHAIN_LABEL)
            ReceiveChain := some (P.DeriveKey (P.CombineKeys [P.DHCombine peph ident.PrivateKey,
              P.DHCombine pid my.PrivateKey, P.DHCombine peph my.PrivateKey]) CHAIN_LABEL)
            PartnerDHRatchet := some peph },
          some (P.DeriveKey (P.CombineKeys [P.DHCombine peph ident.PrivateKey,
            P.DHCombine pid my.PrivateKey, P.DHCombine peph my.PrivateKey])
            HANDSHAKE_CHECK_LABEL), none)) := by
  constructor
  · intro hnone
    simp only [FinalizeHandshake, hnone]
  · intro s ident my hget hid hmy
    simp only [FinalizeHandshake, hget, hid, hmy]

/-- Bob has no session with the key 64 and is refused; Alice's established
session with Bob is finalized again. -/
theorem finalize_requires_only_a_session_witness :
    FinalizeHandshake toyCrypto toyEstablished.2 (some 64) (some 16) =
      some (toyEstablished.2, none, some "Can't finalize session, not yet open") ∧
    ∃ (c' : Chatter toyCrypto) (check : toyCrypto.SymmetricKey),
      FinalizeHandshake toyCrypto toyEstablished.1 (some 32) (some 64) =
        some (c', some check, none) :=
  ⟨(finalize_requires_only_a_session toyCrypto toyEstablished.2 64 16 (some 16)).1 rfl,
    _, _, (finalize_requires_only_a_session toyCrypto toyEstablished.1 32 64 none).2
      (toyEstablished.1.sessionOf 32) (toyPair 3) (toyPair 7) rfl rfl rfl⟩

/-! ## The first send after the handshake -/

/-- C13 (as stated, refuted): Alice, the initiator, after `InitiateHandshake`
and `FinalizeHandshake`, has her turn flag clear; her first `SendMessage`
returns a message with `Change = false`, `LastUpdate = 0`, `Counter = 1` that
carries the handshake ephemeral key 128; her ratchet pair and root are
unchanged. -/
theorem initiator_first_send_does_not_ratchet :
    (toyEstablished.1.sessionOf 32).Change = false ∧
    (toyEstablished.1.sessionOf 32).RootChain = some 1065424469657 ∧
    (SendMessage toyCrypto toyEstablished.1 (some 32) "one" (toyPair 9) [1]).map
        (fun r => (r.2.2,
          r.2.1.map (fun m => (m.Change, m.LastUpdate, m.Counter, m.NextDHRatchet)),
          (r.1.sessionOf 32).RootChain,
          (r.1.sessionOf 32).MyDHRatchet.map (fun k => k.PrivateKey))) =
      some (none, some (false, 0, 1, some 128), some 1065424469657, some 7) :=
  ⟨rfl, rfl, rfl⟩

/-- C13 (amended): after `InitiateHandshake` followed by `FinalizeHandshake`
the initiator's turn flag is clear, so its first `SendMessage` performs no
ratchet step: it keeps the handshake ephemeral and the root and returns a
message with `Change = false`, `LastUpdate = 0`, `Counter = 1` carrying the
handshake ephemeral key. It is the responder, whose turn flag
`ReturnHandshake` sets, whose first `SendMessage` performs the step: the fresh
pair replaces the handshake ephemeral, a new DH output is folded into the
root, and the message has `Change = true` and `LastUpdate = Counter = 1`. -/
theorem first_send_after_handshake (P : Crypto) (a b : Chatter P)
    (idA idB ephA ephB newKeys : KeyPair P) (pidA pidB pephA pephB : P.PublicKey)
    (plaintext : String) (iv : Bytes)
    (hidA : a.Identity = some idA) (hidB : b.Identity = some idB)
    (hfreshA : mapGet a.Sessions pidB = none) (hfreshB : mapGet b.Sessions pidA = none) :
    (∃ (a1 a2 a3 : Chatter P) (check : P.SymmetricKey) (s2 s3 : Session P) (m : Message P),
      InitiateHandshake P a (some pidB) ephA = some (a1, some ephA.PublicKey, none) ∧
      FinalizeHandshake P a1 (some pidB) (some pephB) = some (a2, some check, none) ∧
      mapGet a2.Sessions pidB = some s2 ∧ s2.Change = false ∧
      SendMessage P a2 (some pidB) plaintext newKeys iv = some (a3, some m, none) ∧
      mapGet a3.Sessions pidB = some s3 ∧
      s3.MyDHRatchet = some ephA ∧ s3.RootChain = s2.RootChain ∧
      m.Change = false ∧ m.LastUpdate = 0 ∧ m.Counter = 1 ∧
      m.NextDHRatchet = some ephA.PublicKey) ∧
    (∃ (b1 b2 : Chatter P) (check root : P.SymmetricKey) (s1 s2 : Session P) (m : Message P),
      ReturnHandshake P b (some pidA) (some pephA) ephB =
        some (b1, some ephB.PublicKey, some check, none) ∧
      mapGet b1.Sessions pidA = some s1 ∧ s1.Change = true ∧ s1.RootChain = some root ∧
      SendMessage P b1 (some pidA) plaintext newKeys iv = some (b2, some m, none) ∧
      mapGet b2.Sessions pidA = some s2 ∧
      s2.MyDHRatchet = some newKeys ∧
      s2.RootChain = some (P.CombineKeys [P.DeriveKey root ROOT_LABEL,
        P.DHCombine pephA newKeys.PrivateKey]) ∧
      m.Change = true ∧ m.LastUpdate = 1 ∧ m.Counter = 1 ∧
      m.NextDHRatchet = some newKeys.PublicKey) := by
  constructor
  · have hI := InitiateHandshake_fresh P a pidB ephA hfreshA
    have hF := FinalizeHandshake_pending P (a.setSession pidB (pendingSession P ephA)) pidB pephB
      ephA idA (mapGet_setSession_same _ _ _) hidA
    have hbody := sendOnSession_plain P idA ephA (some pidB)
      (freshSession P ephA pephB (P.CombineKeys [P.DHCombine pephB idA.PrivateKey,
        P.DHCombine pidB ephA.PrivateKey, P.DHCombine pephB ephA.PrivateKey]) false)
      _ plaintext newKeys iv rfl rfl rfl
    have hS := SendMessage_of_session P
      ((a.setSession pidB (pendingSession P ephA)).setSession pidB
        (freshSession P ephA pephB (P.CombineKeys [P.DHCombine pephB idA.PrivateKey,
          P.DHCombine pidB ephA.PrivateKey, P.DHCombine pephB ephA.PrivateKey]) false))
      pidB _ _ _ plaintext newKeys iv (mapGet_setSession_same _ _ _)
      (by rw [show ((a.setSession pidB (pendingSession P ephA)).setSession pidB _).Identity =
          some idA from hidA]; exact hbody)
    exact ⟨_, _, _, _, _, _, _, hI, hF, mapGet_setSession_same _ _ _, rfl, hS,
      mapGet_setSession_same _ _ _, rfl, rfl, rfl, rfl, rfl, rfl⟩
  · have hR := ReturnHandshake_fresh P b pidA pephA ephB idB hfreshB hidB
    have hbody := sendOnSession_ratchet P idB (some pidA)
      (freshSession P ephB pephA (P.CombineKeys [P.DHCombine pidA ephB.PrivateKey,
        P.DHCombine pephA idB.PrivateKey, P.DHCombine pephA ephB.PrivateKey]) true)
      _ pephA plaintext newKeys iv rfl rfl rfl
    have hS := SendMessage_of_session P
      (b.setSession pidA
        (freshSession P ephB pephA (P.CombineKeys [P.DHCombine pidA ephB.PrivateKey,
          P.DHCombine pephA idB.PrivateKey, P.DHCombine pephA ephB.PrivateKey]) true))
      pidA _ _ _ plaintext newKeys iv (mapGet_setSession_same _ _ _)
      (by rw [show (b.setSession pidA _).Identity = some idB from hidB]; exact hbody)
    exact ⟨_, _, _, _, _, _, _, hR, mapGet_setSession_same _ _ _, rfl, rfl, hS,
      mapGet_setSession_same _ _ _, rfl, rfl, rfl, rfl, rfl, rfl⟩

/-- Alice initiates towards Bob and sends first without a ratchet step; Bob
responds to Alice and sends first with one. -/
theorem first_send_after_handshake_witness :
    (∃ (a1 a2 a3 : Chatter toyCrypto) (check : toyCrypto.SymmetricKey)
        (s2 s3 : Session toyCrypto) (m : Message toyCrypto),
      InitiateHandshake toyCrypto toyAlice (some 32) (toyPair 7) =
        some (a1, some (toyPair 7).PublicKey, none) ∧
      FinalizeHandshake toyCrypto a1 (some 32) (some 16) = some (a2, some check, none) ∧
      mapGet a2.Sessions 32 = some s2 ∧ s2.Change = false ∧
      SendMessage toyCrypto a2 (some 32) "one" (toyPair 9) [1] = some (a3, some m, none) ∧
      mapGet a3.Sessions 32 = some s3 ∧
      s3.MyDHRatchet = some (toyPair 7) ∧ s3.RootChain = s2.RootChain ∧
      m.Change = false ∧ m.LastUpdate = 0 ∧ m.Counter = 1 ∧
      m.NextDHRatchet = some (toyPair 7).PublicKey) ∧
    (∃ (b1 b2 : Chatter toyCrypto) (check root : toyCrypto.SymmetricKey)
        (s1 s2 : Session toyCrypto) (m : Message toyCrypto),
      ReturnHandshake toyCrypto toyBob (some 8) (some 128) (toyPair 4) =
        some (b1, some (toyPair 4).PublicKey, some check, none) ∧
      mapGet b1.Sessions 8 = some s1 ∧ s1.Change = true ∧ s1.RootChain = some root ∧
      SendMessage toyCrypto b1 (some 8) "one" (toyPair 9) [1] = some (b2, some m, none) ∧
      mapGet b2.Sessions 8 = some s2 ∧
      s2.MyDHRatchet = some (toyPair 9) ∧
      s2.RootChain = some (toyCrypto.CombineKeys [toyCrypto.DeriveKey root ROOT_LABEL,
        toyCrypto.DHCombine 128 (toyPair 9).PrivateKey]) ∧
      m.Change = true ∧ m.LastUpdate = 1 ∧ m.Counter = 1 ∧
      m.NextDHRatchet = some (toyPair 9).PublicKey) :=
  first_send_after_handshake toyCrypto toyAlice toyBob (toyPair 3) (toyPair 5) (toyPair 7)
    (toyPair 4) (toyPair 9) 8 32 128 16 "one" [1] rfl rfl rfl rfl

/-! ## The codec -/

theorem putUint32_eq_littleEndian32 (v : Int) : putUint32 v = littleEndian32 v := by
  simp [putUint32, littleEndian32, List.range, List.range.loop]

theorem littleEndian32_length (v : Int) : (littleEndian32 v).length = 4 := by
  simp [littleEndian32]

/-- The four bytes decode to the value modulo `2^32`. -/
theorem littleEndianValue_littleEndian32 (v : Int) :
    littleEndianValue (littleEndian32 v) = (v % 2 ^ 32).toNat := by
  have hlt : (v % 2 ^ 32).toNat < 2 ^ 32 := by
    have h1 : v % 2 ^ 32 < 2 ^ 32 := Int.emod_lt_of_pos v (by norm_num)
    have h2 : 0 ≤ v % 2 ^ 32 := Int.emod_nonneg v (by norm_num)
    omega
  simp only [littleEndian32, List.range, List.range.loop, List.map_cons, List.map_nil,
    littleEndianValue]
  omega

theorem fingerprintSlot_length (P : Crypto)
    (hfp : ∀ k, (P.Fingerprint k).length = P.FINGERPRINT_LENGTH) (key : Option P.PublicKey) :
    (fingerprintSlot P key).length = P.FINGERPRINT_LENGTH := by
  cases key with
  | none => simp [fingerprintSlot]
  | some k => exact hfp k

/-- Copying at the end of a prefix a source that fits in the rest. -/
theorem copyAt_append (pre rest src : Bytes) (off : Nat) (hoff : pre.length = off)
    (hfit : src.length ≤ rest.length) :
    copyAt (pre ++ rest) off src = pre ++ src ++ rest.drop src.length := by
  subst hoff
  simp only [copyAt, goCopy, List.take_left, List.drop_left, List.take_of_length_le hfit,
    List.append_assoc]

/-- Filling one fingerprint slot of a buffer whose tail is still zero. -/
theorem fill_slot (P : Crypto) (hfp : ∀ k, (P.Fingerprint k).length = P.FINGERPRINT_LENGTH)
    (pre : Bytes) (off n : Nat) (hoff : pre.length = off) (key : Option P.PublicKey) :
    (match key with
      | some k => copyAt (pre ++ List.replicate ((n + 1) * P.FINGERPRINT_LENGTH) 0) off
          (P.Fingerprint k)
      | none => pre ++ List.replicate ((n + 1) * P.FINGERPRINT_LENGTH) 0) =
    pre ++ fingerprintSlot P key ++ List.replicate (n * P.FINGERPRINT_LENGTH) 0 := by
  have hsplit : (n + 1) * P.FINGERPRINT_LENGTH = P.FINGERPRINT_LENGTH +
      n * P.FINGERPRINT_LENGTH := by ring
  cases key with
  | none =>
    simp only [fingerprintSlot, hsplit, List.replicate_add, List.append_assoc]
  | some k =>
    simp only [fingerprintSlot]
    rw [copyAt_append pre _ _ off hoff (by rw [hfp, List.length_replicate, hsplit]; omega)]
    rw [List.drop_replicate, hfp, hsplit, Nat.add_sub_cancel_left]

/-- The encoding computed by `EncodeAdditionalData` is the one the
specification describes, when fingerprints have the fixed length. -/
theorem EncodeAdditionalData_eq_spec (P : Crypto)
    (hfp : ∀ k, (P.Fingerprint k).length = P.FINGERPRINT_LENGTH) (m : Message P) :
    EncodeAdditionalData P m = specAdditionalData P m := by
  have hc : (putUint32 m.Counter).length = 4 := rfl
  have hl : (putUint32 m.LastUpdate).length = 4 := rfl
  have e1 : copyAt (List.replicate (8 + 3 * P.FINGERPRINT_LENGTH) 0) 0 (putUint32 m.Counter) =
      putUint32 m.Counter ++ List.replicate (4 + 3 * P.FINGERPRINT_LENGTH) 0 := by
    have h := copyAt_append [] (List.replicate (8 + 3 * P.FINGERPRINT_LENGTH) 0)
      (putUint32 m.Counter) 0 rfl (by rw [hc, List.length_replicate]; omega)
    rw [List.nil_append, List.nil_append, List.drop_replicate, hc] at h
    rw [h]
    congr 2
    omega
  have e2 : copyAt (putUint32 m.Counter ++ List.replicate (4 + 3 * P.FINGERPRINT_LENGTH) 0) 4
        (putUint32 m.LastUpdate) =
      (putUint32 m.Counter ++ putUint32 m.LastUpdate) ++
        List.replicate ((2 + 1) * P.FINGERPRINT_LENGTH) 0 := by
    have h := copyAt_append (putUint32 m.Counter)
      (List.replicate (4 + 3 * P.FINGERPRINT_LENGTH) 0) (putUint32 m.LastUpdate) 4 hc
      (by rw [hl, List.length_replicate]; omega)
    rw [List.drop_replicate, hl] at h
    rw [h]
    congr 2
    omega
  have e3 := fill_slot P hfp (putUint32 m.Counter ++ putUint32 m.LastUpdate) 8 2
    (by rw [List.length_append, hc, hl]) m.Sender
  have e4 := fill_slot P hfp
    (putUint32 m.Counter ++ putUint32 m.LastUpdate ++ fingerprintSlot P m.Sender)
    (8 + P.FINGERPRINT_LENGTH) 1
    (by rw [List.length_append, List.length_append, hc, hl, fingerprintSlot_length P hfp])
    m.Receiver
  have e5 := fill_slot P hfp
    (putUint32 m.Counter ++ putUint32 m.LastUpdate ++ fingerprintSlot P m.Sender ++
      fingerprintSlot P m.Receiver)
    (8 + 2 * P.FINGERPRINT_LENGTH) 0
    (by
      rw [List.length_append, List.length_append, List.length_append, hc, hl,
        fingerprintSlot_length P hfp, fingerprintSlot_length P hfp]
      omega)
    m.NextDHRatchet
  simp only [Nat.zero_mul, List.replicate_zero, List.append_nil, Nat.zero_add,
    Nat.one_mul] at e5
  simp only [Nat.one_mul] at e4
  rw [show 2 * P.FINGERPRINT_LENGTH = (1 + 1) * P.FINGERPRINT_LENGTH from rfl] at e3
  unfold EncodeAdditionalData specAdditionalData
  simp only []
  rw [e1, e2, e3, e4, e5, putUint32_eq_littleEndian32, putUint32_eq_littleEndian32]

/-- C14: with fingerprints of the fixed length, `EncodeAdditionalData` returns
exactly `8 + 3 * FINGERPRINT_LENGTH` bytes: the little-endian bytes of the
counter modulo `2^32`, those of the last-update index modulo `2^32`, then the
fingerprint slots of sender, receiver and ratchet key, a slot being all zero
when its key is nil; two messages that agree on these five fields have the
same encoding. -/
theorem additional_data_layout (P : Crypto)
    (hfp : ∀ k, (P.Fingerprint k).length = P.FINGERPRINT_LENGTH) (m : Message P) :
    EncodeAdditionalData P m =
      littleEndian32 m.Counter ++ littleEndian32 m.LastUpdate ++ fingerprintSlot P m.Sender ++
        fingerprintSlot P m.Receiver ++ fingerprintSlot P m.NextDHRatchet ∧
    (EncodeAdditionalData P m).length = 8 + 3 * P.FINGERPRINT_LENGTH ∧
    littleEndianValue (littleEndian32 m.Counter) = (m.Counter % 2 ^ 32).toNat ∧
    littleEndianValue (littleEndian32 m.LastUpdate) = (m.LastUpdate % 2 ^ 32).toNat ∧
    (fingerprintSlot P none = List.replicate P.FINGERPRINT_LENGTH 0 ∧
      ∀ k, fingerprintSlot P (some k) = P.Fingerprint k) ∧
    ∀ m' : Message P, m'.Counter = m.Counter → m'.LastUpdate = m.LastUpdate →
      m'.Sender = m.Sender → m'.Receiver = m.Receiver → m'.NextDHRatchet = m.NextDHRatchet →
      EncodeAdditionalData P m' = EncodeAdditionalData P m := by
  have heq := EncodeAdditionalData_eq_spec P hfp m
  refine ⟨heq, ?_, littleEndianValue_littleEndian32 _, littleEndianValue_littleEndian32 _,
    ⟨rfl, fun _ => rfl⟩, ?_⟩
  · rw [heq, specAdditionalData]
    simp only [List.length_append, littleEndian32_length, fingerprintSlot_length P hfp]
    omega
  · intro m' h1 h2 h3 h4 h5
    unfold EncodeAdditionalData
    rw [h1, h2, h3, h4, h5]

/-- The encoding of Alice's first message: 8 + 3 * 2 bytes. -/
theorem additional_data_layout_witness :
    EncodeAdditionalData toyCrypto (toyMessage 0) = [1, 0, 0, 0, 0, 0, 0, 0, 8, 0, 32, 0, 128, 0] ∧
    (EncodeAdditionalData toyCrypto (toyMessage 0)).length = 8 + 3 * 2 :=
  ⟨(additional_data_layout toyCrypto (fun _ => rfl) (toyMessage 0)).1.trans (by decide),
    (additional_data_layout toyCrypto (fun _ => rfl) (toyMessage 0)).2.1⟩

/-- C15 (as stated, refuted): Alice's first message and its copy with the flag
`Change` flipped both have counter and last-update index in `[0, 2^32)`, differ
in `Change`, and have the same associated data. -/
theorem change_flag_not_encoded :
    (0 ≤ (toyMessage 0).Counter ∧ (toyMessage 0).Counter < 2 ^ 32) ∧
    (0 ≤ (toyMessage 0).LastUpdate ∧ (toyMessage 0).LastUpdate < 2 ^ 32) ∧
    (toyMessage 0).Change = false ∧ (withChange (toyMessage 0) true).Change = true ∧
    (withChange (toyMessage 0) true).Counter = (toyMessage 0).Counter ∧
    (withChange (toyMessage 0) true).LastUpdate = (toyMessage 0).LastUpdate ∧
    EncodeAdditionalData toyCrypto (withChange (toyMessage 0) true) =
      EncodeAdditionalData toyCrypto (toyMessage 0) := by
  decide

/-! ## Teardown -/

theorem mapGet_mapDelete_same {κ ν : Type} [DecidableEq κ] (m : List (κ × ν)) (k : κ) :
    mapGet (mapDelete m k) k = none := by
  induction m with
  | nil => rfl
  | cons p r ih =>
    obtain ⟨k₁, v₁⟩ := p
    by_cases h : k₁ = k
    · simp [mapDelete, h, ih]
    · simp [mapDelete, mapGet, h, ih]

theorem mapGet_mapDelete_other {κ ν : Type} [DecidableEq κ] (m : List (κ × ν)) (k k' : κ)
    (hne : k' ≠ k) : mapGet (mapDelete m k) k' = mapGet m k' := by
  induction m with
  | nil => rfl
  | cons p r ih =>
    obtain ⟨k₁, v₁⟩ := p
    by_cases h : k₁ = k
    · subst h
      simp [mapDelete, mapGet, ih, Ne.symm hne]
    · by_cases h' : k₁ = k'
      · subst h'
        simp [mapDelete, mapGet, h]
      · simp [mapDelete, mapGet, h, h', ih]

/-- What `EndSession` does to the session map: with an open session it
returns nil, the partner's entry is gone and every other entry is untouched;
with none it returns an error and the chatter is unchanged. -/
theorem EndSession_effect (P : Crypto) (c : Chatter P) (pid : P.PublicKey) :
    (∀ s, mapGet c.Sessions pid = some s →
      ∃ c', EndSession P c (some pid) = some (c', none) ∧ mapGet c'.Sessions pid = none ∧
        c'.Identity = c.Identity ∧
        ∀ k, k ≠ pid → mapGet c'.Sessions k = mapGet c.Sessions k) ∧
    (mapGet c.Sessions pid = none →
      EndSession P c (some pid) = some (c, some "Don't have that session open to tear down")) := by
  constructor
  · intro s hget
    refine ⟨{ c with Sessions := mapDelete c.Sessions pid }, ?_, mapGet_mapDelete_same _ _, rfl,
      fun k hk => mapGet_mapDelete_other _ _ _ hk⟩
    simp only [EndSession, hget]
  · intro hnone
    simp only [EndSession, hnone]

/-- C16: Bob holds a session with Alice with root, send and receive chains
and one cached key; `EndSession` returns nil and removes the entry, and the
session object it unlinks still holds the root, both chains and the cached key,
none of them zeroized. -/
theorem end_session_leaves_keys :
    (EndSession toyCrypto (toyBobAfter [toyMessage 1]) (some 8)).map
        (fun r => (r.2, (mapGet r.1.Sessions 8).isNone)) = some (none, true) ∧
    (EndSessionUnlinked toyCrypto (toyBobAfter [toyMessage 1]) (some 8)).map
        (fun s => (s.RootChain, s.SendChain, s.ReceiveChain, s.CachedReceiveKeys)) =
      some (some 1065424469657, some 272748664232243, some 17874856459124290355,
        [(1, 69823658043454276)]) ∧
    toyCrypto.Zeroize 1065424469657 = 0 := by
  decide

/-! ## The send pipeline -/

/-- The associated data of the message `SendMessage` returns is the one it was
sealed with: ciphertext and IV are not encoded. -/
theorem EncodeAdditionalData_buildMessage (P : Crypto) (sender : P.PublicKey)
    (receiver : Option P.PublicKey) (next : P.PublicKey) (counter lastUpdate : Int)
    (change : Bool) (key : P.SymmetricKey) (plaintext : String) (iv : Bytes) :
    (buildMessage P sender receiver next counter lastUpdate change key plaintext iv).Ciphertext =
      P.AuthenticatedEncrypt key plaintext
        (EncodeAdditionalData P
          (buildMessage P sender receiver next counter lastUpdate change key plaintext iv)) iv :=
  rfl

/-- C18: `SendMessage` on a session with root `root`, partner key `partner`,
send chain `chain`, ratchet pair `my` and send counter `c`, with the fresh pair
`newKeys` and the IV `iv`. When the turn flag is set: the ratchet pair becomes
`newKeys`, the root becomes `R' = CombineKeys(root.DeriveKey(ROOT_LABEL),
DHCombine(partner, newKeys.private))`, the send chain becomes
`R'.DeriveKey(CHAIN_LABEL).DeriveKey(CHAIN_LABEL)`, last update and send
counter are `c + 1`, the flag is cleared, receive chain, receive counter and
partner key are unchanged, and the message has `Change = true`, carries
`newKeys.public` and is sealed under `R'.DeriveKey(CHAIN_LABEL).DeriveKey(KEY_LABEL)`
with its own associated data and `iv`. When the flag is not set: ratchet pair,
root and last update are unchanged, `Change = false`, the message is sealed
under `chain.DeriveKey(KEY_LABEL)` and the send chain advances by one
`CHAIN_LABEL` step. -/
theorem send_pipeline (P : Crypto) (c : Chatter P) (pid : P.PublicKey) (ident my : KeyPair P)
    (s : Session P) (root chain : P.SymmetricKey) (partner : P.PublicKey)
    (plaintext : String) (newKeys : KeyPair P) (iv : Bytes)
    (hid : c.Identity = some ident) (hget : mapGet c.Sessions pid = some s)
    (hroot : s.RootChain = some root) (hpartner : s.PartnerDHRatchet = some partner)
    (hchain : s.SendChain = some chain) (hmy : s.MyDHRatchet = some my) :
    ∃ (c' : Chatter P) (s' : Session P) (m : Message P),
      SendMessage P c (some pid) plaintext newKeys iv = some (c', some m, none) ∧
      mapGet c'.Sessions pid = some s' ∧
      s'.SendCounter = s.SendCounter + 1 ∧ m.Counter = s.SendCounter + 1 ∧
      s'.ReceiveChain = s.ReceiveChain ∧ s'.ReceiveCounter = s.ReceiveCounter ∧
      s'.PartnerDHRatchet = s.PartnerDHRatchet ∧ m.IV = iv ∧
      (s.Change = true →
        s'.MyDHRatchet = some newKeys ∧
        s'.RootChain = some (P.CombineKeys [P.DeriveKey root ROOT_LABEL,
          P.DHCombine partner newKeys.PrivateKey]) ∧
        s'.SendChain = some (P.DeriveKey (P.DeriveKey (P.CombineKeys
          [P.DeriveKey root ROOT_LABEL, P.DHCombine partner newKeys.PrivateKey])
          CHAIN_LABEL) CHAIN_LABEL) ∧
        s'.LastUpdate = s.SendCounter + 1 ∧ s'.Change = false ∧
        m.Change = true ∧ m.NextDHRatchet = some newKeys.PublicKey ∧
        m.LastUpdate = s.SendCounter + 1 ∧
        m.Ciphertext = P.AuthenticatedEncrypt
          (P.DeriveKey (P.DeriveKey (P.CombineKeys
            [P.DeriveKey root ROOT_LABEL, P.DHCombine partner newKeys.PrivateKey])
            CHAIN_LABEL) KEY_LABEL)
          plaintext (EncodeAdditionalData P m) iv) ∧
      (s.Change = false →
        s'.MyDHRatchet = s.MyDHRatchet ∧ s'.RootChain = s.RootChain ∧
        s'.LastUpdate = s.LastUpdate ∧ s'.Change = false ∧
        s'.SendChain = some (P.DeriveKey chain CHAIN_LABEL) ∧
        m.Change = false ∧ m.NextDHRatchet = some my.PublicKey ∧
        m.LastUpdate = s.LastUpdate ∧
        m.Ciphertext = P.AuthenticatedEncrypt (P.DeriveKey chain KEY_LABEL) plaintext
          (EncodeAdditionalData P m) iv) := by
  cases hflag : s.Change with
  | true =>
    have hbody := sendOnSession_ratchet P ident (some pid) s root partner plaintext newKeys iv
      hflag hroot hpartner
    have hsend := SendMessage_of_session P c pid s _ _ plaintext newKeys iv hget
      (by rw [hid]; exact hbody)
    refine ⟨_, _, _, hsend, mapGet_setSession_same _ _ _, rfl, rfl, rfl, rfl, rfl, rfl,
      fun _ => ⟨rfl, rfl, rfl, rfl, rfl, rfl, rfl, rfl, rfl⟩, fun h => by cases h⟩
  | false =>
    have hbody := sendOnSession_plain P ident my (some pid) s chain plaintext newKeys iv
      hflag hchain hmy
    have hsend := SendMessage_of_session P c pid s _ _ plaintext newKeys iv hget
      (by rw [hid]; exact hbody)
    refine ⟨_, _, _, hsend, mapGet_setSession_same _ _ _, rfl, rfl, rfl, rfl, rfl, rfl,
      (fun h => by cases h),
      fun _ => ⟨hmy.symm ▸ rfl, rfl, rfl, hflag, rfl, rfl, rfl, rfl, rfl⟩⟩

/-- Bob, whose turn flag is set, sends with a ratchet step; Alice, whose flag
is clear, sends without. -/
theorem send_pipeline_witness :
    (∃ (c' : Chatter toyCrypto) (m : Message toyCrypto),
      SendMessage toyCrypto toyEstablished.2 (some 8) "one" (toyPair 9) [1] =
        some (c', some m, none) ∧
      m.Change = true ∧ m.NextDHRatchet = some (toyPair 9).PublicKey ∧ m.LastUpdate = 1) ∧
    (∃ (c' : Chatter toyCrypto) (m : Message toyCrypto),
      SendMessage toyCrypto toyEstablished.1 (some 32) "one" (toyPair 9) [1] =
        some (c', some m, none) ∧
      m.Change = false ∧ m.NextDHRatchet = some (toyPair 7).PublicKey ∧ m.LastUpdate = 0) := by
  constructor
  · obtain ⟨c', s', m, h1, -, -, -, -, -, -, -, hset, -⟩ :=
      send_pipeline toyCrypto toyEstablished.2 8 (toyPair 5) (toyPair 4)
        (toyEstablished.2.sessionOf 8) 1065424469657 272748664232243 128 "one" (toyPair 9) [1]
        rfl rfl rfl rfl rfl rfl
    obtain ⟨-, -, -, -, -, g1, g2, g3, -⟩ := hset rfl
    exact ⟨c', m, h1, g1, g2, g3⟩
  · obtain ⟨c', s', m, h1, -, -, -, -, -, -, -, -, hclear⟩ :=
      send_pipeline toyCrypto toyEstablished.1 32 (toyPair 3) (toyPair 7)
        (toyEstablished.1.sessionOf 32) 1065424469657 272748664232243 16 "one" (toyPair 9) [1]
        rfl rfl rfl rfl rfl rfl
    obtain ⟨-, -, -, -, -, g1, g2, g3, -⟩ := hclear rfl
    exact ⟨c', m, h1, g1, g2, g3⟩

/-! ## Receiving leaves the send side alone -/

theorem SendSide.refl {P : Crypto} (s : Session P) : SendSide s s := ⟨rfl, rfl, rfl, rfl⟩

theorem SendSide.trans {P : Crypto} {s t u : Session P} (h1 : SendSide s t) (h2 : SendSide t u) :
    SendSide s u :=
  ⟨h2.1.trans h1.1, h2.2.1.trans h1.2.1, h2.2.2.1.trans h1.2.2.1, h2.2.2.2.trans h1.2.2.2⟩

theorem dhRatchet_sendSide (P : Crypto) (m : Message P) (s s' : Session P)
    (h : dhRatchet P m s = some s') : SendSide s s' := by
  obtain ⟨f1, f2, -, f4, f5, -⟩ := dhRatchet_frame P m s s' h
  exact ⟨f4, f5, f2, f1⟩

theorem bumpCounter_sendSide {P : Crypto} (s : Session P) (m : Message P) :
    SendSide s (bumpCounter s m) := by
  obtain ⟨f1, -, -, f4, -, -, f7, f8, -⟩ := bumpCounter_frame s m
  exact ⟨f7, f8, f4, f1⟩

theorem currentRatchet_sendSide (P : Crypto) (m : Message P) (s s' : Session P)
    (h : currentRatchet P m s = some s') : SendSide s s' := by
  obtain ⟨f1, f2, -, f4, f5, -⟩ := currentRatchet_frame P m s s' h
  exact ⟨f4, f5, f2, f1⟩

theorem skipBody_sendSide (P : Crypto) (m : Message P) (i : Int) (s s' : Session P)
    (h : skipBody P m i s = some s') : SendSide s s' := by
  unfold skipBody at h
  split at h
  · simp at h
  · rename_i s1 h1
    have hs1 : SendSide s s1 := by
      split at h1
      · exact dhRatchet_sendSide P m s s1 h1
      · simp only [Option.some.injEq] at h1
        subst h1
        exact SendSide.refl s
    split at h
    · simp at h
    · simp only [Option.some.injEq] at h
      subst h
      exact hs1

theorem skipLoop_sendSide (P : Crypto) (m : Message P) (n : Nat) :
    ∀ (i : Int) (s s' : Session P), skipLoop P m n i s = some s' → SendSide s s' := by
  induction n with
  | zero =>
    intro i s s' h
    simp only [skipLoop, Option.some.injEq] at h
    subst h
    exact SendSide.refl s
  | succ n ih =>
    intro i s s' h
    simp only [skipLoop] at h
    split at h
    · simp at h
    · rename_i s1 h1
      exact (skipBody_sendSide P m i s s1 h1).trans (ih (i + 1) s1 s' h)

theorem futureWalk_sendSide (P : Crypto) (m : Message P) (s s' : Session P)
    (h : futureWalk P m s = some s') : SendSide s s' := by
  unfold futureWalk at h
  split at h
  · simp at h
  · rename_i s1 h1
    have hs1 := skipLoop_sendSide P m _ _ s s1 h1
    split at h
    · exact hs1.trans (dhRatchet_sendSide P m s1 s' h)
    · simp only [Option.some.injEq] at h
      subst h
      exact hs1

/-- `ReceiveMessage` writes neither the send counter, nor the last-update
index, nor the send chain, nor the ratchet pair of the session. -/
theorem receiveOnSession_sendSide (P : Crypto) (s0 s' : Session P) (m : Message P)
    (val : String) (err : GoError) (h : receiveOnSession P s0 m = some (s', val, err)) :
    SendSide s0 s' := by
  unfold receiveOnSession at h
  simp only [] at h
  split at h
  · simp at h
  · rename_i s hs
    have h1 : SendSide s0 s :=
      (bumpCounter_sendSide s0 m).trans (currentRatchet_sendSide P m _ s hs)
    split at h
    · simp at h
    · split at h
      · split at h
        · simp only [Option.some.injEq, Prod.mk.injEq] at h
          obtain ⟨rfl, -, -⟩ := h
          exact h1
        · simp only [Option.some.injEq, Prod.mk.injEq] at h
          obtain ⟨rfl, -, -⟩ := h
          exact h1
      · split at h
        · split at h
          · simp at h
          · rename_i s2 hs2
            have h2 : SendSide s0 s2 := h1.trans (futureWalk_sendSide P m s s2 hs2)
            split at h
            · simp at h
            · split at h
              · simp only [Option.some.injEq, Prod.mk.injEq] at h
                obtain ⟨rfl, -, -⟩ := h
                exact h2
              · simp only [Option.some.injEq, Prod.mk.injEq] at h
                obtain ⟨rfl, -, -⟩ := h
                exact h2
        · split at h
          · simp at h
          · split at h
            · simp only [Option.some.injEq, Prod.mk.injEq] at h
              obtain ⟨rfl, -, -⟩ := h
              exact h1
            · simp only [Option.some.injEq, Prod.mk.injEq] at h
              obtain ⟨rfl, -, -⟩ := h
              exact h1

/-! ## What a call does to a session -/

/-- Whatever `SendMessage` returns: the send counter has advanced by one and
stamps the message, the message is addressed to the partner, and when the
last-update index was at most the send counter it still is, the message having
`Change` set exactly when its last-update index is its counter. -/
theorem sendOnSession_facts (P : Crypto) (identity : Option (KeyPair P))
    (receiver : Option P.PublicKey) (s s' : Session P) (m : Message P) (plaintext : String)
    (newKeys : KeyPair P) (iv : Bytes)
    (h : sendOnSession P identity receiver s plaintext newKeys iv = some (s', m)) :
    s'.SendCounter = s.SendCounter + 1 ∧ m.Counter = s.SendCounter + 1 ∧
    m.Receiver = receiver ∧
    (s.LastUpdate ≤ s.SendCounter →
      s'.LastUpdate ≤ s'.SendCounter ∧ (m.Change = true ↔ m.LastUpdate = m.Counter)) := by
  unfold sendOnSession at h
  cases hc : s.Change with
  | true =>
    simp only [hc, if_true] at h
    split at h
    · simp at h
    · rename_i s1 d hr
      split at hr
      · simp only [Option.some.injEq, Prod.mk.injEq] at hr
        obtain ⟨rfl, rfl⟩ := hr
        split at h
        · simp only [Option.some.injEq, Prod.mk.injEq] at h
          obtain ⟨rfl, rfl⟩ := h
          exact ⟨rfl, rfl, rfl, fun _ => ⟨le_refl _, ⟨fun _ => rfl, fun _ => rfl⟩⟩⟩
        · simp at h
      · simp at hr
  | false =>
    simp only [hc, Bool.false_eq_true, if_false] at h
    split at h
    · simp only [Option.some.injEq, Prod.mk.injEq] at h
      obtain ⟨rfl, rfl⟩ := h
      refine ⟨rfl, rfl, rfl, fun hle => ⟨?_, ?_⟩⟩
      · show s.LastUpdate ≤ s.SendCounter + 1
        omega
      · show (false = true ↔ s.LastUpdate = s.SendCounter + 1)
        constructor
        · intro hf
          cases hf
        · intro he
          omega
    · simp at h

theorem mapGet_setSession {P : Crypto} (c : Chatter P) (p k : P.PublicKey) (s : Session P) :
    mapGet (c.setSession p s).Sessions k = if k = p then some s else mapGet c.Sessions k := by
  by_cases h : k = p
  · subst h
    rw [if_pos rfl]
    exact mapGet_setSession_same _ _ _
  · rw [if_neg h]
    exact mapGet_mapSet_other _ _ _ _ h

/-- A call that leaves the chatter as it is and returns no message. -/
theorem SessionStep.unchanged {P : Crypto} (o : Option (Session P)) (k : P.PublicKey) :
    SessionStep o o none k :=
  Or.inl ⟨rfl, fun _ h => by cases h⟩

/-- Every call steps every session in one of the four ways of `SessionStep`. -/
theorem runCall_step (P : Crypto) (c c' : Chatter P) (call : Call P)
    (sent : Option (Message P)) (h : runCall P c call = some (c', sent)) (k : P.PublicKey) :
    SessionStep (mapGet c.Sessions k) (mapGet c'.Sessions k) sent k := by
  cases call with
  | initiate pid pair =>
    cases pid with
    | none => simp [runCall, InitiateHandshake] at h
    | some p =>
      cases hg : mapGet c.Sessions p with
      | some s =>
        simp only [runCall, InitiateHandshake, hg, Option.some.injEq, Prod.mk.injEq] at h
        obtain ⟨rfl, rfl⟩ := h
        exact SessionStep.unchanged _ _
      | none =>
        simp only [runCall, InitiateHandshake, hg, Option.some.injEq, Prod.mk.injEq] at h
        obtain ⟨rfl, rfl⟩ := h
        rw [mapGet_setSession]
        by_cases hk : k = p
        · subst hk
          rw [if_pos rfl, hg]
          exact Or.inr (Or.inl ⟨rfl, rfl, _, rfl, rfl, rfl⟩)
        · rw [if_neg hk]
          exact SessionStep.unchanged _ _
  | respond pid eph pair =>
    cases pid with
    | none => simp [runCall, ReturnHandshake] at h
    | some p =>
      cases hg : mapGet c.Sessions p with
      | some s =>
        simp only [runCall, ReturnHandshake, hg, Option.some.injEq, Prod.mk.injEq] at h
        obtain ⟨rfl, rfl⟩ := h
        exact SessionStep.unchanged _ _
      | none =>
        cases eph with
        | none => simp [runCall, ReturnHandshake, hg] at h
        | some e =>
          cases hid : c.Identity with
          | none => simp [runCall, ReturnHandshake, hg, hid] at h
          | some ident =>
            simp only [runCall, ReturnHandshake, hg, hid, Option.some.injEq,
              Prod.mk.injEq] at h
            obtain ⟨rfl, rfl⟩ := h
            rw [mapGet_setSession]
            by_cases hk : k = p
            · subst hk
              rw [if_pos rfl, hg]
              exact Or.inr (Or.inl ⟨rfl, rfl, _, rfl, rfl, rfl⟩)
            · rw [if_neg hk]
              exact SessionStep.unchanged _ _
  | finalize pid eph =>
    cases pid with
    | none => simp [runCall, FinalizeHandshake] at h
    | some p =>
      cases hg : mapGet c.Sessions p with
      | none =>
        simp only [runCall, FinalizeHandshake, hg, Option.some.injEq, Prod.mk.injEq] at h
        obtain ⟨rfl, rfl⟩ := h
        exact SessionStep.unchanged _ _
      | some s =>
        cases eph with
        | none => simp [runCall, FinalizeHandshake, hg] at h
        | some e =>
          cases hid : c.Identity with
          | none => simp [runCall, FinalizeHandshake, hg, hid] at h
          | some ident =>
            cases hmy : s.MyDHRatchet with
            | none => simp [runCall, FinalizeHandshake, hg, hid, hmy] at h
            | some my =>
              simp only [runCall, FinalizeHandshake, hg, hid, hmy, Option.some.injEq,
                Prod.mk.injEq] at h
              obtain ⟨rfl, rfl⟩ := h
              rw [mapGet_setSession]
              by_cases hk : k = p
              · subst hk
                rw [if_pos rfl, hg]
                exact Or.inr (Or.inr (Or.inl ⟨rfl, _, _, rfl, rfl, rfl, rfl⟩))
              · rw [if_neg hk]
                exact SessionStep.unchanged _ _
  | send pid plaintext newKeys iv =>
    cases pid with
    | none => simp [runCall, SendMessage] at h
    | some p =>
      cases hg : mapGet c.Sessions p with
      | none =>
        simp only [runCall, SendMessage, hg, Option.some.injEq, Prod.mk.injEq] at h
        obtain ⟨rfl, rfl⟩ := h
        exact SessionStep.unchanged _ _
      | some s =>
        cases hb : sendOnSession P c.Identity (some p) s plaintext newKeys iv with
        | none => simp [runCall, SendMessage, hg, hb] at h
        | some r =>
          obtain ⟨s', m⟩ := r
          simp only [runCall, SendMessage, hg, hb, Option.some.injEq, Prod.mk.injEq] at h
          obtain ⟨rfl, rfl⟩ := h
          obtain ⟨f1, f2, f3, f4⟩ := sendOnSession_facts P _ _ s s' m _ _ _ hb
          rw [mapGet_setSession]
          by_cases hk : k = p
          · subst hk
            rw [if_pos rfl, hg]
            exact Or.inr (Or.inr (Or.inr ⟨s, s', m, rfl, rfl, rfl, f3, f1, f2, f4⟩))
          · rw [if_neg hk]
            refine Or.inl ⟨rfl, fun m' hm' => ?_⟩
            cases hm'
            rw [f3]
            exact fun he => hk (Option.some.inj he).symm
  | receive message =>
    cases message with
    | none => simp [runCall, ReceiveMessage] at h
    | some m =>
      cases hs : m.Sender with
      | none => simp [runCall, ReceiveMessage, hs] at h
      | some sender =>
        cases hg : mapGet c.Sessions sender with
        | none =>
          simp only [runCall, ReceiveMessage, hs, hg, Option.some.injEq, Prod.mk.injEq] at h
          obtain ⟨rfl, rfl⟩ := h
          exact SessionStep.unchanged _ _
        | some s =>
          cases hb : receiveOnSession P s m with
          | none => simp [runCall, ReceiveMessage, hs, hg, hb] at h
          | some r =>
            obtain ⟨s', val, err⟩ := r
            simp only [runCall, ReceiveMessage, hs, hg, hb, Option.some.injEq,
              Prod.mk.injEq] at h
            obtain ⟨rfl, rfl⟩ := h
            obtain ⟨f1, f2, -, -⟩ := receiveOnSession_sendSide P s s' m val err hb
            rw [mapGet_setSession]
            by_cases hk : k = sender
            · subst hk
              rw [if_pos rfl, hg]
              exact Or.inr (Or.inr (Or.inl ⟨rfl, s, s', rfl, rfl, f1, f2⟩))
            · rw [if_neg hk]
              exact SessionStep.unchanged _ _

/-- A message returned by a call comes from a session the chatter held. -/
theorem runCall_sent (P : Crypto) (c c' : Chatter P) (call : Call P) (m : Message P)
    (h : runCall P c call = some (c', some m)) :
    ∃ (p : P.PublicKey) (s : Session P), mapGet c.Sessions p = some s ∧
      (s.LastUpdate ≤ s.SendCounter → (m.Change = true ↔ m.LastUpdate = m.Counter)) := by
  cases call with
  | initiate pid pair =>
    simp only [runCall] at h
    split at h <;> simp at h
  | respond pid eph pair =>
    simp only [runCall] at h
    split at h <;> simp at h
  | finalize pid eph =>
    simp only [runCall] at h
    split at h <;> simp at h
  | receive message =>
    simp only [runCall] at h
    split at h <;> simp at h
  | send pid plaintext newKeys iv =>
    cases pid with
    | none => simp [runCall, SendMessage] at h
    | some p =>
      cases hg : mapGet c.Sessions p with
      | none => simp [runCall, SendMessage, hg] at h
      | some s =>
        cases hb : sendOnSession P c.Identity (some p) s plaintext newKeys iv with
        | none => simp [runCall, SendMessage, hg, hb] at h
        | some r =>
          obtain ⟨s', m'⟩ := r
          simp only [runCall, SendMessage, hg, hb, Option.some.injEq, Prod.mk.injEq] at h
          obtain ⟨-, rfl⟩ := h
          obtain ⟨-, -, -, f4⟩ := sendOnSession_facts P _ _ s s' m' _ _ _ hb
          exact ⟨p, s, hg, fun hle => (f4 hle).2⟩

/-! ## Calls that panic -/

theorem dhRatchetPanicState_sendSide {P : Crypto} (m : Message P) (s : Session P) :
    SendSide s (dhRatchetPanicState m s) := by
  unfold dhRatchetPanicState
  split
  · exact SendSide.refl s
  · exact ⟨rfl, rfl, rfl, rfl⟩

theorem skipLoopPanicState_sendSide (P : Crypto) (m : Message P) (n : Nat) :
    ∀ (i : Int) (s : Session P), SendSide s (skipLoopPanicState P m n i s) := by
  induction n with
  | zero =>
    intro i s
    exact SendSide.refl s
  | succ n ih =>
    intro i s
    simp only [skipLoopPanicState]
    split
    · rename_i s1 h1
      exact (skipBody_sendSide P m i s s1 h1).trans (ih (i + 1) s1)
    · split
      · exact dhRatchetPanicState_sendSide m s
      · rename_i s1 h1
        split at h1
        · exact dhRatchet_sendSide P m s s1 h1
        · simp only [Option.some.injEq] at h1
          subst h1
          exact SendSide.refl s

/-- A panicking `ReceiveMessage` has written neither the send counter, nor the
last-update index, nor the send chain, nor the ratchet pair of the session. -/
theorem receivePanicState_sendSide (P : Crypto) (s0 : Session P) (m : Message P) :
    SendSide s0 (receivePanicState P s0 m) := by
  unfold receivePanicState
  split
  · exact (bumpCounter_sendSide s0 m).trans (dhRatchetPanicState_sendSide m _)
  · rename_i s hs
    have h1 : SendSide s0 s :=
      (bumpCounter_sendSide s0 m).trans (currentRatchet_sendSide P m _ s hs)
    split
    · exact h1
    · split
      · split
        · exact h1.trans (skipLoopPanicState_sendSide P m _ _ s)
        · rename_i s2 hs2
          have h2 : SendSide s0 s2 := h1.trans (skipLoop_sendSide P m _ _ s s2 hs2)
          split
          · split
            · exact h2.trans (dhRatchetPanicState_sendSide m s2)
            · rename_i s3 hs3
              exact h2.trans (dhRatchet_sendSide P m s2 s3 hs3)
          · exact h2
      · exact h1

/-- A panicking `SendMessage` has advanced the send counter by one, and keeps
the last-update index at most the send counter. -/
theorem sendPanicState_facts (P : Crypto) (s : Session P) (newKeys : KeyPair P) :
    (sendPanicState P s newKeys).SendCounter = s.SendCounter + 1 ∧
    (s.LastUpdate ≤ s.SendCounter →
      (sendPanicState P s newKeys).LastUpdate ≤ (sendPanicState P s newKeys).SendCounter) := by
  unfold sendPanicState
  cases hc : s.Change with
  | true =>
    simp only [hc, if_true]
    split
    · exact ⟨rfl, fun _ => le_refl _⟩
    · refine ⟨rfl, fun h => ?_⟩
      show s.LastUpdate ≤ s.SendCounter + 1
      omega
  | false =>
    simp only [hc, Bool.false_eq_true, if_false]
    split
    · refine ⟨rfl, fun h => ?_⟩
      show s.LastUpdate ≤ s.SendCounter + 1
      omega
    · refine ⟨rfl, fun h => ?_⟩
      show s.LastUpdate ≤ s.SendCounter + 1
      omega

/-- What a panicking call leaves keeps every last-update index at most its send
counter. -/
theorem panicState_bounded (P : Crypto) (c : Chatter P) (call : Call P)
    (h : LastUpdateBounded c) : LastUpdateBounded (panicState P c call) := by
  intro k s' hs'
  cases call with
  | initiate pid pair => exact h k s' hs'
  | respond pid eph pair => exact h k s' hs'
  | finalize pid eph => exact h k s' hs'
  | send pid plaintext newKeys iv =>
    cases pid with
    | none => exact h k s' hs'
    | some p =>
      cases hg : mapGet c.Sessions p with
      | none =>
        simp only [panicState, hg] at hs'
        exact h k s' hs'
      | some s =>
        simp only [panicState, hg] at hs'
        rw [mapGet_setSession] at hs'
        by_cases hk : k = p
        · subst hk
          rw [if_pos rfl] at hs'
          cases hs'
          exact (sendPanicState_facts P s newKeys).2 (h k s hg)
        · rw [if_neg hk] at hs'
          exact h k s' hs'
  | receive message =>
    cases message with
    | none => exact h k s' hs'
    | some m =>
      cases hsd : m.Sender with
      | none =>
        simp only [panicState, hsd] at hs'
        exact h k s' hs'
      | some sender =>
        cases hg : mapGet c.Sessions sender with
        | none =>
          simp only [panicState, hsd, hg] at hs'
          exact h k s' hs'
        | some s =>
          simp only [panicState, hsd, hg] at hs'
          rw [mapGet_setSession] at hs'
          by_cases hk : k = sender
          · subst hk
            rw [if_pos rfl] at hs'
            cases hs'
            obtain ⟨f1, f2, -, -⟩ := receivePanicState_sendSide P s m
            have := h k s hg
            omega
          · rw [if_neg hk] at hs'
            exact h k s' hs'

/-- What a panicking call leaves of the send counter for `pid`: one more when
the call is a `SendMessage` on that session, the same otherwise. -/
theorem panicState_counter (P : Crypto) (c : Chatter P) (call : Call P) (pid : P.PublicKey) :
    sendCounterOf (panicState P c call) pid =
      sendCounterOf c pid + (if reachesSend c pid call = true then 1 else 0) := by
  cases call with
  | initiate p pair => simp [panicState, reachesSend]
  | respond p eph pair => simp [panicState, reachesSend]
  | finalize p eph => simp [panicState, reachesSend]
  | send p plaintext newKeys iv =>
    cases p with
    | none => simp [panicState, reachesSend]
    | some p =>
      cases hg : mapGet c.Sessions p with
      | none => simp [panicState, reachesSend, hg]
      | some s =>
        by_cases hk : p = pid
        · subst hk
          simp only [panicState, reachesSend, hg, sendCounterOf, mapGet_setSession_same,
            decide_True, Option.isSome_some, Bool.and_self, if_true]
          exact (sendPanicState_facts P s newKeys).1
        · have hk' : pid ≠ p := fun e => hk e.symm
          simp only [panicState, reachesSend, hg, sendCounterOf, hk, decide_False,
            Bool.false_and, Bool.false_eq_true, if_false, add_zero]
          rw [mapGet_setSession, if_neg hk']
  | receive message =>
    cases message with
    | none => simp [panicState, reachesSend]
    | some m =>
      cases hsd : m.Sender with
      | none => simp [panicState, reachesSend, hsd]
      | some sender =>
        cases hg : mapGet c.Sessions sender with
        | none => simp [panicState, reachesSend, hsd, hg]
        | some s =>
          simp only [panicState, reachesSend, hsd, hg, sendCounterOf, Bool.false_eq_true,
            if_false, add_zero]
          rw [mapGet_setSession]
          by_cases hk : pid = sender
          · subst hk
            rw [if_pos rfl, hg]
            exact (receivePanicState_sendSide P s m).1
          · rw [if_neg hk]

/-- What a returning call does to the send counter for `pid`: a `SendMessage`
on that session returns a message for `pid` stamped with the advanced counter;
any other call keeps the counter and returns no message for `pid`. -/
theorem runCall_counter (P : Crypto) (c c' : Chatter P) (call : Call P)
    (sent : Option (Message P)) (h : runCall P c call = some (c', sent)) (pid : P.PublicKey) :
    (reachesSend c pid call = true →
      ∃ m, sent = some m ∧ m.Receiver = some pid ∧ m.Counter = sendCounterOf c pid + 1 ∧
        sendCounterOf c' pid = sendCounterOf c pid + 1) ∧
    (reachesSend c pid call = false →
      sendCounterOf c' pid = sendCounterOf c pid ∧ ∀ m, sent = some m → m.Receiver ≠ some pid) := by
  have hother : sent = none → reachesSend c pid call = false →
      (reachesSend c pid call = true →
        ∃ m, sent = some m ∧ m.Receiver = some pid ∧ m.Counter = sendCounterOf c pid + 1 ∧
          sendCounterOf c' pid = sendCounterOf c pid + 1) ∧
      (reachesSend c pid call = false →
        sendCounterOf c' pid = sendCounterOf c pid ∧
          ∀ m, sent = some m → m.Receiver ≠ some pid) := by
    intro hsent hreach
    refine ⟨fun ht => absurd (hreach.symm.trans ht) (by simp), fun _ => ⟨?_, fun m hm => ?_⟩⟩
    · rcases runCall_step P c c' call sent h pid with ⟨hsame, -⟩ | ⟨hold, -, s', hnew, h0, -⟩ |
        ⟨-, s, s', hold, hnew, hctr, -⟩ | ⟨s, s', m, -, -, hm, -⟩
      · unfold sendCounterOf
        rw [hsame]
      · unfold sendCounterOf
        rw [hold, hnew]
        exact h0
      · unfold sendCounterOf
        rw [hold, hnew]
        exact hctr
      · rw [hsent] at hm
        cases hm
    · rw [hsent] at hm
      cases hm
  cases call with
  | initiate p pair =>
    refine hother ?_ rfl
    simp only [runCall] at h
    split at h <;> simp at h
    exact h.2.symm
  | respond p eph pair =>
    refine hother ?_ rfl
    simp only [runCall] at h
    split at h <;> simp at h
    exact h.2.symm
  | finalize p eph =>
    refine hother ?_ rfl
    simp only [runCall] at h
    split at h <;> simp at h
    exact h.2.symm
  | receive message =>
    refine hother ?_ rfl
    simp only [runCall] at h
    split at h <;> simp at h
    exact h.2.symm
  | send p plaintext newKeys iv =>
    cases p with
    | none => simp [runCall, SendMessage] at h
    | some p =>
      cases hg : mapGet c.Sessions p with
      | none =>
        have hreach : reachesSend c pid (Call.send (some p) plaintext newKeys iv) = false := by
          simp [reachesSend, hg]
        refine hother ?_ hreach
        simp only [runCall, SendMessage, hg, Option.some.injEq, Prod.mk.injEq] at h
        exact h.2.symm
      | some s =>
        cases hb : sendOnSession P c.Identity (some p) s plaintext newKeys iv with
        | none => simp [runCall, SendMessage, hg, hb] at h
        | some r =>
          obtain ⟨s', m⟩ := r
          simp only [runCall, SendMessage, hg, hb, Option.some.injEq, Prod.mk.injEq] at h
          obtain ⟨rfl, rfl⟩ := h
          obtain ⟨f1, f2, f3, -⟩ := sendOnSession_facts P _ _ s s' m _ _ _ hb
          by_cases hk : p = pid
          · subst hk
            refine ⟨fun _ => ⟨m, rfl, f3, ?_, ?_⟩, fun hf => ?_⟩
            · unfold sendCounterOf
              rw [hg]
              exact f2
            · unfold sendCounterOf
              rw [mapGet_setSession_same, hg]
              exact f1
            · simp [reachesSend, hg] at hf
          · have hk' : pid ≠ p := fun e => hk e.symm
            refine ⟨fun ht => ?_, fun _ => ⟨?_, fun m' hm' => ?_⟩⟩
            · simp [reachesSend, hk] at ht
            · unfold sendCounterOf
              rw [mapGet_setSession, if_neg hk']
            · cases hm'
              rw [f3]
              exact fun he => hk (Option.some.inj he)

/-! ## Send counters along a run -/

theorem countersFrom_succ (k : Int) (n : Nat) :
    countersFrom k (n + 1) = (k + 1) :: countersFrom (k + 1) n := by
  unfold countersFrom
  rw [List.range_succ_eq_map, List.map_cons, List.map_map]
  congr 1
  · simp
  · apply List.map_congr_left
    intro i _
    simp only [Function.comp_apply, Nat.succ_eq_add_one]
    push_cast
    omega

theorem countersFrom_increasing (k : Int) (n : Nat) :
    (countersFrom k n).Pairwise (fun x y => x < y) := by
  unfold countersFrom
  rw [List.pairwise_map]
  exact (List.pairwise_lt_range n).imp (fun h => by omega)

/-- Along any run, the `i`-th `SendMessage` call made on the session for `pid`
stamps the message it returns with the send counter the run started with plus
`i`; the send counter ends that many calls further; and the messages of the run
addressed to `pid` are those these calls returned. -/
theorem runCalls_attempts (P : Crypto) (pid : P.PublicKey) :
    ∀ (calls : List (Call P)) (c : Chatter P),
      (∀ (i : Nat) (m : Message P), (sendAttempts P pid c calls)[i]? = some (some m) →
        m.Counter = sendCounterOf c pid + (i : Int) + 1) ∧
      sendCounterOf (runCalls P c calls).1 pid =
        sendCounterOf c pid + ((sendAttempts P pid c calls).length : Int) ∧
      sentTo pid (runCalls P c calls).2 = (sendAttempts P pid c calls).filterMap id := by
  intro calls
  induction calls with
  | nil =>
    intro c
    simp [runCalls, sendAttempts, sentTo]
  | cons call rest ih =>
    intro c
    cases hrun : runCall P c call with
    | none =>
      obtain ⟨ih1, ih2, ih3⟩ := ih (panicState P c call)
      have hpc := panicState_counter P c call pid
      simp only [runCalls, sendAttempts, hrun]
      cases hreach : reachesSend c pid call with
      | true =>
        rw [hreach, if_pos rfl] at hpc
        rw [if_pos rfl, List.singleton_append]
        refine ⟨fun i m hi => ?_, ?_, ?_⟩
        · cases i with
          | zero => simp at hi
          | succ j =>
            rw [List.getElem?_cons_succ] at hi
            have := ih1 j m hi
            rw [this, hpc]
            push_cast
            omega
        · rw [ih2, hpc, List.length_cons]
          push_cast
          omega
        · rw [ih3]
          rfl
      | false =>
        rw [hreach, if_neg (by simp), add_zero] at hpc
        rw [if_neg (by simp), List.nil_append]
        rw [hpc] at ih1 ih2
        exact ⟨ih1, ih2, ih3⟩
    | some r =>
      obtain ⟨c', sent⟩ := r
      obtain ⟨ih1, ih2, ih3⟩ := ih c'
      obtain ⟨hyes, hno⟩ := runCall_counter P c c' call sent hrun pid
      simp only [runCalls, sendAttempts, hrun]
      cases hreach : reachesSend c pid call with
      | true =>
        obtain ⟨m0, rfl, hrecv, hm0, hc'⟩ := hyes hreach
        rw [if_pos rfl, List.singleton_append]
        refine ⟨fun i m hi => ?_, ?_, ?_⟩
        · cases i with
          | zero =>
            simp only [List.getElem?_cons_zero, Option.some.injEq] at hi
            subst hi
            rw [hm0]
            simp
          | succ j =>
            rw [List.getElem?_cons_succ] at hi
            have := ih1 j m hi
            rw [this, hc']
            push_cast
            omega
        · rw [ih2, hc', List.length_cons]
          push_cast
          omega
        · have hkeep : sentTo pid ((some m0).toList ++ (runCalls P c' rest).2) =
              m0 :: sentTo pid (runCalls P c' rest).2 := by
            simp [sentTo, List.filter_cons, hrecv]
          rw [hkeep, ih3]
          rfl
      | false =>
        obtain ⟨hc', hnot⟩ := hno hreach
        rw [if_neg (by simp), List.nil_append]
        have hdrop : sentTo pid (sent.toList ++ (runCalls P c' rest).2) =
            sentTo pid (runCalls P c' rest).2 := by
          cases sent with
          | none => rfl
          | some m =>
            have := hnot m rfl
            simp [sentTo, List.filter_cons, this]
        rw [hdrop]
        rw [hc'] at ih1 ih2
        exact ⟨ih1, ih2, ih3⟩

/-- Messages stamped with the position of their call carry strictly increasing
counters, all above the starting counter. -/
theorem stamped_increasing {P : Crypto} :
    ∀ (l : List (Option (Message P))) (k : Int),
      (∀ (i : Nat) (m : Message P), l[i]? = some (some m) → m.Counter = k + (i : Int) + 1) →
      ((l.filterMap id).map (fun m => m.Counter)).Pairwise (fun x y => x < y) ∧
      ∀ m ∈ l.filterMap id, k < m.Counter := by
  intro l
  induction l with
  | nil =>
    intro k _
    simp
  | cons a l ih =>
    intro k h
    have h' : ∀ (i : Nat) (m : Message P), l[i]? = some (some m) →
        m.Counter = (k + 1) + (i : Int) + 1 := by
      intro i m hi
      have := h (i + 1) m (by rw [List.getElem?_cons_succ]; exact hi)
      push_cast at this
      omega
    obtain ⟨p1, p2⟩ := ih (k + 1) h'
    cases a with
    | none =>
      have e : (none :: l).filterMap id = l.filterMap id := rfl
      rw [e]
      exact ⟨p1, fun m hm => by have := p2 m hm; omega⟩
    | some m0 =>
      have e : (some m0 :: l).filterMap id = m0 :: l.filterMap id := rfl
      have h0 : m0.Counter = k + 1 := by
        have := h 0 m0 (List.getElem?_cons_zero ..)
        simpa using this
      rw [e]
      refine ⟨?_, fun m hm => ?_⟩
      · rw [List.map_cons, List.pairwise_cons]
        refine ⟨fun x hx => ?_, p1⟩
        obtain ⟨m, hm, rfl⟩ := List.mem_map.1 hx
        have := p2 m hm
        omega
      · rcases List.mem_cons.1 hm with rfl | hm
        · omega
        · have := p2 m hm
          omega

/-- When every call returned its message, the counters are consecutive. -/
theorem stamped_consecutive {P : Crypto} :
    ∀ (l : List (Option (Message P))) (k : Int),
      (∀ (i : Nat) (m : Message P), l[i]? = some (some m) → m.Counter = k + (i : Int) + 1) →
      (∀ a ∈ l, a.isSome = true) →
      (l.filterMap id).map (fun m => m.Counter) = countersFrom k (l.filterMap id).length ∧
      (l.filterMap id).length = l.length := by
  intro l
  induction l with
  | nil =>
    intro k _ _
    exact ⟨rfl, rfl⟩
  | cons a l ih =>
    intro k h hall
    have h' : ∀ (i : Nat) (m : Message P), l[i]? = some (some m) →
        m.Counter = (k + 1) + (i : Int) + 1 := by
      intro i m hi
      have := h (i + 1) m (by rw [List.getElem?_cons_succ]; exact hi)
      push_cast at this
      omega
    cases a with
    | none => exact absurd (hall none (List.mem_cons_self _ _)) (by simp)
    | some m0 =>
      have e : (some m0 :: l).filterMap id = m0 :: l.filterMap id := rfl
      have h0 : m0.Counter = k + 1 := by
        have := h 0 m0 (List.getElem?_cons_zero ..)
        simpa using this
      obtain ⟨q1, q2⟩ := ih (k + 1) h' (fun a ha => hall a (List.mem_cons_of_mem _ ha))
      rw [e, List.map_cons, List.length_cons, countersFrom_succ, h0, q1, q2, List.length_cons]
      exact ⟨rfl, rfl⟩

/-- C17 (as stated, refuted): Alice initiates a handshake with Bob and calls
`SendMessage` before finalizing; the call panics at line 197 on the nil send
chain, after line 180 has advanced the send counter to 1. She finalizes and
sends: her first successful `SendMessage` on the session returns a message with
counter 2 and leaves the send counter at 2. -/
theorem early_send_uses_up_a_counter :
    (SendMessage toyCrypto (runCalls toyCrypto toyAlice (toyEarlyCalls.take 1)).1 (some 32) "zero"
      (toyPair 12) [0]).isNone = true ∧
    sendCounterOf (runCalls toyCrypto toyAlice (toyEarlyCalls.take 1)).1 32 = 0 ∧
    sendCounterOf (runCalls toyCrypto toyAlice (toyEarlyCalls.take 2)).1 32 = 1 ∧
    (runCalls toyCrypto toyAlice (toyEarlyCalls.take 2)).2.length = 0 ∧
    (SendMessage toyCrypto (runCalls toyCrypto toyAlice (toyEarlyCalls.take 3)).1 (some 32) "one"
        (toyPair 14) [1]).map (fun r => (r.2.1.map (fun m => m.Counter), r.2.2,
          sendCounterOf r.1 32)) = some (some 2, none, 2) ∧
    (runCalls toyCrypto toyAlice (toyEarlyCalls.take 4)).2.map (fun m => m.Counter) = [2] := by
  decide

/-- C17 (amended): on a chatter that has no session for a partner yet, along
any run of handshake, send and receive calls (the session being created in the
run; a call that panics is recovered from): when no `SendMessage` call on the
session has panicked, the `k`-th successful one returns counter `k`, the
counters being 1, 2, ... in this order, and the send counter ends at their
number; in every run the counters of the messages sent over the session are
strictly increasing, so no counter is used twice. More precisely, the `n`-th
`SendMessage` call made on the session, when it returns a message, returns one
with counter `n`, the send counter ends at the number of these calls, and the
messages of the run addressed to the partner are those these calls returned. -/
theorem send_counter_counts_send_calls (P : Crypto) (c : Chatter P) (pid : P.PublicKey)
    (calls : List (Call P)) (hfresh : mapGet c.Sessions pid = none) :
    ((∀ a ∈ sendAttempts P pid c calls, a.isSome = true) →
      (sentTo pid (runCalls P c calls).2).map (fun m => m.Counter) =
        (List.range (sentTo pid (runCalls P c calls).2).length).map
          (fun (i : Nat) => (i : Int) + 1) ∧
      sendCounterOf (runCalls P c calls).1 pid =
        ((sentTo pid (runCalls P c calls).2).length : Int)) ∧
    ((sentTo pid (runCalls P c calls).2).map (fun m => m.Counter)).Pairwise
      (fun x y => x < y) ∧
    (∀ (i : Nat) (m : Message P), (sendAttempts P pid c calls)[i]? = some (some m) →
      m.Counter = (i : Int) + 1) ∧
    sendCounterOf (runCalls P c calls).1 pid = ((sendAttempts P pid c calls).length : Int) ∧
    sentTo pid (runCalls P c calls).2 = (sendAttempts P pid c calls).filterMap id := by
  obtain ⟨h1, h2, h3⟩ := runCalls_attempts P pid calls c
  have h0 : sendCounterOf c pid = 0 := by
    unfold sendCounterOf
    rw [hfresh]
  rw [h0] at h1 h2
  refine ⟨fun hall => ?_, ?_, fun i m hi => by rw [h1 i m hi]; omega, by rw [h2]; omega, h3⟩
  · obtain ⟨q1, q2⟩ := stamped_consecutive _ 0 h1 hall
    refine ⟨?_, ?_⟩
    · rw [h3, q1]
      unfold countersFrom
      apply List.map_congr_left
      intro i _
      omega
    · rw [h2, h3, q2]
      omega
  · rw [h3]
    exact (stamped_increasing _ 0 h1).1

/-- The send counter cannot outrun the calls: along any run it grows by at most
the number of calls made. -/
theorem send_counter_at_most_calls (P : Crypto) (pid : P.PublicKey) :
    ∀ (calls : List (Call P)) (c : Chatter P),
      sendCounterOf (runCalls P c calls).1 pid ≤ sendCounterOf c pid + (calls.length : Int) := by
  intro calls c
  have hlen : ∀ (calls : List (Call P)) (c : Chatter P),
      (sendAttempts P pid c calls).length ≤ calls.length := by
    intro calls
    induction calls with
    | nil =>
      intro c
      simp [sendAttempts]
    | cons call rest ih =>
      intro c
      cases hrun : runCall P c call with
      | none =>
        simp only [sendAttempts, hrun, List.length_append, List.length_cons]
        have := ih (panicState P c call)
        split <;> simp <;> omega
      | some r =>
        obtain ⟨c', sent⟩ := r
        simp only [sendAttempts, hrun, List.length_append, List.length_cons]
        have := ih c'
        split <;> simp <;> omega
  have h := (runCalls_attempts P pid calls c).2.1
  have := hlen calls c
  omega

/-- Alice's run with the early send: of her three `SendMessage` calls on the
session the first panics and the others return counters 2 and 3; her send
counter ends at 3. In her run without an early send the three successful sends
carry the counters 1, 2, 3. -/
theorem send_counter_counts_send_calls_witness :
    (sendAttempts toyCrypto 32 toyAlice toyEarlyCalls).map (Option.map (fun m => m.Counter)) =
      [none, some 2, some 3] ∧
    sendCounterOf (runCalls toyCrypto toyAlice toyEarlyCalls).1 32 = 3 ∧
    (sentTo 32 (runCalls toyCrypto toyAlice toyEarlyCalls).2).map (fun m => m.Counter) = [2, 3] ∧
    (sentTo 32 (runCalls toyCrypto toyAlice toyCalls).2).map (fun m => m.Counter) = [1, 2, 3] :=
  ⟨by decide,
    (send_counter_counts_send_calls toyCrypto toyAlice 32 toyEarlyCalls rfl).2.2.2.1.trans
      (by decide),
    (congrArg (List.map (fun m => m.Counter))
      (send_counter_counts_send_calls toyCrypto toyAlice 32 toyEarlyCalls rfl).2.2.2.2).trans
      (by decide),
    ((send_counter_counts_send_calls toyCrypto toyAlice 32 toyCalls rfl).1
      (by decide)).1.trans (by decide)⟩

/-! ## The last-update index along a run -/

/-- Along any run the last-update index of every session stays at most its
send counter, and every message sent has `Change` set exactly when its
last-update index is its counter. -/
theorem runCalls_lastUpdate (P : Crypto) :
    ∀ (calls : List (Call P)) (c : Chatter P), LastUpdateBounded c →
      LastUpdateBounded (runCalls P c calls).1 ∧
      ∀ m ∈ (runCalls P c calls).2, (m.Change = true ↔ m.LastUpdate = m.Counter) := by
  intro calls
  induction calls with
  | nil =>
    intro c hc
    exact ⟨hc, fun m hm => by simp [runCalls] at hm⟩
  | cons call rest ih =>
    intro c hc
    cases hrun : runCall P c call with
    | none =>
      simp only [runCalls, hrun]
      exact ih (panicState P c call) (panicState_bounded P c call hc)
    | some r =>
      obtain ⟨c', sent⟩ := r
      have hc' : LastUpdateBounded c' := by
        intro k s' hs'
        rcases runCall_step P c c' call sent hrun k with ⟨hsame, -⟩ |
          ⟨-, -, t, hnew, h0, h1⟩ | ⟨-, s, t, hold, hnew, h0, h1⟩ |
          ⟨s, t, m, hold, hnew, -, -, -, -, himp⟩
        · exact hc k s' (hsame ▸ hs')
        · rw [hnew] at hs'
          cases hs'
          omega
        · rw [hnew] at hs'
          cases hs'
          have := hc k s hold
          omega
        · rw [hnew] at hs'
          cases hs'
          exact (himp (hc k s hold)).1
      obtain ⟨ih1, ih2⟩ := ih c' hc'
      simp only [runCalls, hrun]
      refine ⟨ih1, fun m hm => ?_⟩
      rcases List.mem_append.1 hm with hm | hm
      · cases sent with
        | none => simp at hm
        | some m' =>
          simp only [Option.toList_some, List.mem_singleton] at hm
          subst hm
          obtain ⟨p, s, hget, himp⟩ := runCall_sent P c c' call m hrun
          exact himp (hc p s hget)
      · exact ih2 m hm

/-- C19: starting from a chatter with no session, along any run of
`InitiateHandshake`, `ReturnHandshake`, `FinalizeHandshake`, `SendMessage` and
`ReceiveMessage` calls (panicking calls included), every session has `LastUpdate ≤ SendCounter`, and every
message returned by `SendMessage` has `Change = true` exactly when its
`LastUpdate` equals its `Counter`: the flag tested on the receiver's current
path and the comparison made on its future path single out the same
messages. -/
theorem last_update_bounded (P : Crypto) (identity : Option (KeyPair P))
    (calls : List (Call P)) :
    (∀ k s, mapGet (runCalls P { Identity := identity, Sessions := [] } calls).1.Sessions k =
        some s → s.LastUpdate ≤ s.SendCounter) ∧
    ∀ m ∈ (runCalls P { Identity := identity, Sessions := [] } calls).2,
      (m.Change = true ↔ m.LastUpdate = m.Counter) :=
  runCalls_lastUpdate P calls { Identity := identity, Sessions := [] }
    (fun k s h => by simp [mapGet] at h)

/-- Alice's run, from her creation: the bound holds for her session with Bob
and her three messages have the flag where it belongs. -/
theorem last_update_bounded_witness :
    ((runCalls toyCrypto toyAlice toyCalls).1.sessionOf 32).LastUpdate ≤
      ((runCalls toyCrypto toyAlice toyCalls).1.sessionOf 32).SendCounter ∧
    (runCalls toyCrypto toyAlice toyCalls).2.map
        (fun m => (m.Change, m.LastUpdate, m.Counter)) =
      [(false, 0, 1), (true, 2, 2), (false, 2, 3)] ∧
    ∀ m ∈ (runCalls toyCrypto toyAlice toyCalls).2,
      (m.Change = true ↔ m.LastUpdate = m.Counter) :=
  ⟨(last_update_bounded toyCrypto (some (toyPair 3)) toyCalls).1 32 _ rfl, by decide,
    (last_update_bounded toyCrypto (some (toyPair 3)) toyCalls).2⟩

/-! ## Replay -/

/-- C20: Bob, after the handshake, rejects a tampered copy of message 2 (the
key of the skipped counter 1 stays cached), accepts message 1 in order, and
accepts message 1 a second time on the past path with the cached key; the same
happens, with the receive counter already at 2, after a tampered copy of
message 3 and the in-order messages 1 and 2. -/
theorem replayed_message_accepted_twice :
    (receiveAll toyCrypto toyEstablished.2
        [tamper (toyMessage 1), toyMessage 0, toyMessage 0]).map (fun r => r.2) =
      some [("", some "authentication failed"), ("one", none), ("one", none)] ∧
    (receiveAll toyCrypto toyEstablished.2
        [tamper (toyMessage 2), toyMessage 0, toyMessage 1, toyMessage 0]).map (fun r => r.2) =
      some [("", some "authentication failed"), ("one", none), ("two", none), ("one", none)] := by
  decide

/-! ## What the associated data does tell apart -/

theorem littleEndian32_injective (a b : Int) (ha : 0 ≤ a ∧ a < 2 ^ 32) (hb : 0 ≤ b ∧ b < 2 ^ 32)
    (h : littleEndian32 a = littleEndian32 b) : a = b := by
  have hv := congrArg littleEndianValue h
  rw [littleEndianValue_littleEndian32, littleEndianValue_littleEndian32] at hv
  have h1 : a % 2 ^ 32 = a := Int.emod_eq_of_lt ha.1 ha.2
  have h2 : b % 2 ^ 32 = b := Int.emod_eq_of_lt hb.1 hb.2
  rw [h1, h2] at hv
  omega

/-- C15 (amended): `EncodeAdditionalData` encodes the first five fields of a
message and not the flag `Change`. With fingerprints of the fixed length and
counters in `[0, 2^32)`, two messages with the same associated data agree on
the counter, on the last-update index and on the three fingerprint slots
(sender, receiver, ratchet key; where both keys are present, on their
fingerprints); and replacing the flag `Change` alone never changes the
associated data. -/
theorem additional_data_separates (P : Crypto)
    (hfp : ∀ k, (P.Fingerprint k).length = P.FINGERPRINT_LENGTH) (m m' : Message P)
    (hc : 0 ≤ m.Counter ∧ m.Counter < 2 ^ 32) (hc' : 0 ≤ m'.Counter ∧ m'.Counter < 2 ^ 32)
    (hl : 0 ≤ m.LastUpdate ∧ m.LastUpdate < 2 ^ 32)
    (hl' : 0 ≤ m'.LastUpdate ∧ m'.LastUpdate < 2 ^ 32) :
    (EncodeAdditionalData P m = EncodeAdditionalData P m' →
      m.Counter = m'.Counter ∧ m.LastUpdate = m'.LastUpdate ∧
      fingerprintSlot P m.Sender = fingerprintSlot P m'.Sender ∧
      fingerprintSlot P m.Receiver = fingerprintSlot P m'.Receiver ∧
      fingerprintSlot P m.NextDHRatchet = fingerprintSlot P m'.NextDHRatchet ∧
      (∀ k k', m.Sender = some k → m'.Sender = some k' → P.Fingerprint k = P.Fingerprint k') ∧
      (∀ k k', m.Receiver = some k → m'.Receiver = some k' →
        P.Fingerprint k = P.Fingerprint k') ∧
      (∀ k k', m.NextDHRatchet = some k → m'.NextDHRatchet = some k' →
        P.Fingerprint k = P.Fingerprint k')) ∧
    ∀ change : Bool, EncodeAdditionalData P (withChange m change) = EncodeAdditionalData P m := by
  refine ⟨fun h => ?_, fun _ => rfl⟩
  rw [EncodeAdditionalData_eq_spec P hfp, EncodeAdditionalData_eq_spec P hfp] at h
  unfold specAdditionalData at h
  have hlen := fingerprintSlot_length P hfp
  obtain ⟨h4, e5⟩ := List.append_inj' h (by rw [hlen, hlen])
  obtain ⟨h3, e4⟩ := List.append_inj' h4 (by rw [hlen, hlen])
  obtain ⟨h2, e3⟩ := List.append_inj' h3 (by rw [hlen, hlen])
  obtain ⟨e1, e2⟩ := List.append_inj' h2
    (by rw [littleEndian32_length, littleEndian32_length])
  refine ⟨littleEndian32_injective _ _ hc hc' e1, littleEndian32_injective _ _ hl hl' e2,
    e3, e4, e5, fun k k' hk hk' => ?_, fun k k' hk hk' => ?_, fun k k' hk hk' => ?_⟩
  · rw [hk, hk'] at e3
    exact e3
  · rw [hk, hk'] at e4
    exact e4
  · rw [hk, hk'] at e5
    exact e5

/-- Alice's messages 1 and 2 have different associated data (their counters
differ), and flipping the flag of message 1 leaves its associated data as it
is. -/
theorem additional_data_separates_witness :
    EncodeAdditionalData toyCrypto (toyMessage 0) ≠ EncodeAdditionalData toyCrypto (toyMessage 1) ∧
    EncodeAdditionalData toyCrypto (withChange (toyMessage 0) true) =
      EncodeAdditionalData toyCrypto (toyMessage 0) :=
  ⟨fun h => absurd
      ((additional_data_separates toyCrypto (fun _ => rfl) (toyMessage 0) (toyMessage 1)
        (by decide) (by decide) (by decide) (by decide)).1 h).1 (by decide),
    (additional_data_separates toyCrypto (fun _ => rfl) (toyMessage 0) (toyMessage 1)
      (by decide) (by decide) (by decide) (by decide)).2 true⟩

end Chatterbox
